import Mathlib

/-!
# Verification of the topology reconciliation pipeline

Shallow embedding of `src/update/topology.py`: the per-device pipeline that
reconciles one polling-cycle snapshot into the Device, L1Interface, Vlan,
VlanPort, Mac, MacPort and MacIp tables.

Modelling conventions:
* Python namedtuple payloads (`IDevice`, `IL1Interface`, ...) become Lean
  structures with the same field names.
* The persistence engine (`switchmap.server.db.table.*`, not under `src/`) is
  modelled from the spec (section 6): per table `exists` (lookup by natural
  key), `insert` (rows get sequential identifiers), `update` (rewrite the row
  stored under an identifier).  A table is a list of `Row` values plus the
  next fresh identifier.
* Python dict comprehensions (`{_.ifindex: _ for _ in ...}`) keep the last
  binding for a repeated key, hence lookups search the reversed list.
* `time.time()` is a cycle-level parameter `now`; `socket.gethostbyaddr`,
  `general.ipaddress` and `general.mac` (also outside `src/`) are oracle
  parameters in `Env`.
* Raised Python exceptions (KeyError on a malformed snapshot, AttributeError
  in `Topology.macport`) are modelled as `Except DB`, the error value carrying
  the store at the moment of the raise.
* The yaml dump to `/tmp` and all logging calls are I/O noise with no effect
  on the store and are not modelled.
-/

set_option maxHeartbeats 1000000

namespace Switchmap

/-! ## Generic store tables (modelled from the spec, section 6) -/

/-- A stored row: a payload `val` under an integer identifier `idx`. -/
structure Row (α : Type) where
  idx : Nat
  val : α
deriving Repr, DecidableEq

/-- A table of the persistence engine: rows in insertion order plus the next
identifier handed out by `insert`. -/
structure Table (α : Type) where
  rows : List (Row α)
  next : Nat
deriving Repr, DecidableEq

namespace Table

/-- The empty table; identifiers start at 1. -/
def empty (α : Type) : Table α := ⟨[], 1⟩

/-- `update(identifier, row)`: overwrite every column of the row stored under
`i` with the payload `v`. -/
def update (t : Table α) (i : Nat) (v : α) : Table α :=
  ⟨t.rows.map (fun r => if r.idx = i then ⟨i, v⟩ else r), t.next⟩

/-- Insert a single row, assigning the next identifier. -/
def insertOne (t : Table α) (v : α) : Table α :=
  ⟨t.rows ++ [⟨t.next, v⟩], t.next + 1⟩

/-- `insert(batch)`: insert rows in order, assigning sequential identifiers. -/
def insertMany (t : Table α) (vs : List α) : Table α :=
  vs.foldl insertOne t

/-- `exists(...)`: first row satisfying the key predicate. -/
def findRow (t : Table α) (p : Row α → Bool) : Option (Row α) :=
  t.rows.find? p

end Table

/-- Lookup in a Python dict comprehension built from `rows`: the last row whose
key matches wins. -/
def dictFind {α : Type} (rows : List (Row α)) (p : Row α → Bool) : Option (Row α) :=
  rows.reverse.find? p

/-- Stable insertion into a sorted list (placed before the first element it
compares `le` to). -/
def insertLe {α : Type} (le : α → α → Bool) (a : α) : List α → List α
  | [] => [a]
  | b :: l => if le a b then a :: b :: l else b :: insertLe le a l

/-- Python's `sorted(...)`: a stable sort, written structurally so that it
kernel-reduces on concrete inputs (`List.mergeSort` does not). -/
def pySorted {α : Type} (le : α → α → Bool) : List α → List α
  | [] => []
  | a :: l => insertLe le a (pySorted le l)

theorem insertLe_perm {α : Type} (le : α → α → Bool) (a : α) (l : List α) :
    (insertLe le a l).Perm (a :: l) := by
  induction l with
  | nil => exact List.Perm.refl _
  | cons b t ih =>
    simp only [insertLe]
    by_cases h : le a b
    · rw [if_pos h]
    · rw [if_neg h]
      exact (ih.cons b).trans (List.Perm.swap a b t)

theorem pySorted_perm {α : Type} (le : α → α → Bool) (l : List α) :
    (pySorted le l).Perm l := by
  induction l with
  | nil => exact List.Perm.refl _
  | cons a t ih =>
    exact (insertLe_perm le a _).trans (ih.cons a)

theorem mem_pySorted {α : Type} {le : α → α → Bool} {a : α} {l : List α} :
    a ∈ pySorted le l ↔ a ∈ l :=
  (pySorted_perm le l).mem_iff

/-! ## Row payloads (the namedtuples of `switchmap.server.db.table`) -/

/-- `IDevice` namedtuple. -/
structure IDevice where
  idx_zone : Nat
  hostname : String
  name : String
  sys_name : String
  sys_description : String
  sys_objectid : String
  sys_uptime : Nat
  last_polled : Nat
  enabled : Nat
deriving Repr, DecidableEq

/-- `IL1Interface` namedtuple. -/
structure IL1Interface where
  idx_device : Nat
  ifindex : Nat
  duplex : Option Nat
  ethernet : Nat
  nativevlan : Option Nat
  trunk : Nat
  ifspeed : Option Nat
  ifalias : Option String
  ifdescr : Option String
  ifadminstatus : Option Nat
  ifoperstatus : Option Nat
  cdpcachedeviceid : Option String
  cdpcachedeviceport : Option String
  cdpcacheplatform : Option String
  lldpremportdesc : Option String
  lldpremsyscapenabled : Option String
  lldpremsysdesc : Option String
  lldpremsysname : Option String
  ts_idle : Nat
  enabled : Nat
deriving Repr, DecidableEq

/-- `IVlan` namedtuple. -/
structure IVlan where
  idx_device : Nat
  vlan : Nat
  name : Option String
  state : Nat
  enabled : Nat
deriving Repr, DecidableEq

/-- `IVlanPort` namedtuple. -/
structure IVlanPort where
  idx_l1interface : Nat
  idx_vlan : Nat
  enabled : Nat
deriving Repr, DecidableEq

/-- `IMac` namedtuple. -/
structure IMac where
  idx_oui : Nat
  idx_zone : Nat
  mac : String
  enabled : Nat
deriving Repr, DecidableEq

/-- `IMacPort` namedtuple. -/
structure IMacPort where
  idx_l1interface : Nat
  idx_mac : Nat
  enabled : Nat
deriving Repr, DecidableEq

/-- `IMacIp` namedtuple. -/
structure IMacIp where
  idx_device : Nat
  idx_mac : Nat
  ip_ : String
  hostname : Option String
  version : Nat
  enabled : Nat
deriving Repr, DecidableEq

/-- The whole store: the seven entity tables plus the read-only OUI reference
table (a `Row String` holds one vendor-prefix string under its `idx_oui`). -/
structure DB where
  devices : Table IDevice
  l1interfaces : Table IL1Interface
  vlans : Table IVlan
  vlanports : Table IVlanPort
  macs : Table IMac
  macports : Table IMacPort
  macips : Table IMacIp
  ouis : List (Row String)
deriving Repr, DecidableEq

/-- A store with all entity tables empty and a given OUI reference table. -/
def DB.emptyWith (ouis : List (Row String)) : DB :=
  { devices := Table.empty _, l1interfaces := Table.empty _, vlans := Table.empty _,
    vlanports := Table.empty _, macs := Table.empty _, macports := Table.empty _,
    macips := Table.empty _, ouis := ouis }

/-! ## Snapshot input (section 6 of the spec; `data` dict in the source) -/

/-- One entry of the snapshot's `layer1` mapping (per-interface facts).
Absent dict keys (`interface.get(...)` returning `None`) are `none`. -/
structure IfData where
  ifAdminStatus : Option Nat
  ifOperStatus : Option Nat
  ifSpeed : Option Nat
  ifAlias : Option String
  ifDescr : Option String
  l1_duplex : Option Nat
  l1_ethernet : Option Nat
  l1_trunk : Option Nat
  l1_nativevlan : Option Nat
  l1_vlans : Option (List Nat)
  l1_macs : Option (List String)
  cdpCacheDeviceId : Option String
  cdpCacheDevicePort : Option String
  cdpCachePlatform : Option String
  lldpRemPortDesc : Option String
  lldpRemSysCapEnabled : Option String
  lldpRemSysDesc : Option String
  lldpRemSysName : Option String
deriving Repr, DecidableEq

/-- The device snapshot.  Identity fields are `Option`: `none` models a
missing dict key, whose access in `device()` raises KeyError.  `layer1` is the
dict of interfaces (keys are ifindex values, unique).  The two optional
neighbor tables model `data["layer3"]["ipNetToMediaTable"]` (IPv4) and
`data["layer3"]["ipNetToPhysicalPhysAddress"]` (IPv6); a missing `layer3`
block is both being `none`. -/
structure Snapshot where
  host : Option String
  sysName : Option String
  sysDescr : Option String
  sysObjectID : Option String
  sysUpTime : Option Nat
  timestamp : Option Nat
  layer1 : List (Nat × IfData)
  ipv4 : Option (List (String × String))
  ipv6 : Option (List (String × String))
deriving Repr, DecidableEq

/-- `sorted(interfaces.items())`: the layer1 dict iterated in ascending
ifindex order. -/
def sortedLayer1 (s : Snapshot) : List (Nat × IfData) :=
  pySorted (fun a b => a.1 ≤ b.1) s.layer1

/-- Python truthiness of an optional integer (`None` and `0` are falsy). -/
def truthyN : Option Nat → Bool
  | none => false
  | some n => n != 0

/-- Python truthiness of an optional list (`None` and `[]` are falsy). -/
def truthyL {α : Type} : Option (List α) → Bool
  | none => false
  | some l => !l.isEmpty

/-- `int(bool(x))` over an optional integer field. -/
def toBoolInt (o : Option Nat) : Nat := if truthyN o then 1 else 0

/-- Cycle environment: the clock and the external oracles.
`dnsLookup ip = none` models `socket.gethostbyaddr` raising;
`ipNorm raw = none` models `general.ipaddress` returning a falsy value
(invalid address); `macNorm` models `general.mac` normalization. -/
structure Env where
  now : Nat
  dns : Bool
  dnsLookup : String → Option String
  ipNorm : String → Option String
  macNorm : String → String

/-- The mutable `Status` object: one flag per stage, all starting `False`.
(The source never sets `_macip`; the field is kept for fidelity.) -/
structure Status where
  l1interface : Bool
  vlan : Bool
  vlanport : Bool
  mac : Bool
  macport : Bool
  macip : Bool
deriving Repr, DecidableEq

/-- Fresh `Status()`. -/
def Status.start : Status :=
  ⟨false, false, false, false, false, false⟩

/-! ## `device()` — the Device Registrar -/

/-- The `IDevice` row built at the top of `device()`. -/
def deviceRow (host sn sd so : String) (su ts : Nat) : IDevice :=
  { idx_zone := 1, hostname := host, name := host, sys_name := sn,
    sys_description := sd, sys_objectid := so, sys_uptime := su,
    last_polled := ts, enabled := 1 }

/-- `device(data)`: build the identity row (KeyError — modelled as `.error`
carrying the untouched store — if any identity field is missing), then upsert
by hostname and return the resolved device row.  On the insert path the
source re-fetches `exists`; that fetch always succeeds, the `.error` fallback
is dead code mirroring the impossible miss. -/
def device (db : DB) (s : Snapshot) : Except DB (Row IDevice × DB) :=
  match s.host, s.sysName, s.sysDescr, s.sysObjectID, s.sysUpTime, s.timestamp with
  | some host, some sn, some sd, some so, some su, some ts =>
    let row := deviceRow host sn sd so su ts
    match db.devices.findRow (fun r => r.val.hostname == host) with
    | some ex => .ok (ex, { db with devices := db.devices.update ex.idx row })
    | none =>
      let devices := db.devices.insertOne row
      match devices.findRow (fun r => r.val.hostname == host) with
      | some ex2 => .ok (ex2, { db with devices := devices })
      | none => .error { db with devices := devices }
  | _, _, _, _, _, _ => .error db

/-! ## `_lookup()` helpers -/

/-- `_l1interface.ifindexes(idx_device)`: interface rows of the device. -/
def ifindexesOf (db : DB) (d : Nat) : List (Row IL1Interface) :=
  db.l1interfaces.rows.filter (fun r => r.val.idx_device == d)

/-- `_vlan.vlans(idx_device)`: vlan rows of the device. -/
def vlansOf (db : DB) (d : Nat) : List (Row IVlan) :=
  db.vlans.rows.filter (fun r => r.val.idx_device == d)

/-- `_misc_device.vlanports(idx_device)`: vlanport rows whose interface
belongs to the device. -/
def vlanportsOf (db : DB) (d : Nat) : List (Row IVlanPort) :=
  db.vlanports.rows.filter (fun vp =>
    (ifindexesOf db d).any (fun r => r.idx == vp.val.idx_l1interface))

/-! ## `Topology.l1interface()` — the Interface Synchronizer -/

/-- The idle state machine of `Topology.l1interface` (lines 274-290):
admin up and oper up, or admin down, clear the idle timestamp; otherwise a
recorded (non-zero) timestamp is kept and a missing one is set to now. -/
def tsIdleNext (i : IfData) (old now : Nat) : Nat :=
  if i.ifAdminStatus == some 1 && i.ifOperStatus == some 1 then 0
  else if i.ifAdminStatus == some 2 then 0
  else if old ≠ 0 then old else now

/-- The `IL1Interface` row literal shared by the update and insert branches
(they differ only in `ts_idle` and `enabled`). -/
def mkL1 (idxDev ifx : Nat) (i : IfData) (tsi en : Nat) : IL1Interface :=
  { idx_device := idxDev, ifindex := ifx,
    duplex := i.l1_duplex, ethernet := toBoolInt i.l1_ethernet,
    nativevlan := i.l1_nativevlan, trunk := toBoolInt i.l1_trunk,
    ifspeed := i.ifSpeed, ifalias := i.ifAlias, ifdescr := i.ifDescr,
    ifadminstatus := i.ifAdminStatus, ifoperstatus := i.ifOperStatus,
    cdpcachedeviceid := i.cdpCacheDeviceId,
    cdpcachedeviceport := i.cdpCacheDevicePort,
    cdpcacheplatform := i.cdpCachePlatform,
    lldpremportdesc := i.lldpRemPortDesc,
    lldpremsyscapenabled := i.lldpRemSysCapEnabled,
    lldpremsysdesc := i.lldpRemSysDesc,
    lldpremsysname := i.lldpRemSysName,
    ts_idle := tsi, enabled := en }

/-- The per-interface loop of `Topology.l1interface`: `pre` is the prefetched
`all_ifindexes` dict source; updates are applied immediately, inserts are
collected. -/
def l1Loop (env : Env) (idxDev : Nat) (pre : List (Row IL1Interface)) :
    List (Nat × IfData) → Table IL1Interface → List IL1Interface →
    Table IL1Interface × List IL1Interface
  | [], t, ins => (t, ins)
  | (ifx, i) :: rest, t, ins =>
    match dictFind pre (fun r => r.val.ifindex == ifx) with
    | some ex =>
      let row := mkL1 idxDev ifx i (tsIdleNext i ex.val.ts_idle env.now)
        (if ex.val.enabled ≠ 0 then 1 else 0)
      l1Loop env idxDev pre rest (t.update ex.idx row) ins
    | none =>
      l1Loop env idxDev pre rest t (ins ++ [mkL1 idxDev ifx i 0 1])

/-- `Topology.l1interface()`.  `valid` is the `self._valid` guard computed in
`__init__`; when false the stage logs and returns without writes and without
recording success. -/
def l1interface (env : Env) (meta : Row IDevice) (s : Snapshot) (valid : Bool) :
    DB × Status → DB × Status
  | (db, st) =>
    if valid = false then (db, st)
    else
      let pre := ifindexesOf db meta.idx
      let (t, ins) := l1Loop env meta.idx pre (sortedLayer1 s) db.l1interfaces []
      let t2 := if ins.isEmpty then t else t.insertMany ins
      ({ db with l1interfaces := t2 }, { st with l1interface := true })

/-! ## `Topology.vlan()` — the Vlan Synchronizer -/

/-- The `IVlan` candidate row built for each vlan listed on an interface. -/
def mkVlan (idxDev v : Nat) : IVlan :=
  { idx_device := idxDev, vlan := v, name := none, state := 0, enabled := 1 }

/-- The `rows` list of `Topology.vlan`: one candidate per vlan listed by any
interface, in iteration order (the `isinstance(vlans, list)` guard admits an
empty list, unlike the truthiness guards elsewhere). -/
def vlanRows (idxDev : Nat) (l1 : List (Nat × IfData)) : List IVlan :=
  l1.foldl (fun acc p =>
    match p.2.l1_vlans with
    | some vs => acc ++ vs.map (mkVlan idxDev)
    | none => acc) []

/-- `list(set(rows))` followed by `.sort(key=lambda x: (x.vlan, x.idx_device))`.
Candidate rows differ only in their vlan number, so set order is irrelevant
once sorted. -/
def vlanLe (a b : IVlan) : Bool :=
  a.vlan < b.vlan || (a.vlan == b.vlan && a.idx_device ≤ b.idx_device)

def uniqueVlansSorted (idxDev : Nat) (l1 : List (Nat × IfData)) : List IVlan :=
  pySorted vlanLe (vlanRows idxDev l1).dedup

/-- The per-vlan loop of `Topology.vlan`: lookup in the prefetched `all_vlans`
dict, update in place when found, else collect for the batched insert.  (The
source passes the whole existing row to `update_row`; the store's update is
keyed by that row's identifier.) -/
def vlanLoop (pre : List (Row IVlan)) :
    List IVlan → Table IVlan → List IVlan → Table IVlan × List IVlan
  | [], t, ins => (t, ins)
  | item :: rest, t, ins =>
    match dictFind pre (fun r => r.val.vlan == item.vlan) with
    | some ex => vlanLoop pre rest (t.update ex.idx item) ins
    | none => vlanLoop pre rest t (ins ++ [item])

/-- `Topology.vlan()`: gated on the Interface Synchronizer's success flag. -/
def vlan (meta : Row IDevice) (s : Snapshot) : DB × Status → DB × Status
  | (db, st) =>
    if st.l1interface = false then (db, st)
    else
      let pre := vlansOf db meta.idx
      let items := uniqueVlansSorted meta.idx (sortedLayer1 s)
      let (t, ins) := vlanLoop pre items db.vlans []
      let t2 := if ins.isEmpty then t else t.insertMany ins
      ({ db with vlans := t2 }, { st with vlan := true })

/-! ## `Topology.vlanport()` — the Vlan-Port Linker -/

/-- Inner loop of `Topology.vlanport` over one interface's sorted vlan list:
resolve the vlan row (skip when absent), then update via the prefetched
`all_vlan_ports` dict or collect an insert. -/
def vlanportInner (preVlans : List (Row IVlan)) (preVP : List (Row IVlanPort))
    (idxL1 : Nat) :
    List Nat → Table IVlanPort → List IVlanPort → Table IVlanPort × List IVlanPort
  | [], t, ins => (t, ins)
  | item :: rest, t, ins =>
    match dictFind preVlans (fun r => r.val.vlan == item) with
    | none => vlanportInner preVlans preVP idxL1 rest t ins
    | some vex =>
      let row : IVlanPort :=
        { idx_l1interface := idxL1, idx_vlan := vex.idx, enabled := 1 }
      match dictFind preVP (fun r =>
          r.val.idx_l1interface == idxL1 && r.val.idx_vlan == vex.idx) with
      | some pex => vlanportInner preVlans preVP idxL1 rest (t.update pex.idx row) ins
      | none => vlanportInner preVlans preVP idxL1 rest t (ins ++ [row])

/-- Outer loop of `Topology.vlanport` over the sorted interfaces: resolve the
interface row (skip the interface when absent), require a truthy vlan list. -/
def vlanportLoop (preIf : List (Row IL1Interface)) (preVlans : List (Row IVlan))
    (preVP : List (Row IVlanPort)) :
    List (Nat × IfData) → Table IVlanPort → List IVlanPort →
    Table IVlanPort × List IVlanPort
  | [], t, ins => (t, ins)
  | (ifx, i) :: rest, t, ins =>
    match dictFind preIf (fun r => r.val.ifindex == ifx) with
    | none => vlanportLoop preIf preVlans preVP rest t ins
    | some l1ex =>
      if truthyL i.l1_vlans then
        match i.l1_vlans with
        | some vs =>
          let (t2, ins2) := vlanportInner preVlans preVP l1ex.idx
            (pySorted (fun a b => a ≤ b) vs) t ins
          vlanportLoop preIf preVlans preVP rest t2 ins2
        | none => vlanportLoop preIf preVlans preVP rest t ins
      else vlanportLoop preIf preVlans preVP rest t ins

/-- `Topology.vlanport()`: gated on the Vlan Synchronizer's success flag. -/
def vlanport (meta : Row IDevice) (s : Snapshot) : DB × Status → DB × Status
  | (db, st) =>
    if st.vlan = false then (db, st)
    else
      let preIf := ifindexesOf db meta.idx
      let preVlans := vlansOf db meta.idx
      let preVP := vlanportsOf db meta.idx
      let (t, ins) := vlanportLoop preIf preVlans preVP (sortedLayer1 s)
        db.vlanports []
      let t2 := if ins.isEmpty then t else t.insertMany ins
      ({ db with vlanports := t2 }, { st with vlanport := true })

/-! ## `Topology.mac()` — the Mac Synchronizer -/

/-- Python `str.lower()`, charwise (byte-position `String.toLower` does not
kernel-reduce; per-character mapping matches Python's semantics). -/
def strLower (s : String) : String := ⟨s.data.map Char.toLower⟩

/-- Python slicing `s[:n]`, charwise. -/
def strTake (s : String) (n : Nat) : String := ⟨s.data.take n⟩

/-- The `all_macs` accumulation of `Topology.mac`: macs of every interface
whose ifindex is already in the database, in dict iteration order. -/
def allMacs (preIfx : List Nat) (l1 : List (Nat × IfData)) : List String :=
  l1.foldl (fun acc p =>
    if preIfx.contains p.1 then
      match p.2.l1_macs with
      | some ms => if ms.isEmpty then acc else acc ++ ms
      | none => acc
    else acc) []

/-- `unique_macs`: the deduplicated lowercased macs. -/
def uniqueMacs (preIfx : List Nat) (l1 : List (Nat × IfData)) : List String :=
  ((allMacs preIfx l1).map strLower).dedup

/-- `unique_ouis`: the deduplicated six-character vendor prefixes. -/
def uniqueOuis (preIfx : List Nat) (l1 : List (Nat × IfData)) : List String :=
  ((uniqueMacs preIfx l1).map (fun m => strLower (strTake m 6))).dedup

/-- `exists.idx_oui if bool(exists) is True else 1`: resolve one vendor
prefix against the OUI reference table, with the sentinel id 1 as the
unknown-vendor fallback. -/
def ouiResolve (ouis : List (Row String)) (k : String) : Nat :=
  match ouis.find? (fun r => r.val == k) with
  | some ex => ex.idx
  | none => 1

/-- The `lookup` dict of `Topology.mac`: for each unique prefix (sorted) the
resolved `idx_oui`, falling back to the sentinel id 1 when `_oui.exists`
finds nothing. -/
def ouiMap (ouis : List (Row String)) (us : List String) : List (String × Nat) :=
  (pySorted (fun a b => a ≤ b) us).map (fun o => (o, ouiResolve ouis o))

/-- `lookup.get(key, 1)` over the assoc list built by `ouiMap`. -/
def assocGet (l : List (String × Nat)) (k : String) : Nat :=
  match l.reverse.find? (fun p => p.1 == k) with
  | some p => p.2
  | none => 1

/-- The per-mac loop of `Topology.mac`: live `_mac.exists` against the (not
device-scoped) Mac table, update in place or collect for the batched
insert. -/
def macLoop (lkp : List (String × Nat)) :
    List String → Table IMac → List IMac → Table IMac × List IMac
  | [], t, ins => (t, ins)
  | item :: rest, t, ins =>
    let row : IMac :=
      { idx_oui := assocGet lkp (strTake item 6), idx_zone := 1,
        mac := item, enabled := 1 }
    match t.findRow (fun r => r.val.mac == item) with
    | none => macLoop lkp rest t (ins ++ [row])
    | some ex => macLoop lkp rest (t.update ex.idx row) ins

/-- `Topology.mac()`: gated on the Vlan-Port Linker's success flag. -/
def mac (meta : Row IDevice) (s : Snapshot) : DB × Status → DB × Status
  | (db, st) =>
    if st.vlanport = false then (db, st)
    else
      let preIfx := (ifindexesOf db meta.idx).map (fun r => r.val.ifindex)
      let ums := uniqueMacs preIfx s.layer1
      let lkp := ouiMap db.ouis (uniqueOuis preIfx s.layer1)
      let (t, ins) := macLoop lkp (pySorted (fun a b => a ≤ b) ums) db.macs []
      let t2 := if ins.isEmpty then t else t.insertMany ins
      ({ db with macs := t2 }, { st with mac := true })

/-! ## `Topology.macport()` — the Mac-Port Linker -/

/-- Inner loop of `Topology.macport` over one interface's sorted mac list.
The source checks `_mac.exists(item)` but never checks `l1_exists`: when the
mac resolves while the interface row is absent, `l1_exists.idx_l1interface`
raises AttributeError — modelled as `.error` carrying the table state at the
raise.  `_macport.exists` is a live query and an insert is issued per row. -/
def macportInner (tMac : Table IMac) (l1ex : Option (Row IL1Interface)) :
    List String → Table IMacPort → Except (Table IMacPort) (Table IMacPort)
  | [], t => .ok t
  | item :: rest, t =>
    match tMac.findRow (fun r => r.val.mac == item) with
    | none => macportInner tMac l1ex rest t
    | some mex =>
      match l1ex with
      | none => .error t
      | some l1 =>
        let row : IMacPort :=
          { idx_l1interface := l1.idx, idx_mac := mex.idx, enabled := 1 }
        match t.findRow (fun r =>
            r.val.idx_l1interface == l1.idx && r.val.idx_mac == mex.idx) with
        | some pex => macportInner tMac l1ex rest (t.update pex.idx row)
        | none => macportInner tMac l1ex rest (t.insertOne row)

/-- Outer loop of `Topology.macport` over the sorted interfaces. -/
def macportLoop (tMac : Table IMac) (preIf : List (Row IL1Interface)) :
    List (Nat × IfData) → Table IMacPort → Except (Table IMacPort) (Table IMacPort)
  | [], t => .ok t
  | (ifx, i) :: rest, t =>
    let l1ex := dictFind preIf (fun r => r.val.ifindex == ifx)
    if truthyL i.l1_macs then
      match i.l1_macs with
      | some ms =>
        match macportInner tMac l1ex (pySorted (fun a b => a ≤ b) ms) t with
        | .error te => .error te
        | .ok t2 => macportLoop tMac preIf rest t2
      | none => macportLoop tMac preIf rest t
    else macportLoop tMac preIf rest t

/-- `Topology.macport()`: gated on the Mac Synchronizer's success flag.  An
AttributeError propagates as `.error` with the store at the raise; the
success flag is then never set. -/
def macport (meta : Row IDevice) (s : Snapshot) :
    DB × Status → Except DB (DB × Status)
  | (db, st) =>
    if st.mac = false then .ok (db, st)
    else
      let preIf := ifindexesOf db meta.idx
      match macportLoop db.macs preIf (sortedLayer1 s) db.macports with
      | .error te => .error { db with macports := te }
      | .ok t => .ok ({ db with macports := t }, { st with macport := true })

/-! ## `Topology.macip()` — the Mac-IP Synchronizer -/

/-- `_process_macip`: walk one neighbor table, dropping entries with an
invalid IP or an unresolvable mac, and split the kept entries into adds and
(identifier, row) updates against the live MacIp table. -/
def processMacip (env : Env) (tMac : Table IMac) (t : Table IMacIp)
    (idxDev ver : Nat) :
    List (String × String) → List IMacIp → List (Nat × IMacIp) →
    List IMacIp × List (Nat × IMacIp)
  | [], adds, upds => (adds, upds)
  | (ipRaw, macRaw) :: rest, adds, upds =>
    match env.ipNorm ipRaw with
    | none => processMacip env tMac t idxDev ver rest adds upds
    | some ip =>
      let m := env.macNorm macRaw
      match tMac.findRow (fun r => r.val.mac == m) with
      | none => processMacip env tMac t idxDev ver rest adds upds
      | some mex =>
        let hostname := if env.dns then env.dnsLookup ip else none
        let row : IMacIp :=
          { idx_device := idxDev, idx_mac := mex.idx, ip_ := ip,
            hostname := hostname, version := ver, enabled := 1 }
        match t.findRow (fun r =>
            r.val.idx_device == idxDev && r.val.idx_mac == mex.idx
              && r.val.ip_ == ip) with
        | some pex =>
          processMacip env tMac t idxDev ver rest adds (upds ++ [(pex.idx, row)])
        | none =>
          processMacip env tMac t idxDev ver rest (adds ++ [row]) upds

/-- Comparison used by `sorted(adds)`: Python tuple order over the `IMacIp`
fields (an `Option String` hostname sorts `none` first; within one cycle rows
reaching the hostname comparison carry equal hostnames). -/
def macipLE (a b : IMacIp) : Bool :=
  if a.idx_device ≠ b.idx_device then a.idx_device < b.idx_device
  else if a.idx_mac ≠ b.idx_mac then a.idx_mac < b.idx_mac
  else if a.ip_ ≠ b.ip_ then a.ip_ < b.ip_
  else match a.hostname, b.hostname with
    | none, none => a.version ≤ b.version
    | none, some _ => true
    | some _, none => false
    | some x, some y => if x ≠ y then x < y else a.version ≤ b.version

/-- `Topology.macip()`: gated on the Mac-Port Linker's success flag; processes
the optional IPv4 then IPv6 neighbor tables, applies updates in sorted order,
then one batched insert of the sorted adds.  (The source never sets the
`macip` status flag.) -/
def macip (env : Env) (meta : Row IDevice) (s : Snapshot) :
    DB × Status → DB × Status
  | (db, st) =>
    if st.macport = false then (db, st)
    else
      let r4 :=
        if truthyL s.ipv4 then
          processMacip env db.macs db.macips meta.idx 4 (s.ipv4.getD []) [] []
        else ([], [])
      let r6 :=
        if truthyL s.ipv6 then
          processMacip env db.macs db.macips meta.idx 6 (s.ipv6.getD []) [] []
        else ([], [])
      let adds := r4.1 ++ r6.1
      let upds := r4.2 ++ r6.2
      let t := (pySorted (fun a b => a.1 ≤ b.1) upds).foldl
        (fun t p => t.update p.1 p.2) db.macips
      let t2 := t.insertMany (pySorted macipLE adds)
      ({ db with macips := t2 }, st)

/-! ## `Topology.process()` and the `process()` entry point -/

/-- `self._valid` of `Topology.__init__`: the device identifier must exist
(`_device.idx_exists`); the `bool(data)`/`isinstance(data, dict)` conjuncts
always hold for a structured snapshot. -/
def topologyValid (db : DB) (meta : Row IDevice) : Bool :=
  db.devices.rows.any (fun r => r.idx == meta.idx)

/-- `Topology.process()`: the six stages in order, threading the store and
the status flags. -/
def Topology.process (env : Env) (meta : Row IDevice) (s : Snapshot)
    (db : DB) : Except DB DB :=
  let valid := topologyValid db meta
  let p1 := l1interface env meta s valid (db, Status.start)
  let p2 := vlan meta s p1
  let p3 := vlanport meta s p2
  let p4 := mac meta s p3
  match macport meta s p4 with
  | .error dbe => .error dbe
  | .ok p5 => .ok (macip env meta s p5).1

/-- `process(data, dns)`: the reconcile entry point — upsert the device row,
then run the Topology pipeline.  (The yaml snapshot dump is diagnostic I/O
with no store effect.) -/
def process (env : Env) (s : Snapshot) (db : DB) : Except DB DB :=
  match device db s with
  | .error dbe => .error dbe
  | .ok (meta, db1) => Topology.process env meta s db1

/-! ## Characterization lemmas for tables and the interface loop -/

/-- The rows a batched insert appends, with their assigned identifiers. -/
def insertedRows {α : Type} (n : Nat) : List α → List (Row α)
  | [] => []
  | v :: rest => ⟨n, v⟩ :: insertedRows (n + 1) rest

theorem Table.insertMany_rows {α : Type} (t : Table α) (vs : List α) :
    (t.insertMany vs).rows = t.rows ++ insertedRows t.next vs := by
  induction vs generalizing t with
  | nil => simp [Table.insertMany, insertedRows]
  | cons v rest ih =>
    simp [Table.insertMany, insertedRows] at ih ⊢
    rw [ih]
    simp [Table.insertOne]

theorem Table.insertMany_next {α : Type} (t : Table α) (vs : List α) :
    (t.insertMany vs).next = t.next + vs.length := by
  induction vs generalizing t with
  | nil => simp [Table.insertMany]
  | cons v rest ih =>
    simp [Table.insertMany] at ih ⊢
    rw [ih]
    simp [Table.insertOne]
    omega

theorem insertedRows_vals {α : Type} (n : Nat) (vs : List α) :
    (insertedRows n vs).map Row.val = vs := by
  induction vs generalizing n with
  | nil => simp [insertedRows]
  | cons v rest ih => simp [insertedRows, ih]

/-- The effect of one loop iteration of `Topology.l1interface` on one stored
row (updates are keyed by the prefetched row's identifier). -/
def l1Step (env : Env) (d : Nat) (pre : List (Row IL1Interface))
    (p : Nat × IfData) (r : Row IL1Interface) : Row IL1Interface :=
  match dictFind pre (fun q => q.val.ifindex == p.1) with
  | some ex =>
    if r.idx = ex.idx then
      ⟨ex.idx, mkL1 d p.1 p.2 (tsIdleNext p.2 ex.val.ts_idle env.now)
        (if ex.val.enabled ≠ 0 then 1 else 0)⟩
    else r
  | none => r

/-- The composite effect of the whole interface loop on one stored row. -/
def l1UpdAll (env : Env) (d : Nat) (pre : List (Row IL1Interface))
    (L : List (Nat × IfData)) (r : Row IL1Interface) : Row IL1Interface :=
  L.foldl (fun r p => l1Step env d pre p r) r

/-- The insert batch collected by the interface loop. -/
def l1InsertsOf (d : Nat) (pre : List (Row IL1Interface)) :
    List (Nat × IfData) → List IL1Interface
  | [] => []
  | p :: rest =>
    match dictFind pre (fun q => q.val.ifindex == p.1) with
    | some _ => l1InsertsOf d pre rest
    | none => mkL1 d p.1 p.2 0 1 :: l1InsertsOf d pre rest

theorem l1Loop_spec (env : Env) (d : Nat) (pre : List (Row IL1Interface))
    (L : List (Nat × IfData)) (t : Table IL1Interface) (ins : List IL1Interface) :
    l1Loop env d pre L t ins =
      (⟨t.rows.map (l1UpdAll env d pre L), t.next⟩, ins ++ l1InsertsOf d pre L) := by
  induction L generalizing t ins with
  | nil =>
    cases t
    simp only [l1Loop, l1InsertsOf, List.append_nil]
    refine Prod.ext (congrArg₂ Table.mk ?_ rfl) rfl
    rw [show l1UpdAll env d pre [] = id from funext fun r => rfl, List.map_id]
  | cons p rest ih =>
    obtain ⟨ifx, i⟩ := p
    cases h : dictFind pre (fun q => q.val.ifindex == ifx) with
    | some ex =>
      simp only [l1Loop, h]
      rw [ih]
      refine Prod.ext ?_ ?_
      · refine congrArg₂ Table.mk ?_ ?_
        · simp only [Table.update, List.map_map]
          apply List.map_congr_left
          intro r _
          simp only [Function.comp, l1UpdAll, List.foldl_cons, l1Step, h]
        · simp [Table.update]
      · simp [l1InsertsOf, h]
    | none =>
      simp only [l1Loop, h]
      rw [ih]
      refine Prod.ext ?_ ?_
      · refine congrArg₂ Table.mk ?_ ?_
        · apply List.map_congr_left
          intro r _
          simp only [l1UpdAll, List.foldl_cons, l1Step, h]
        · rfl
      · simp [l1InsertsOf, h]

theorem l1Step_idx (env : Env) (d : Nat) (pre : List (Row IL1Interface))
    (p : Nat × IfData) (r : Row IL1Interface) :
    (l1Step env d pre p r).idx = r.idx := by
  unfold l1Step
  cases h : dictFind pre (fun q => q.val.ifindex == p.1) with
  | some ex =>
    by_cases hi : r.idx = ex.idx <;> simp [hi]
  | none => rfl

theorem l1UpdAll_idx (env : Env) (d : Nat) (pre : List (Row IL1Interface))
    (L : List (Nat × IfData)) (r : Row IL1Interface) :
    (l1UpdAll env d pre L r).idx = r.idx := by
  induction L generalizing r with
  | nil => rfl
  | cons p rest ih =>
    simp only [l1UpdAll, List.foldl_cons] at ih ⊢
    rw [ih, l1Step_idx]

theorem dictFind_mem {α : Type} {rows : List (Row α)} {p : Row α → Bool}
    {r : Row α} (h : dictFind rows p = some r) : r ∈ rows := by
  have := List.mem_of_find?_eq_some h
  exact (List.mem_reverse).1 this

theorem dictFind_prop {α : Type} {rows : List (Row α)} {p : Row α → Bool}
    {r : Row α} (h : dictFind rows p = some r) : p r = true :=
  List.find?_some h

/-- A step for a key other than `ifx` leaves the row resolved for `ifx`
untouched, provided row identifiers in the prefetched list are distinct. -/
theorem l1Step_other (env : Env) (d : Nat) {pre : List (Row IL1Interface)}
    {ifx : Nat} {ex : Row IL1Interface} {k : Nat}
    (hfind : dictFind pre (fun q => q.val.ifindex == ifx) = some ex)
    (hpre : (pre.map Row.idx).Nodup) (hk : k ≠ ifx)
    {r : Row IL1Interface} (hr : r.idx = ex.idx) (j : IfData) :
    l1Step env d pre (k, j) r = r := by
  unfold l1Step
  cases h2 : dictFind pre (fun q => q.val.ifindex == k) with
  | none => rfl
  | some ex2 =>
    simp only
    have hne : r.idx ≠ ex2.idx := by
      rw [hr]
      intro hEq
      have hmem1 := dictFind_mem hfind
      have hmem2 := dictFind_mem h2
      have : ex = ex2 := List.inj_on_of_nodup_map hpre hmem1 hmem2 hEq
      subst this
      have p1 := dictFind_prop hfind
      have p2 := dictFind_prop h2
      simp at p1 p2
      exact hk (p2 ▸ p1 ▸ rfl)
    simp [hne]

/-- Iterations whose keys all differ from `ifx` leave the row resolved for
`ifx` untouched. -/
theorem l1UpdAll_notouch (env : Env) (d : Nat) {pre : List (Row IL1Interface)}
    {ifx : Nat} {ex : Row IL1Interface}
    (hfind : dictFind pre (fun q => q.val.ifindex == ifx) = some ex)
    (hpre : (pre.map Row.idx).Nodup)
    (L : List (Nat × IfData)) (hL : ∀ q ∈ L, q.1 ≠ ifx)
    {r : Row IL1Interface} (hr : r.idx = ex.idx) :
    l1UpdAll env d pre L r = r := by
  induction L generalizing r with
  | nil => rfl
  | cons p rest ih =>
    obtain ⟨k, j⟩ := p
    simp only [l1UpdAll, List.foldl_cons]
    have hk : k ≠ ifx := hL (k, j) (List.mem_cons_self _ _)
    rw [show l1Step env d pre (k, j) r = r from
      l1Step_other env d hfind hpre hk hr j]
    exact ih (fun q hq => hL q (List.mem_cons_of_mem _ hq)) hr

/-- The composite loop effect on the row resolved for a key that occurs in a
key-unique iteration list: exactly the overwrite of the source's update
branch. -/
theorem l1UpdAll_target (env : Env) (d : Nat) {pre : List (Row IL1Interface)}
    {L : List (Nat × IfData)} {ifx : Nat} {i : IfData} {ex : Row IL1Interface}
    (hmem : (ifx, i) ∈ L) (hkeys : (L.map Prod.fst).Nodup)
    (hfind : dictFind pre (fun q => q.val.ifindex == ifx) = some ex)
    (hpre : (pre.map Row.idx).Nodup) :
    l1UpdAll env d pre L ex =
      ⟨ex.idx, mkL1 d ifx i (tsIdleNext i ex.val.ts_idle env.now)
        (if ex.val.enabled ≠ 0 then 1 else 0)⟩ := by
  induction L with
  | nil => cases hmem
  | cons p rest ih =>
    obtain ⟨k, j⟩ := p
    simp only [List.map_cons, List.nodup_cons] at hkeys
    rcases List.mem_cons.1 hmem with heq | hmem2
    · cases heq
      simp only [l1UpdAll, List.foldl_cons, l1Step, hfind, if_pos rfl]
      refine l1UpdAll_notouch env d hfind hpre rest ?_ rfl
      intro q hq hEq
      apply hkeys.1
      rw [← hEq]
      have hmm := List.mem_map_of_mem Prod.fst hq
      exact hmm
    · have hk : k ≠ ifx := by
        intro hEq
        subst hEq
        exact hkeys.1 (List.mem_map_of_mem Prod.fst hmem2)
      simp only [l1UpdAll, List.foldl_cons]
      rw [show l1Step env d pre (k, j) ex = ex from
        l1Step_other env d hfind hpre hk rfl j]
      exact ih hmem2 hkeys.2

/-- `find?` by identifier over an identifier-preserving map hits the image of
the unique row carrying that identifier. -/
theorem find_map_idx {α : Type} {l : List (Row α)} {f : Row α → Row α}
    {r : Row α} (hidx : ∀ x, (f x).idx = x.idx)
    (hnd : (l.map Row.idx).Nodup) (hmem : r ∈ l) :
    (l.map f).find? (fun x => x.idx == r.idx) = some (f r) := by
  induction l with
  | nil => cases hmem
  | cons a tl ih =>
    simp only [List.map_cons, List.nodup_cons] at hnd
    rcases List.mem_cons.1 hmem with heq | hmem2
    · subst heq
      simp only [List.map_cons, List.find?_cons]
      simp [hidx]
    · have hne : a.idx ≠ r.idx := by
        intro hEq
        apply hnd.1
        rw [hEq]
        exact List.mem_map_of_mem Row.idx hmem2
      simp only [List.map_cons, List.find?_cons]
      have : ((f a).idx == r.idx) = false := by simp [hidx, hne]
      rw [this]
      exact ih hnd.2 hmem2

/-- Rows of the Interface Synchronizer's table after a valid run: the stored
rows each rewritten by the composite loop effect, then the insert batch. -/
theorem l1interface_rows_eq (env : Env) (meta : Row IDevice) (s : Snapshot)
    (db : DB) (st : Status) :
    (l1interface env meta s true (db, st)).1.l1interfaces.rows =
      db.l1interfaces.rows.map
          (l1UpdAll env meta.idx (ifindexesOf db meta.idx) (sortedLayer1 s))
        ++ insertedRows db.l1interfaces.next
          (l1InsertsOf meta.idx (ifindexesOf db meta.idx) (sortedLayer1 s)) := by
  have h := l1Loop_spec env meta.idx (ifindexesOf db meta.idx) (sortedLayer1 s)
    db.l1interfaces []
  simp only [l1interface, h, List.nil_append]
  rw [if_neg (by simp : ¬(true = false))]
  by_cases he :
      (l1InsertsOf meta.idx (ifindexesOf db meta.idx) (sortedLayer1 s)).isEmpty = true
  · rw [if_pos he]
    rw [List.isEmpty_iff] at he
    simp [he, insertedRows]
  · rw [if_neg he]
    simp only [Table.insertMany_rows]

/-- After a valid run of the Interface Synchronizer, the row it resolved for a
snapshot interface holds exactly the update branch's overwrite. -/
theorem l1_existing_row (env : Env) (meta : Row IDevice) (s : Snapshot)
    (db : DB) (st : Status) {ifx : Nat} {i : IfData} {ex : Row IL1Interface}
    (hmem : (ifx, i) ∈ s.layer1)
    (hkeys : (s.layer1.map Prod.fst).Nodup)
    (hfind : dictFind (ifindexesOf db meta.idx)
      (fun q => q.val.ifindex == ifx) = some ex)
    (hnd : (db.l1interfaces.rows.map Row.idx).Nodup) :
    (l1interface env meta s true (db, st)).1.l1interfaces.rows.find?
        (fun x => x.idx == ex.idx) =
      some ⟨ex.idx, mkL1 meta.idx ifx i (tsIdleNext i ex.val.ts_idle env.now)
        (if ex.val.enabled ≠ 0 then 1 else 0)⟩ := by
  rw [l1interface_rows_eq, List.find?_append]
  have hpre : ((ifindexesOf db meta.idx).map Row.idx).Nodup := by
    have hsub : List.Sublist (ifindexesOf db meta.idx) db.l1interfaces.rows :=
      List.filter_sublist _
    exact List.Nodup.sublist (hsub.map Row.idx) hnd
  have hmem2 : (ifx, i) ∈ sortedLayer1 s := mem_pySorted.2 hmem
  have hkeys2 : ((sortedLayer1 s).map Prod.fst).Nodup := by
    have hp : (sortedLayer1 s).Perm s.layer1 := pySorted_perm _ _
    exact ((hp.map Prod.fst).nodup_iff).2 hkeys
  have hexmem : ex ∈ db.l1interfaces.rows :=
    List.mem_of_mem_filter (dictFind_mem hfind)
  rw [find_map_idx (l1UpdAll_idx env meta.idx (ifindexesOf db meta.idx)
    (sortedLayer1 s)) hnd hexmem]
  rw [l1UpdAll_target env meta.idx hmem2 hkeys2 hfind hpre]
  rfl

/-- A snapshot interface missing from the store contributes its insert-branch
row to the insert batch. -/
theorem l1InsertsOf_mem (d : Nat) (pre : List (Row IL1Interface))
    {L : List (Nat × IfData)} {ifx : Nat} {i : IfData} (hmem : (ifx, i) ∈ L)
    (hfind : dictFind pre (fun q => q.val.ifindex == ifx) = none) :
    mkL1 d ifx i 0 1 ∈ l1InsertsOf d pre L := by
  induction L with
  | nil => cases hmem
  | cons p rest ih =>
    obtain ⟨k, j⟩ := p
    rcases List.mem_cons.1 hmem with heq | hm2
    · cases heq
      simp only [l1InsertsOf, hfind]
      exact List.mem_cons_self _ _
    · simp only [l1InsertsOf]
      cases h : dictFind pre (fun q => q.val.ifindex == k) with
      | some _ => exact ih hm2
      | none => exact List.mem_cons_of_mem _ (ih hm2)

/-- Every value of a batched insert ends up stored under some identifier. -/
theorem insertedRows_mem {α : Type} (n : Nat) {vs : List α} {v : α}
    (h : v ∈ vs) : ∃ j, Row.mk j v ∈ insertedRows n vs := by
  induction vs generalizing n with
  | nil => cases h
  | cons w rest ih =>
    rcases List.mem_cons.1 h with heq | hm2
    · exact ⟨n, heq ▸ List.mem_cons_self _ _⟩
    · obtain ⟨j, hj⟩ := ih (n := n + 1) hm2
      exact ⟨j, List.mem_cons_of_mem _ hj⟩

/-- **C1.** For every interface already present in the store, the Interface
Synchronizer computes idle-since by the idle state machine: admin-status up
and oper-status up clears idle-since to 0; admin-status down clears it to 0;
admin up with oper down keeps a previously recorded non-zero idle-since
unchanged (sticky) and records the current time only when none was
recorded. -/
theorem C1_idle_state_machine (env : Env) (meta : Row IDevice) (s : Snapshot)
    (db : DB) (st : Status) (ifx : Nat) (i : IfData) (ex : Row IL1Interface)
    (hmem : (ifx, i) ∈ s.layer1)
    (hkeys : (s.layer1.map Prod.fst).Nodup)
    (hfind : dictFind (ifindexesOf db meta.idx)
      (fun q => q.val.ifindex == ifx) = some ex)
    (hnd : (db.l1interfaces.rows.map Row.idx).Nodup) :
    ∃ r, (l1interface env meta s true (db, st)).1.l1interfaces.rows.find?
          (fun x => x.idx == ex.idx) = some r ∧
      (i.ifAdminStatus = some 1 ∧ i.ifOperStatus = some 1 →
        r.val.ts_idle = 0) ∧
      (i.ifAdminStatus = some 2 → r.val.ts_idle = 0) ∧
      (i.ifAdminStatus = some 1 ∧ i.ifOperStatus = some 2 →
        (ex.val.ts_idle ≠ 0 → r.val.ts_idle = ex.val.ts_idle) ∧
        (ex.val.ts_idle = 0 → r.val.ts_idle = env.now)) := by
  refine ⟨_, l1_existing_row env meta s db st hmem hkeys hfind hnd,
    ?_, ?_, ?_⟩
  · rintro ⟨h1, h2⟩
    simp [mkL1, tsIdleNext, h1, h2]
  · intro h1
    simp [mkL1, tsIdleNext, h1]
  · rintro ⟨h1, h2⟩
    refine ⟨fun h3 => ?_, fun h3 => ?_⟩
    · simp [mkL1, tsIdleNext, h1, h2, h3]
    · simp [mkL1, tsIdleNext, h1, h2, h3]

/-- **C10.** The Interface Synchronizer's update of an already stored row
preserves the row's enabled flag (a disabled row stays disabled), while a
newly inserted row gets enabled 1; enabled is never taken from snapshot
data. -/
theorem C10_enabled_frame (env : Env) (meta : Row IDevice) (s : Snapshot)
    (db : DB) (st : Status)
    (hkeys : (s.layer1.map Prod.fst).Nodup)
    (hnd : (db.l1interfaces.rows.map Row.idx).Nodup) :
    (∀ ifx i ex, (ifx, i) ∈ s.layer1 →
      dictFind (ifindexesOf db meta.idx)
        (fun q => q.val.ifindex == ifx) = some ex →
      ∃ r, (l1interface env meta s true (db, st)).1.l1interfaces.rows.find?
            (fun x => x.idx == ex.idx) = some r ∧
        r.val.enabled = (if ex.val.enabled ≠ 0 then 1 else 0) ∧
        (ex.val.enabled = 0 → r.val.enabled = 0)) ∧
    (∀ ifx i, (ifx, i) ∈ s.layer1 →
      dictFind (ifindexesOf db meta.idx)
        (fun q => q.val.ifindex == ifx) = none →
      ∃ r, r ∈ (l1interface env meta s true (db, st)).1.l1interfaces.rows ∧
        r.val = mkL1 meta.idx ifx i 0 1 ∧ r.val.enabled = 1) := by
  constructor
  · intro ifx i ex hmem hfind
    refine ⟨_, l1_existing_row env meta s db st hmem hkeys hfind hnd, ?_, ?_⟩
    · rfl
    · intro h0
      simp [mkL1, h0]
  · intro ifx i hmem hfind
    have hmem2 : (ifx, i) ∈ sortedLayer1 s := mem_pySorted.2 hmem
    have hins := l1InsertsOf_mem meta.idx (ifindexesOf db meta.idx) hmem2 hfind
    obtain ⟨j, hj⟩ := insertedRows_mem db.l1interfaces.next hins
    refine ⟨⟨j, mkL1 meta.idx ifx i 0 1⟩, ?_, rfl, rfl⟩
    rw [l1interface_rows_eq]
    exact List.mem_append_right _ hj

/-! ## Concrete fixtures for witness theorems -/

/-- A small interface record with fixed descriptive fields. -/
def ifdW (adm op : Option Nat) (vls : Option (List Nat))
    (ms : Option (List String)) : IfData :=
  { ifAdminStatus := adm, ifOperStatus := op, ifSpeed := some 1000,
    ifAlias := some "u", ifDescr := some "g0", l1_duplex := some 2,
    l1_ethernet := some 1, l1_trunk := some 0, l1_nativevlan := some 1,
    l1_vlans := vls, l1_macs := ms,
    cdpCacheDeviceId := none, cdpCacheDevicePort := none,
    cdpCachePlatform := none, lldpRemPortDesc := none,
    lldpRemSysCapEnabled := none, lldpRemSysDesc := none,
    lldpRemSysName := none }

/-- A fixed environment: clock at 5000, DNS disabled, identity oracles. -/
def envW : Env :=
  { now := 5000, dns := false, dnsLookup := fun _ => none,
    ipNorm := fun ip => some ip, macNorm := fun m => m }

/-- The resolved device row of the fixtures. -/
def metaW : Row IDevice := ⟨1, deviceRow "h" "s" "d" "o" 9 100⟩

/-- A stored interface row: device 1, ifindex 1, recorded idle-since 77,
disabled. -/
def rowW1 : Row IL1Interface :=
  ⟨1, mkL1 1 1 (ifdW (some 1) (some 2) none none) 77 0⟩

/-- A store holding the device row and one interface row. -/
def dbW1 : DB :=
  { devices := ⟨[metaW], 2⟩, l1interfaces := ⟨[rowW1], 2⟩,
    vlans := Table.empty _, vlanports := Table.empty _,
    macs := Table.empty _, macports := Table.empty _,
    macips := Table.empty _, ouis := [] }

/-- A snapshot with the stored interface (admin up, oper down) and one new
interface. -/
def sW1 : Snapshot :=
  { host := some "h", sysName := some "s", sysDescr := some "d",
    sysObjectID := some "o", sysUpTime := some 9, timestamp := some 100,
    layer1 := [(1, ifdW (some 1) (some 2) none none),
               (2, ifdW (some 1) (some 1) none none)],
    ipv4 := none, ipv6 := none }

/-- Witness for C1 at a concrete store and snapshot. -/
theorem C1_idle_state_machine_witness :
    ((1, ifdW (some 1) (some 2) none none) ∈ sW1.layer1 ∧
     (sW1.layer1.map Prod.fst).Nodup ∧
     dictFind (ifindexesOf dbW1 metaW.idx)
       (fun q => q.val.ifindex == 1) = some rowW1 ∧
     (dbW1.l1interfaces.rows.map Row.idx).Nodup) ∧
    (∃ r, (l1interface envW metaW sW1 true (dbW1, Status.start)).1.l1interfaces.rows.find?
          (fun x => x.idx == rowW1.idx) = some r ∧
      ((ifdW (some 1) (some 2) none none).ifAdminStatus = some 1 ∧
        (ifdW (some 1) (some 2) none none).ifOperStatus = some 1 →
        r.val.ts_idle = 0) ∧
      ((ifdW (some 1) (some 2) none none).ifAdminStatus = some 2 →
        r.val.ts_idle = 0) ∧
      ((ifdW (some 1) (some 2) none none).ifAdminStatus = some 1 ∧
        (ifdW (some 1) (some 2) none none).ifOperStatus = some 2 →
        (rowW1.val.ts_idle ≠ 0 → r.val.ts_idle = rowW1.val.ts_idle) ∧
        (rowW1.val.ts_idle = 0 → r.val.ts_idle = envW.now))) :=
  ⟨⟨by decide, by decide, by decide, by decide⟩,
   C1_idle_state_machine envW metaW sW1 dbW1 Status.start 1
     (ifdW (some 1) (some 2) none none) rowW1
     (by decide) (by decide) (by decide) (by decide)⟩

/-- Witness for C10 at a concrete store and snapshot. -/
theorem C10_enabled_frame_witness :
    ((sW1.layer1.map Prod.fst).Nodup ∧
     (dbW1.l1interfaces.rows.map Row.idx).Nodup) ∧
    ((∀ ifx i ex, (ifx, i) ∈ sW1.layer1 →
      dictFind (ifindexesOf dbW1 metaW.idx)
        (fun q => q.val.ifindex == ifx) = some ex →
      ∃ r, (l1interface envW metaW sW1 true (dbW1, Status.start)).1.l1interfaces.rows.find?
            (fun x => x.idx == ex.idx) = some r ∧
        r.val.enabled = (if ex.val.enabled ≠ 0 then 1 else 0) ∧
        (ex.val.enabled = 0 → r.val.enabled = 0)) ∧
    (∀ ifx i, (ifx, i) ∈ sW1.layer1 →
      dictFind (ifindexesOf dbW1 metaW.idx)
        (fun q => q.val.ifindex == ifx) = none →
      ∃ r, r ∈ (l1interface envW metaW sW1 true (dbW1, Status.start)).1.l1interfaces.rows ∧
        r.val = mkL1 metaW.idx ifx i 0 1 ∧ r.val.enabled = 1)) :=
  ⟨⟨by decide, by decide⟩,
   C10_enabled_frame envW metaW sW1 dbW1 Status.start (by decide) (by decide)⟩

/-- **C3.** A stage whose predecessor stage did not record success performs no
writes: each stage returns the store and status untouched when its gate flag
is false; in particular, when the Interface Synchronizer fails (its validity
guard is false), the whole pipeline leaves the store unchanged, so no Vlan,
VlanPort, Mac, MacPort or MacIp row is written in that cycle. -/
theorem C3_dependency_gating (env : Env) (meta : Row IDevice) (s : Snapshot)
    (db : DB) (st : Status) :
    (st.l1interface = false → vlan meta s (db, st) = (db, st)) ∧
    (st.vlan = false → vlanport meta s (db, st) = (db, st)) ∧
    (st.vlanport = false → mac meta s (db, st) = (db, st)) ∧
    (st.mac = false → macport meta s (db, st) = .ok (db, st)) ∧
    (st.macport = false → macip env meta s (db, st) = (db, st)) ∧
    (topologyValid db meta = false →
      Topology.process env meta s db = .ok db) := by
  refine ⟨fun h => ?_, fun h => ?_, fun h => ?_, fun h => ?_, fun h => ?_,
    fun h => ?_⟩
  · simp [vlan, h]
  · simp [vlanport, h]
  · simp [mac, h]
  · simp [macport, h]
  · simp [macip, h]
  · simp [Topology.process, h, l1interface, vlan, vlanport, mac, macport,
      macip, Status.start]

/-- Witness for C3: a status with no stage recorded and a store whose device
row is absent (failing the Interface Synchronizer's validity guard). -/
theorem C3_dependency_gating_witness :
    Status.start.l1interface = false ∧
    vlan metaW sW1 (dbW1, Status.start) = (dbW1, Status.start) ∧
    topologyValid (DB.emptyWith []) metaW = false ∧
    Topology.process envW metaW sW1 (DB.emptyWith []) = .ok (DB.emptyWith []) :=
  ⟨rfl,
   (C3_dependency_gating envW metaW sW1 dbW1 Status.start).1 rfl,
   rfl,
   (C3_dependency_gating envW metaW sW1 (DB.emptyWith [])
     Status.start).2.2.2.2.2 rfl⟩

/-- **C9.** A snapshot lacking any of the minimum device identity fields makes
reconcile fail the whole cycle: `process` aborts (KeyError in `device()`)
with the store unchanged — no row of any table written, no later stage
run. -/
theorem C9_malformed_snapshot_aborts (env : Env) (s : Snapshot) (db : DB)
    (h : s.host = none ∨ s.sysName = none ∨ s.sysDescr = none ∨
         s.sysObjectID = none ∨ s.sysUpTime = none ∨ s.timestamp = none) :
    process env s db = .error db := by
  unfold process device
  cases h1 : s.host <;> cases h2 : s.sysName <;> cases h3 : s.sysDescr <;>
    cases h4 : s.sysObjectID <;> cases h5 : s.sysUpTime <;>
    cases h6 : s.timestamp <;> simp_all

/-- Witness for C9: the fixture snapshot with its system name removed. -/
theorem C9_malformed_snapshot_aborts_witness :
    ({ sW1 with sysName := none } : Snapshot).sysName = none ∧
    process envW { sW1 with sysName := none } dbW1 = .error dbW1 :=
  ⟨rfl, C9_malformed_snapshot_aborts envW { sW1 with sysName := none } dbW1
    (Or.inr (Or.inl rfl))⟩

/-- **C8.** Per neighbor-table entry in the Mac-IP Synchronizer: an entry
whose IP fails validation is dropped without failing the stage; an entry
whose normalized MAC resolves to no Mac row is dropped; a kept entry
produces a row whose hostname is null both when DNS is disabled and when DNS
is enabled but the reverse lookup fails — in every case the walk continues
(the stage never aborts). -/
theorem C8_macip_entry_handling (env : Env) (tMac : Table IMac)
    (t : Table IMacIp) (idxDev ver : Nat) (ipRaw macRaw : String)
    (rest : List (String × String)) (adds : List IMacIp)
    (upds : List (Nat × IMacIp)) :
    (env.ipNorm ipRaw = none →
      processMacip env tMac t idxDev ver ((ipRaw, macRaw) :: rest) adds upds =
        processMacip env tMac t idxDev ver rest adds upds) ∧
    (∀ ip, env.ipNorm ipRaw = some ip →
      tMac.findRow (fun r => r.val.mac == env.macNorm macRaw) = none →
      processMacip env tMac t idxDev ver ((ipRaw, macRaw) :: rest) adds upds =
        processMacip env tMac t idxDev ver rest adds upds) ∧
    (∀ ip mex, env.ipNorm ipRaw = some ip →
      tMac.findRow (fun r => r.val.mac == env.macNorm macRaw) = some mex →
      (env.dns = false ∨ env.dnsLookup ip = none) →
      processMacip env tMac t idxDev ver ((ipRaw, macRaw) :: rest) adds upds =
        (match t.findRow (fun r => r.val.idx_device == idxDev &&
            r.val.idx_mac == mex.idx && r.val.ip_ == ip) with
         | some pex => processMacip env tMac t idxDev ver rest adds
             (upds ++ [(pex.idx, ⟨idxDev, mex.idx, ip, none, ver, 1⟩)])
         | none => processMacip env tMac t idxDev ver rest
             (adds ++ [⟨idxDev, mex.idx, ip, none, ver, 1⟩]) upds)) := by
  refine ⟨fun h => ?_, fun ip hip hmac => ?_, fun ip mex hip hmac hdns => ?_⟩
  · simp [processMacip, h]
  · simp [processMacip, hip, hmac]
  · have hn : (if env.dns then env.dnsLookup ip else none) = none := by
      rcases hdns with h | h
      · simp [h]
      · by_cases hd : env.dns <;> simp [hd, h]
    simp only [processMacip, hip, hmac, hn]

/-- A fixed environment for the C8 witness: DNS enabled, every reverse lookup
failing, `bad` the only invalid address, macs normalized to lowercase. -/
def envW8 : Env :=
  { now := 5000, dns := true, dnsLookup := fun _ => none,
    ipNorm := fun ip => if ip == "bad" then none else some ip,
    macNorm := fun m => if m == "AA:BB:CC:DD:EE:FF" then "aabbccddeeff" else m }

/-- A Mac table holding one row. -/
def tMacW : Table IMac :=
  ⟨[⟨2, { idx_oui := 1, idx_zone := 1, mac := "aabbccddeeff", enabled := 1 }⟩], 3⟩

/-- Witness for C8: one invalid-IP entry, one unresolvable-MAC entry and one
kept entry under a failing DNS lookup. -/
theorem C8_macip_entry_handling_witness :
    (envW8.ipNorm "bad" = none ∧
     processMacip envW8 tMacW (Table.empty _) 1 4 [("bad", "x")] [] [] =
       processMacip envW8 tMacW (Table.empty _) 1 4 [] [] []) ∧
    (envW8.ipNorm "10.0.0.9" = some "10.0.0.9" ∧
     tMacW.findRow (fun r => r.val.mac == envW8.macNorm "00:11:22:33:44:55") = none ∧
     processMacip envW8 tMacW (Table.empty _) 1 4
         [("10.0.0.9", "00:11:22:33:44:55")] [] [] =
       processMacip envW8 tMacW (Table.empty _) 1 4 [] [] []) ∧
    (envW8.ipNorm "10.0.0.5" = some "10.0.0.5" ∧
     tMacW.findRow (fun r => r.val.mac == envW8.macNorm "AA:BB:CC:DD:EE:FF") =
       some ⟨2, { idx_oui := 1, idx_zone := 1, mac := "aabbccddeeff", enabled := 1 }⟩ ∧
     envW8.dnsLookup "10.0.0.5" = none ∧
     processMacip envW8 tMacW (Table.empty _) 1 4
         [("10.0.0.5", "AA:BB:CC:DD:EE:FF")] [] [] =
       ([⟨1, 2, "10.0.0.5", none, 4, 1⟩], [])) := by
  refine ⟨⟨?_, ?_⟩, ⟨?_, ?_, ?_⟩, ⟨?_, ?_, ?_, ?_⟩⟩
  · decide
  · exact (C8_macip_entry_handling envW8 tMacW (Table.empty _) 1 4 "bad" "x"
      [] [] []).1 (by decide)
  · decide
  · decide
  · exact (C8_macip_entry_handling envW8 tMacW (Table.empty _) 1 4 "10.0.0.9"
      "00:11:22:33:44:55" [] [] []).2.1 "10.0.0.9" (by decide) (by decide)
  · decide
  · decide
  · rfl
  · exact (C8_macip_entry_handling envW8 tMacW (Table.empty _) 1 4 "10.0.0.5"
      "AA:BB:CC:DD:EE:FF" [] [] []).2.2 "10.0.0.5"
      ⟨2, { idx_oui := 1, idx_zone := 1, mac := "aabbccddeeff", enabled := 1 }⟩
      (by decide) (by decide) (Or.inr rfl)

/-! ## Characterization of the Mac Synchronizer loop (for C7) -/

theorem Table.update_idxs {α : Type} (t : Table α) (i : Nat) (v : α) :
    (t.update i v).rows.map Row.idx = t.rows.map Row.idx := by
  simp only [Table.update, List.map_map]
  apply List.map_congr_left
  intro r _
  by_cases h : r.idx = i <;> simp [h, Function.comp]

theorem Table.mem_insertMany_left {α : Type} {t : Table α} {r : Row α}
    (h : r ∈ t.rows) (vs : List α) : r ∈ (t.insertMany vs).rows := by
  rw [Table.insertMany_rows]
  exact List.mem_append_left _ h

/-- Updating the row found under an identifier stores the new payload
there. -/
theorem Table.mem_update_self {α : Type} {t : Table α} {ex : Row α}
    (h : ex ∈ t.rows) (v : α) :
    Row.mk ex.idx v ∈ (t.update ex.idx v).rows := by
  simp only [Table.update]
  refine List.mem_map.2 ⟨ex, h, ?_⟩
  simp

/-- An update under a different identifier leaves a row in place. -/
theorem Table.mem_update_other {α : Type} {t : Table α} {r : Row α}
    (h : r ∈ t.rows) {i : Nat} (hne : r.idx ≠ i) (v : α) :
    r ∈ (t.update i v).rows := by
  simp only [Table.update]
  refine List.mem_map.2 ⟨r, h, ?_⟩
  simp [hne]

/-- The `lookup` dict resolves every prefix in its domain exactly as
`_oui.exists` with the sentinel fallback. -/
theorem assocGet_ouiMap (ouis : List (Row String)) (us : List String)
    {k : String} (hk : k ∈ us) :
    assocGet (ouiMap ouis us) k = ouiResolve ouis k := by
  unfold assocGet
  cases hf : (ouiMap ouis us).reverse.find? (fun p => p.1 == k) with
  | none =>
    exfalso
    have hmem : (k, ouiResolve ouis k) ∈ (ouiMap ouis us).reverse := by
      rw [List.mem_reverse]
      exact List.mem_map_of_mem _ (mem_pySorted.2 hk)
    have := List.find?_eq_none.mp hf _ hmem
    simp at this
  | some q =>
    have hp := List.find?_some hf
    have hmem := List.mem_reverse.1 (List.mem_of_find?_eq_some hf)
    obtain ⟨o, _, hpo⟩ := List.mem_map.1 hmem
    have h1 : o = k := by
      rw [← hpo] at hp
      simpa using hp
    subst h1
    rw [← hpo]

/-- Rows untouched by the Mac loop (their mac not among the processed macs)
survive it. -/
theorem macLoop_preserves (lkp : List (String × Nat)) {L : List String}
    {t : Table IMac} {ins : List IMac} {j : Nat} {v : IMac}
    (hmem : Row.mk j v ∈ t.rows) (hnd : (t.rows.map Row.idx).Nodup)
    (hnot : v.mac ∉ L) :
    Row.mk j v ∈ (macLoop lkp L t ins).1.rows := by
  induction L generalizing t ins with
  | nil => exact hmem
  | cons item rest ih =>
    have hni : v.mac ≠ item := fun h => hnot (h ▸ List.mem_cons_self _ _)
    have hrest : v.mac ∉ rest := fun h => hnot (List.mem_cons_of_mem _ h)
    simp only [macLoop]
    cases hf : t.findRow (fun r => r.val.mac == item) with
    | none => exact ih hmem hnd hrest
    | some ex =>
      have hf2 : t.rows.find? (fun r => r.val.mac == item) = some ex := hf
      have hexmem : ex ∈ t.rows := List.mem_of_find?_eq_some hf2
      have hexmac := List.find?_some hf2
      have hne : ex.idx ≠ j := by
        intro h
        have hEq : ex = ⟨j, v⟩ :=
          List.inj_on_of_nodup_map hnd hexmem hmem h
        rw [hEq] at hexmac
        exact hni (by simpa using hexmac)
      refine ih ?_ ?_ hrest
      · exact Table.mem_update_other hmem (by simpa using Ne.symm hne) _
      · rw [Table.update_idxs]
        exact hnd

/-- The insert list only ever grows along the Mac loop. -/
theorem macLoop_ins_grows (lkp : List (String × Nat)) (L : List String)
    (t : Table IMac) (ins : List IMac) :
    ∃ suf, (macLoop lkp L t ins).2 = ins ++ suf := by
  induction L generalizing t ins with
  | nil => exact ⟨[], (List.append_nil ins).symm⟩
  | cons item rest ih =>
    simp only [macLoop]
    cases hf : t.findRow (fun r => r.val.mac == item) with
    | none =>
      obtain ⟨suf, hsuf⟩ := ih t
        (ins ++ [⟨assocGet lkp (strTake item 6), 1, item, 1⟩])
      exact ⟨_, by rw [hsuf, List.append_assoc]⟩
    | some ex => exact ih _ _

/-- Every processed mac ends up stored (updated in place or batch-inserted)
with the row the loop builds for it. -/
theorem macLoop_writes (lkp : List (String × Nat)) {L : List String}
    (hL : L.Nodup) {m : String} (hm : m ∈ L) (t : Table IMac)
    (ins : List IMac) (hnd : (t.rows.map Row.idx).Nodup) :
    ∃ r, r ∈ ((macLoop lkp L t ins).1.insertMany (macLoop lkp L t ins).2).rows ∧
      r.val = ⟨assocGet lkp (strTake m 6), 1, m, 1⟩ := by
  induction L generalizing t ins with
  | nil => cases hm
  | cons item rest ih =>
    simp only [List.nodup_cons] at hL
    rcases List.mem_cons.1 hm with heq | hm2
    · cases heq
      simp only [macLoop]
      cases hf : t.findRow (fun r => r.val.mac == m) with
      | some ex =>
        have hexmem : ex ∈ t.rows := List.mem_of_find?_eq_some hf
        have hupd : Row.mk ex.idx (⟨assocGet lkp (strTake m 6), 1, m, 1⟩ : IMac) ∈
            (t.update ex.idx ⟨assocGet lkp (strTake m 6), 1, m, 1⟩).rows :=
          Table.mem_update_self hexmem _
        have hnd2 : (((t.update ex.idx
            ⟨assocGet lkp (strTake m 6), 1, m, 1⟩).rows).map Row.idx).Nodup := by
          rw [Table.update_idxs]
          exact hnd
        have hpres := @macLoop_preserves lkp rest
          (t.update ex.idx ⟨assocGet lkp (strTake m 6), 1, m, 1⟩) ins ex.idx
          ⟨assocGet lkp (strTake m 6), 1, m, 1⟩ hupd hnd2 hL.1
        exact ⟨_, Table.mem_insertMany_left hpres _, rfl⟩
      | none =>
        obtain ⟨suf, hsuf⟩ := macLoop_ins_grows lkp rest t
          (ins ++ [⟨assocGet lkp (strTake m 6), 1, m, 1⟩])
        have hv : (⟨assocGet lkp (strTake m 6), 1, m, 1⟩ : IMac) ∈
            (macLoop lkp rest t
              (ins ++ [⟨assocGet lkp (strTake m 6), 1, m, 1⟩])).2 := by
          rw [hsuf]
          exact List.mem_append_left _ (List.mem_append_right _
            (List.mem_cons_self _ _))
        obtain ⟨j, hj⟩ := insertedRows_mem
          (macLoop lkp rest t (ins ++ [⟨assocGet lkp (strTake m 6), 1, m, 1⟩])).1.next hv
        refine ⟨⟨j, _⟩, ?_, rfl⟩
        rw [Table.insertMany_rows]
        exact List.mem_append_right _ hj
    · simp only [macLoop]
      cases hf : t.findRow (fun r => r.val.mac == item) with
      | none => exact ih hL.2 hm2 t _ hnd
      | some ex =>
        refine ih hL.2 hm2 _ ins ?_
        rw [Table.update_idxs]
        exact hnd

/-- The sorted unique lowercased macs the Mac Synchronizer processes. -/
def macItems (meta : Row IDevice) (s : Snapshot) (db : DB) : List String :=
  pySorted (fun a b => a ≤ b)
    (uniqueMacs ((ifindexesOf db meta.idx).map (fun r => r.val.ifindex)) s.layer1)

/-- The Mac Synchronizer's prefix-resolution dict. -/
def macLkp (meta : Row IDevice) (s : Snapshot) (db : DB) : List (String × Nat) :=
  ouiMap db.ouis
    (uniqueOuis ((ifindexesOf db meta.idx).map (fun r => r.val.ifindex)) s.layer1)

/-- The Mac table after an ungated run of the Mac Synchronizer. -/
theorem mac_table_eq (meta : Row IDevice) (s : Snapshot) (db : DB)
    (st : Status) (hst : st.vlanport = true) :
    (mac meta s (db, st)).1.macs =
      (macLoop (macLkp meta s db) (macItems meta s db) db.macs []).1.insertMany
        (macLoop (macLkp meta s db) (macItems meta s db) db.macs []).2 := by
  simp only [mac, macLkp, macItems]
  rw [if_neg (by simp [hst])]
  rcases hml : macLoop
    (ouiMap db.ouis (uniqueOuis
      ((ifindexesOf db meta.idx).map (fun r => r.val.ifindex)) s.layer1))
    (pySorted (fun a b => a ≤ b)
      (uniqueMacs ((ifindexesOf db meta.idx).map (fun r => r.val.ifindex))
        s.layer1)) db.macs [] with ⟨t, ins⟩
  simp only [hml]
  by_cases he : ins.isEmpty = true
  · rw [if_pos he, List.isEmpty_iff.mp he]
    rfl
  · rw [if_neg he]

/-- **C7.** For every unique lowercased MAC observed on the device's existing
interfaces, the Mac Synchronizer writes a Mac row whose vendor reference is
the resolution of the mac's six-character vendor prefix (its first three
bytes, macs being plain lowercase hex) against the OUI reference table, the
sentinel id 1 ("unknown vendor") when the prefix has no match. -/
theorem C7_oui_resolution (meta : Row IDevice) (s : Snapshot) (db : DB)
    (st : Status) (hst : st.vlanport = true) (m : String)
    (hm : m ∈ uniqueMacs
      ((ifindexesOf db meta.idx).map (fun r => r.val.ifindex)) s.layer1)
    (hm6 : strLower (strTake m 6) = strTake m 6)
    (hnd : (db.macs.rows.map Row.idx).Nodup) :
    ∃ r, r ∈ (mac meta s (db, st)).1.macs.rows ∧
      r.val = ⟨ouiResolve db.ouis (strTake m 6), 1, m, 1⟩ ∧
      (db.ouis.find? (fun q => q.val == strTake m 6) = none →
        r.val.idx_oui = 1) := by
  have hmem : m ∈ macItems meta s db := mem_pySorted.2 hm
  have hnodup : (macItems meta s db).Nodup :=
    ((pySorted_perm _ _).nodup_iff).2 (List.nodup_dedup _)
  obtain ⟨r, hr, hv⟩ :=
    macLoop_writes (macLkp meta s db) hnodup hmem db.macs [] hnd
  have hkey : strTake m 6 ∈ uniqueOuis
      ((ifindexesOf db meta.idx).map (fun q => q.val.ifindex)) s.layer1 := by
    unfold uniqueOuis
    rw [← hm6]
    exact List.mem_dedup.2 (List.mem_map_of_mem _ hm)
  have hres : assocGet (macLkp meta s db) (strTake m 6) =
      ouiResolve db.ouis (strTake m 6) :=
    assocGet_ouiMap db.ouis _ hkey
  rw [mac_table_eq meta s db st hst]
  refine ⟨r, hr, ?_, ?_⟩
  · rw [hv, hres]
  · intro hnone
    rw [hv, hres]
    simp [ouiResolve, hnone]

/-- A store for the C7 witness: device 1, one interface row, an OUI table
resolving `aabbcc` to id 7. -/
def dbW7 : DB :=
  { devices := ⟨[metaW], 2⟩,
    l1interfaces := ⟨[⟨1, mkL1 1 1 (ifdW (some 1) (some 1) none
      (some ["aabbccddeeff", "001122334455"])) 0 1⟩], 2⟩,
    vlans := Table.empty _, vlanports := Table.empty _,
    macs := Table.empty _, macports := Table.empty _,
    macips := Table.empty _, ouis := [⟨7, "aabbcc"⟩] }

/-- A snapshot for the C7 witness: one interface listing two macs. -/
def sW7 : Snapshot :=
  { host := some "h", sysName := some "s", sysDescr := some "d",
    sysObjectID := some "o", sysUpTime := some 9, timestamp := some 100,
    layer1 := [(1, ifdW (some 1) (some 1) none
      (some ["aabbccddeeff", "001122334455"]))],
    ipv4 := none, ipv6 := none }

/-- A status with the Vlan-Port Linker recorded successful. -/
def stW7 : Status := ⟨true, true, true, false, false, false⟩

/-- Witness for C7: the mac with a matching OUI row resolves to id 7; the
same theorem applied to the unmatched mac gives the sentinel. -/
theorem C7_oui_resolution_witness :
    (stW7.vlanport = true ∧
     "aabbccddeeff" ∈ uniqueMacs
       ((ifindexesOf dbW7 metaW.idx).map (fun r => r.val.ifindex)) sW7.layer1 ∧
     strLower (strTake "aabbccddeeff" 6) = strTake "aabbccddeeff" 6 ∧
     (dbW7.macs.rows.map Row.idx).Nodup) ∧
    (∃ r, r ∈ (mac metaW sW7 (dbW7, stW7)).1.macs.rows ∧
      r.val = ⟨ouiResolve dbW7.ouis (strTake "aabbccddeeff" 6), 1,
        "aabbccddeeff", 1⟩ ∧
      (dbW7.ouis.find? (fun q => q.val == strTake "aabbccddeeff" 6) = none →
        r.val.idx_oui = 1)) ∧
    (∃ r, r ∈ (mac metaW sW7 (dbW7, stW7)).1.macs.rows ∧
      r.val = ⟨ouiResolve dbW7.ouis (strTake "001122334455" 6), 1,
        "001122334455", 1⟩ ∧
      (dbW7.ouis.find? (fun q => q.val == strTake "001122334455" 6) = none →
        r.val.idx_oui = 1)) :=
  ⟨⟨rfl, by decide, by decide, by decide⟩,
   C7_oui_resolution metaW sW7 dbW7 stW7 rfl "aabbccddeeff"
     (by decide) (by decide) (by decide),
   C7_oui_resolution metaW sW7 dbW7 stW7 rfl "001122334455"
     (by decide) (by decide) (by decide)⟩

/-! ## C5: the Mac-Port Linker and unresolvable references -/

/-- A store at the Mac-Port stage in which the observed mac exists in the
global Mac table (e.g. written while reconciling another device) but the
device has no interface rows. -/
def dbW5 : DB :=
  { devices := ⟨[metaW], 2⟩, l1interfaces := ⟨[], 2⟩,
    vlans := Table.empty _, vlanports := Table.empty _,
    macs := ⟨[⟨3, ⟨1, 1, "aabbccddeeff", 1⟩⟩], 4⟩, macports := Table.empty _,
    macips := Table.empty _, ouis := [] }

/-- A snapshot whose single interface observed that mac. -/
def sW5 : Snapshot :=
  { host := some "h", sysName := some "s", sysDescr := some "d",
    sysObjectID := some "o", sysUpTime := some 9, timestamp := some 100,
    layer1 := [(1, ifdW (some 1) (some 1) none (some ["aabbccddeeff"]))],
    ipv4 := none, ipv6 := none }

/-- Status at the Mac-Port stage (all predecessors succeeded). -/
def stW5 : Status := ⟨true, true, true, true, false, false⟩

/-- The same scenario with an unresolvable mac instead: the interface row
exists but the observed mac is not in the Mac table. -/
def sW5b : Snapshot :=
  { sW5 with layer1 := [(1, ifdW (some 1) (some 1) none
      (some ["ffffffffffff"]))] }

/-- Store for the mac-side case: interface row present. -/
def dbW5b : DB :=
  { dbW5 with l1interfaces := ⟨[⟨1, mkL1 1 1 (ifdW (some 1) (some 1) none
      (some ["ffffffffffff"])) 0 1⟩], 2⟩ }

/-- **C5.** The claim says the Mac-Port Linker skips an association silently
when *either* side cannot be resolved.  The source guards only the Mac side:
`Topology.macport` checks `_mac.exists(item)` but never `l1_exists`, so when
a mac resolves while the interface row is absent it evaluates
`None.idx_l1interface` — an AttributeError (modelled `.error`), aborting the
stage instead of skipping (first conjunct: the code at the failing input).
The mac side behaves as claimed: an unresolvable mac is skipped silently and
the stage completes (second conjunct). -/
theorem C5_macport_interface_side_raises :
    macport metaW sW5 (dbW5, stW5) = .error dbW5 ∧
    macport metaW sW5b (dbW5b, stW5) =
      .ok (dbW5b, { stW5 with macport := true }) :=
  ⟨rfl, rfl⟩

/-! ## C4: concurrent Mac Synchronizer runs of two devices

The spec (sections 5 and 9) requires that two devices observing the same MAC
and reconciled concurrently must not double-insert into the globally shared
Mac table, and forbids a plain check-then-insert.  `Topology.mac` *is* a
plain check-then-insert: a per-mac `_mac.exists` scan collecting misses, then
one batched `_mac.insert_row`.  Each store call is atomic (spec section 6)
but nothing serializes the scan against another device's insert.  We model
one device's Mac stage as a worker over the shared table's mac-key list and
interleave two workers; the correspondence of the solo worker with the real
`Topology.mac` table effect is proved below (`mac_stage_matches_worker`). -/

/-- A device's Mac Synchronizer critical section: macs still to scan, the
collected misses, and whether the batched insert has run. -/
structure MacWorker where
  pending : List String
  toInsert : List String
  flushed : Bool
deriving Repr, DecidableEq

/-- One atomic store interaction of the Mac stage: either one `_mac.exists`
check (an existing row is updated, adding no key) or the final batched
insert. -/
def macWorkerStep (table : List String) (w : MacWorker) :
    List String × MacWorker :=
  match w.pending with
  | m :: rest =>
    if table.contains m then (table, { w with pending := rest })
    else (table, { w with pending := rest, toInsert := w.toInsert ++ [m] })
  | [] =>
    if w.flushed then (table, w)
    else (table ++ w.toInsert, { w with flushed := true })

/-- Interleave two workers over the shared Mac table under a schedule
(`true` steps the first worker). -/
def macRace (sched : List Bool) (table : List String) (a b : MacWorker) :
    List String :=
  match sched with
  | [] => table
  | c :: rest =>
    if c then
      let p := macWorkerStep table a
      macRace rest p.1 p.2 b
    else
      let p := macWorkerStep table b
      macRace rest p.1 a p.2

/-- The macs of `L` missing from a fixed key list, in order. -/
def missedMacs (keys : List String) : List String → List String
  | [] => []
  | m :: rest =>
    if keys.contains m then missedMacs keys rest
    else m :: missedMacs keys rest

/-- An update that rewrites a mac row to one with the same mac leaves the
table's key list intact. -/
theorem map_mac_update (t : Table IMac) (i : Nat) (v : IMac)
    (h : ∀ r ∈ t.rows, r.idx = i → r.val.mac = v.mac) :
    (t.update i v).rows.map (fun r => r.val.mac) =
      t.rows.map (fun r => r.val.mac) := by
  simp only [Table.update, List.map_map]
  apply List.map_congr_left
  intro r hr
  by_cases hi : r.idx = i
  · simp [Function.comp, hi, (h r hr hi).symm]
  · simp [Function.comp, hi]

/-- `_mac.exists` misses exactly when the mac is not among the table's
keys. -/
theorem findRow_mac_none_iff (t : Table IMac) (m : String) :
    t.findRow (fun r => r.val.mac == m) = none ↔
      (t.rows.map (fun r => r.val.mac)).contains m = false := by
  constructor
  · intro h
    by_contra hc
    have hct : (t.rows.map (fun r => r.val.mac)).contains m = true := by
      revert hc
      cases (t.rows.map (fun r => r.val.mac)).contains m <;> simp
    have hmem : m ∈ t.rows.map (fun r => r.val.mac) := List.elem_iff.mp hct
    obtain ⟨r, hr, hrm⟩ := List.mem_map.1 hmem
    have h2 : t.rows.find? (fun r => r.val.mac == m) = none := h
    have := List.find?_eq_none.mp h2 r hr
    simp [hrm] at this
  · intro h
    show t.rows.find? (fun r => r.val.mac == m) = none
    rw [List.find?_eq_none]
    intro r hr hp
    have hrm : r.val.mac = m := by simpa using hp
    have hmem : m ∈ t.rows.map (fun r => r.val.mac) :=
      hrm ▸ List.mem_map_of_mem _ hr
    have : (t.rows.map (fun r => r.val.mac)).contains m = true :=
      List.elem_iff.mpr hmem
    rw [this] at h
    exact Bool.noConfusion h

/-- Key-list effect of the Mac loop: the scan leaves the table's keys
unchanged and collects exactly the missing macs for the batched insert. -/
theorem macLoop_keys (lkp : List (String × Nat)) (L : List String)
    (t : Table IMac) (ins : List IMac)
    (hnd : (t.rows.map Row.idx).Nodup) :
    (macLoop lkp L t ins).1.rows.map (fun r => r.val.mac) =
        t.rows.map (fun r => r.val.mac) ∧
      (macLoop lkp L t ins).2 = ins ++
        (missedMacs (t.rows.map (fun r => r.val.mac)) L).map
          (fun m => ⟨assocGet lkp (strTake m 6), 1, m, 1⟩) := by
  induction L generalizing t ins with
  | nil => simp [macLoop, missedMacs]
  | cons item rest ih =>
    simp only [macLoop]
    cases hf : t.findRow (fun r => r.val.mac == item) with
    | none =>
      have hc := (findRow_mac_none_iff t item).mp hf
      obtain ⟨ih1, ih2⟩ := ih t
        (ins ++ [⟨assocGet lkp (strTake item 6), 1, item, 1⟩]) hnd
      refine ⟨ih1, ?_⟩
      have hm : missedMacs (t.rows.map fun r => r.val.mac) (item :: rest) =
          item :: missedMacs (t.rows.map fun r => r.val.mac) rest := by
        simp only [missedMacs]
        rw [hc]
        simp
      rw [ih2, hm]
      simp [List.append_assoc]
    | some ex =>
      have hf2 : t.rows.find? (fun r => r.val.mac == item) = some ex := hf
      have hexmem : ex ∈ t.rows := List.mem_of_find?_eq_some hf2
      have hexmac := List.find?_some hf2
      have hmac : ex.val.mac = item := by simpa using hexmac
      have hkeys : (t.update ex.idx
          ⟨assocGet lkp (strTake item 6), 1, item, 1⟩).rows.map
            (fun r => r.val.mac) = t.rows.map (fun r => r.val.mac) := by
        apply map_mac_update
        intro r hr hri
        have : r = ex := List.inj_on_of_nodup_map hnd hr hexmem
          (by rw [hri])
        rw [this, hmac]
      have hc : (t.rows.map (fun r => r.val.mac)).contains item = true :=
        List.elem_iff.mpr (hmac ▸ List.mem_map_of_mem _ hexmem)
      obtain ⟨ih1, ih2⟩ := ih
        (t.update ex.idx ⟨assocGet lkp (strTake item 6), 1, item, 1⟩) ins
        (by rw [Table.update_idxs]; exact hnd)
      refine ⟨by rw [ih1, hkeys], ?_⟩
      have hm : missedMacs (t.rows.map fun r => r.val.mac) (item :: rest) =
          missedMacs (t.rows.map fun r => r.val.mac) rest := by
        simp only [missedMacs]
        rw [hc]
        simp
      rw [ih2, hkeys, hm]

/-- A worker that runs its whole critical section without interference
produces the table plus exactly its missing macs. -/
theorem macRace_solo_aux (table acc : List String) (L : List String)
    (b : MacWorker) :
    macRace (List.replicate (L.length + 1) true) table ⟨L, acc, false⟩ b =
      table ++ acc ++ missedMacs table L := by
  induction L generalizing acc with
  | nil =>
    show macRace [true] table ⟨[], acc, false⟩ b = _
    simp [macRace, macWorkerStep, missedMacs]
  | cons m rest ih =>
    show macRace (true :: List.replicate (rest.length + 1) true) table
      ⟨m :: rest, acc, false⟩ b = _
    rw [show macRace (true :: List.replicate (rest.length + 1) true) table
        ⟨m :: rest, acc, false⟩ b =
      macRace (List.replicate (rest.length + 1) true)
        (macWorkerStep table ⟨m :: rest, acc, false⟩).1
        (macWorkerStep table ⟨m :: rest, acc, false⟩).2 b from rfl]
    by_cases hc : table.contains m = true
    · have hmem : m ∈ table := List.elem_iff.mp hc
      rw [show macWorkerStep table ⟨m :: rest, acc, false⟩ =
        (table, ⟨rest, acc, false⟩) from by simp [macWorkerStep, hmem]]
      rw [ih acc]
      have hm : missedMacs table (m :: rest) = missedMacs table rest := by
        simp only [missedMacs]
        rw [hc]
        simp
      rw [hm]
    · have hnmem : m ∉ table := fun h => hc (List.elem_iff.mpr h)
      rw [show macWorkerStep table ⟨m :: rest, acc, false⟩ =
        (table, ⟨rest, acc ++ [m], false⟩) from by simp [macWorkerStep, hnmem]]
      rw [ih (acc ++ [m])]
      have hcf : table.contains m = false := by
        revert hc
        cases table.contains m <;> simp
      have hm : missedMacs table (m :: rest) = m :: missedMacs table rest := by
        simp only [missedMacs]
        rw [hcf]
        simp
      rw [hm]
      simp [List.append_assoc]

/-- Grounding of the race model: the Mac Synchronizer's effect on the shared
Mac table's key list is exactly one solo worker run. -/
theorem mac_stage_matches_worker (meta : Row IDevice) (s : Snapshot)
    (db : DB) (st : Status) (hst : st.vlanport = true)
    (hnd : (db.macs.rows.map Row.idx).Nodup) :
    (mac meta s (db, st)).1.macs.rows.map (fun r => r.val.mac) =
      macRace (List.replicate ((macItems meta s db).length + 1) true)
        (db.macs.rows.map (fun r => r.val.mac))
        ⟨macItems meta s db, [], false⟩ ⟨[], [], true⟩ := by
  rw [mac_table_eq meta s db st hst]
  obtain ⟨h1, h2⟩ := macLoop_keys (macLkp meta s db) (macItems meta s db)
    db.macs [] hnd
  rw [macRace_solo_aux]
  rw [Table.insertMany_rows, List.map_append, h1, h2]
  have : ∀ (n : Nat) (vs : List IMac),
      (insertedRows n vs).map (fun r => r.val.mac) =
        vs.map (fun v => v.mac) := by
    intro n vs
    induction vs generalizing n with
    | nil => simp [insertedRows]
    | cons v rest ihv => simp [insertedRows, ihv]
  rw [this]
  simp only [List.nil_append, List.map_map]
  rw [show ((fun (v : IMac) => v.mac) ∘ fun m =>
      ({ idx_oui := assocGet (macLkp meta s db) (strTake m 6), idx_zone := 1,
         mac := m, enabled := 1 } : IMac)) = fun m => m from
    funext fun m => rfl]
  simp

/-! ## Sortedness of the insertion sort (for C6's determinism clause) -/

theorem insertLe_pairwise {α : Type} (le : α → α → Bool)
    (htot : ∀ a b, le a b = true ∨ le b a = true)
    (htrans : ∀ a b c, le a b = true → le b c = true → le a c = true)
    (a : α) {l : List α} (h : l.Pairwise (fun x y => le x y = true)) :
    (insertLe le a l).Pairwise (fun x y => le x y = true) := by
  induction l with
  | nil => simp [insertLe]
  | cons b t ih =>
    rcases List.pairwise_cons.1 h with ⟨hb, ht⟩
    simp only [insertLe]
    by_cases hab : le a b = true
    · rw [if_pos hab]
      refine List.pairwise_cons.2 ⟨?_, h⟩
      intro x hx
      rcases List.mem_cons.1 hx with rfl | hx2
      · exact hab
      · exact htrans a b x hab (hb x hx2)
    · rw [if_neg hab]
      refine List.pairwise_cons.2 ⟨?_, ih ht⟩
      intro x hx
      have hx3 := (insertLe_perm le a t).mem_iff.mp hx
      rcases List.mem_cons.1 hx3 with rfl | hx2
      · rcases htot x b with h1 | h1
        · exact absurd h1 hab
        · exact h1
      · exact hb x hx2

theorem pySorted_pairwise {α : Type} (le : α → α → Bool)
    (htot : ∀ a b, le a b = true ∨ le b a = true)
    (htrans : ∀ a b c, le a b = true → le b c = true → le a c = true)
    (l : List α) :
    (pySorted le l).Pairwise (fun x y => le x y = true) := by
  induction l with
  | nil => simp [pySorted]
  | cons a t ih => exact insertLe_pairwise le htot htrans a ih

theorem vlanLe_total (a b : IVlan) : vlanLe a b = true ∨ vlanLe b a = true := by
  simp only [vlanLe, Bool.or_eq_true, decide_eq_true_eq, Bool.and_eq_true,
    beq_iff_eq]
  omega

theorem vlanLe_trans (a b c : IVlan) (h1 : vlanLe a b = true)
    (h2 : vlanLe b c = true) : vlanLe a c = true := by
  simp only [vlanLe, Bool.or_eq_true, decide_eq_true_eq, Bool.and_eq_true,
    beq_iff_eq] at h1 h2 ⊢
  omega

/-! ## Characterization of the Vlan Synchronizer loop (for C6) -/

/-- One loop iteration's effect on one stored vlan row. -/
def vlanStep (pre : List (Row IVlan)) (item : IVlan) (r : Row IVlan) :
    Row IVlan :=
  match dictFind pre (fun q => q.val.vlan == item.vlan) with
  | some ex => if r.idx = ex.idx then ⟨ex.idx, item⟩ else r
  | none => r

/-- Composite loop effect on one stored vlan row. -/
def vlanUpdAll (pre : List (Row IVlan)) (items : List IVlan)
    (r : Row IVlan) : Row IVlan :=
  items.foldl (fun r item => vlanStep pre item r) r

/-- The insert batch collected by the vlan loop. -/
def vlanInsertsOf (pre : List (Row IVlan)) : List IVlan → List IVlan
  | [] => []
  | item :: rest =>
    match dictFind pre (fun q => q.val.vlan == item.vlan) with
    | some _ => vlanInsertsOf pre rest
    | none => item :: vlanInsertsOf pre rest

theorem vlanLoop_spec (pre : List (Row IVlan)) (items : List IVlan)
    (t : Table IVlan) (ins : List IVlan) :
    vlanLoop pre items t ins =
      (⟨t.rows.map (vlanUpdAll pre items), t.next⟩,
        ins ++ vlanInsertsOf pre items) := by
  induction items generalizing t ins with
  | nil =>
    cases t
    simp only [vlanLoop, vlanInsertsOf, List.append_nil]
    refine Prod.ext (congrArg₂ Table.mk ?_ rfl) rfl
    rw [show vlanUpdAll pre [] = id from funext fun r => rfl, List.map_id]
  | cons item rest ih =>
    cases h : dictFind pre (fun q => q.val.vlan == item.vlan) with
    | some ex =>
      simp only [vlanLoop, h]
      rw [ih]
      refine Prod.ext ?_ ?_
      · refine congrArg₂ Table.mk ?_ ?_
        · simp only [Table.update, List.map_map]
          apply List.map_congr_left
          intro r _
          simp only [Function.comp, vlanUpdAll, List.foldl_cons, vlanStep, h]
        · simp [Table.update]
      · simp [vlanInsertsOf, h]
    | none =>
      simp only [vlanLoop, h]
      rw [ih]
      refine Prod.ext ?_ ?_
      · refine congrArg₂ Table.mk ?_ ?_
        · apply List.map_congr_left
          intro r _
          simp only [vlanUpdAll, List.foldl_cons, vlanStep, h]
        · rfl
      · simp [vlanInsertsOf, h]

/-- Rows of the Vlan Synchronizer's table after an ungated run. -/
theorem vlan_rows_eq (meta : Row IDevice) (s : Snapshot) (db : DB)
    (st : Status) (hst : st.l1interface = true) :
    (vlan meta s (db, st)).1.vlans.rows =
      db.vlans.rows.map (vlanUpdAll (vlansOf db meta.idx)
          (uniqueVlansSorted meta.idx (sortedLayer1 s)))
        ++ insertedRows db.vlans.next
          (vlanInsertsOf (vlansOf db meta.idx)
            (uniqueVlansSorted meta.idx (sortedLayer1 s))) := by
  have h := vlanLoop_spec (vlansOf db meta.idx)
    (uniqueVlansSorted meta.idx (sortedLayer1 s)) db.vlans []
  simp only [vlan, h, List.nil_append]
  rw [if_neg (by simp [hst])]
  by_cases he : (vlanInsertsOf (vlansOf db meta.idx)
      (uniqueVlansSorted meta.idx (sortedLayer1 s))).isEmpty = true
  · rw [if_pos he]
    rw [List.isEmpty_iff] at he
    simp [he, insertedRows]
  · rw [if_neg he]
    simp only [Table.insertMany_rows]

theorem dictFind_eq_none {α : Type} {rows : List (Row α)} {p : Row α → Bool} :
    dictFind rows p = none ↔ ∀ r ∈ rows, ¬ p r = true := by
  unfold dictFind
  rw [List.find?_eq_none]
  constructor
  · intro h r hr
    exact h r (List.mem_reverse.2 hr)
  · intro h r hr
    exact h r (List.mem_reverse.1 hr)

/-- Every member of `vlanRows` is the candidate row of its vlan number. -/
theorem vlanRows_form (idxDev : Nat) (l1 : List (Nat × IfData))
    {item : IVlan} (h : item ∈ vlanRows idxDev l1) :
    item = mkVlan idxDev item.vlan := by
  unfold vlanRows at h
  -- fold accumulates appends; prove by generalized induction
  suffices haux : ∀ (L : List (Nat × IfData)) (acc : List IVlan),
      (∀ x ∈ acc, x = mkVlan idxDev x.vlan) →
      ∀ x ∈ L.foldl (fun acc p =>
        match p.2.l1_vlans with
        | some vs => acc ++ vs.map (mkVlan idxDev)
        | none => acc) acc, x = mkVlan idxDev x.vlan by
    exact haux l1 [] (by intro x hx; cases hx) item h
  intro L
  induction L with
  | nil => intro acc hacc x hx; exact hacc x hx
  | cons q rest ih =>
    intro acc hacc x hx
    simp only [List.foldl_cons] at hx
    cases hq : q.2.l1_vlans with
    | none =>
      rw [hq] at hx
      exact ih acc hacc x hx
    | some vs =>
      rw [hq] at hx
      refine ih _ ?_ x hx
      intro y hy
      rcases List.mem_append.1 hy with hy1 | hy2
      · exact hacc y hy1
      · obtain ⟨v, _, hv⟩ := List.mem_map.1 hy2
        rw [← hv]
        rfl

/-- Members of the deduplicated sorted items are candidate rows. -/
theorem uniqueVlansSorted_form (idxDev : Nat) (l1 : List (Nat × IfData))
    {item : IVlan} (h : item ∈ uniqueVlansSorted idxDev l1) :
    item = mkVlan idxDev item.vlan :=
  vlanRows_form idxDev l1
    (List.mem_dedup.1 (mem_pySorted.1 h))

theorem uniqueVlansSorted_nodup (idxDev : Nat) (l1 : List (Nat × IfData)) :
    (uniqueVlansSorted idxDev l1).Nodup :=
  ((pySorted_perm _ _).nodup_iff).2 (List.nodup_dedup _)

/-- A predicate satisfied by exactly one member of a duplicate-free list
counts to one. -/
theorem countP_eq_one_of_unique {α : Type} {l : List α} {p : α → Bool}
    {a : α} (hmem : a ∈ l) (hp : p a = true)
    (huniq : ∀ b ∈ l, p b = true → b = a) (hnd : l.Nodup) :
    l.countP p = 1 := by
  induction l with
  | nil => cases hmem
  | cons b t ih =>
    rcases List.nodup_cons.1 hnd with ⟨hbt, hndt⟩
    rcases List.mem_cons.1 hmem with rfl | hmem2
    · rw [List.countP_cons, hp]
      have h0 : t.countP p = 0 := by
        rw [List.countP_eq_zero]
        intro c hc hpc
        have := huniq c (List.mem_cons_of_mem _ hc) hpc
        exact hbt (this ▸ hc)
      simp [h0]
    · have hpb : p b = false := by
        by_contra hpb
        have hb : p b = true := by
          revert hpb
          cases p b <;> simp
        have := huniq b (List.mem_cons_self _ _) hb
        exact hbt (this ▸ hmem2)
      rw [List.countP_cons, hpb]
      have := ih hmem2 (fun c hc hpc =>
        huniq c (List.mem_cons_of_mem _ hc) hpc) hndt
      simp [this]

/-- Counting a value predicate over a batched insert's rows counts it over
the inserted values. -/
theorem countP_insertedRows {α : Type} (n : Nat) (vs : List α)
    (p : Row α → Bool) (P : α → Bool) (h : ∀ j x, p ⟨j, x⟩ = P x) :
    (insertedRows n vs).countP p = vs.countP P := by
  induction vs generalizing n with
  | nil => simp [insertedRows]
  | cons v rest ih =>
    simp only [insertedRows, List.countP_cons, ih, h]

/-- Members of the collected vlan insert batch: they come from the items and
their vlan number resolved to no existing row. -/
theorem vlanInsertsOf_mem_iff (pre : List (Row IVlan)) (items : List IVlan)
    (item : IVlan) :
    item ∈ vlanInsertsOf pre items ↔ item ∈ items ∧
      dictFind pre (fun q => q.val.vlan == item.vlan) = none := by
  induction items with
  | nil => simp [vlanInsertsOf]
  | cons it rest ih =>
    simp only [vlanInsertsOf]
    cases h : dictFind pre (fun q => q.val.vlan == it.vlan) with
    | some ex =>
      rw [ih]
      constructor
      · rintro ⟨h1, h2⟩
        exact ⟨List.mem_cons_of_mem _ h1, h2⟩
      · rintro ⟨h1, h2⟩
        rcases List.mem_cons.1 h1 with rfl | h3
        · rw [h] at h2
          cases h2
        · exact ⟨h3, h2⟩
    | none =>
      constructor
      · intro hmem
        rcases List.mem_cons.1 hmem with rfl | h3
        · exact ⟨List.mem_cons_self _ _, h⟩
        · obtain ⟨h1, h2⟩ := ih.1 h3
          exact ⟨List.mem_cons_of_mem _ h1, h2⟩
      · rintro ⟨h1, h2⟩
        rcases List.mem_cons.1 h1 with rfl | h3
        · exact List.mem_cons_self _ _
        · exact List.mem_cons_of_mem _ (ih.2 ⟨h3, h2⟩)

/-- The insert batch is a sublist of the processed items. -/
theorem vlanInsertsOf_sublist (pre : List (Row IVlan)) (items : List IVlan) :
    List.Sublist (vlanInsertsOf pre items) items := by
  induction items with
  | nil => simp [vlanInsertsOf]
  | cons it rest ih =>
    simp only [vlanInsertsOf]
    cases h : dictFind pre (fun q => q.val.vlan == it.vlan) with
    | some ex => exact ih.cons _
    | none => exact ih.cons₂ _

/-- Loop updates rewrite a stored row only to a payload carrying the row's
own device and vlan numbers, so identifier and natural key survive the
loop. -/
theorem vlanUpdAll_pair (pre : List (Row IVlan)) (items : List IVlan)
    {j d v : Nat}
    (hcond : ∀ item ∈ items, ∀ ex,
      dictFind pre (fun q => q.val.vlan == item.vlan) = some ex →
      ex.idx = j → item.idx_device = d ∧ item.vlan = v) :
    ∀ r : Row IVlan, r.idx = j → r.val.idx_device = d → r.val.vlan = v →
      (vlanUpdAll pre items r).idx = j ∧
      (vlanUpdAll pre items r).val.idx_device = d ∧
      (vlanUpdAll pre items r).val.vlan = v := by
  induction items with
  | nil => exact fun r h1 h2 h3 => ⟨h1, h2, h3⟩
  | cons item rest ih =>
    intro r h1 h2 h3
    simp only [vlanUpdAll, List.foldl_cons]
    have hstep : (vlanStep pre item r).idx = j ∧
        (vlanStep pre item r).val.idx_device = d ∧
        (vlanStep pre item r).val.vlan = v := by
      cases hf : dictFind pre (fun q => q.val.vlan == item.vlan) with
      | none =>
        simp only [vlanStep, hf]
        exact ⟨h1, h2, h3⟩
      | some ex =>
        simp only [vlanStep, hf]
        by_cases hej : r.idx = ex.idx
        · rw [if_pos hej]
          have hexj : ex.idx = j := by rw [← hej, h1]
          obtain ⟨hd, hv⟩ := hcond item (List.mem_cons_self _ _) ex hf hexj
          exact ⟨hexj, hd, hv⟩
        · rw [if_neg hej]
          exact ⟨h1, h2, h3⟩
    exact ih (fun it hit => hcond it (List.mem_cons_of_mem _ hit)) _
      hstep.1 hstep.2.1 hstep.2.2

/-- Per stored row: identifier, device and vlan survive the whole loop. -/
theorem vlan_mapped_pairs (db : DB) (d : Nat) (items : List IVlan)
    (hform : ∀ item ∈ items, item = mkVlan d item.vlan)
    (hnd : (db.vlans.rows.map Row.idx).Nodup) :
    ∀ r ∈ db.vlans.rows,
      (vlanUpdAll (vlansOf db d) items r).idx = r.idx ∧
      (vlanUpdAll (vlansOf db d) items r).val.idx_device =
        r.val.idx_device ∧
      (vlanUpdAll (vlansOf db d) items r).val.vlan = r.val.vlan := by
  intro r hr
  refine vlanUpdAll_pair (vlansOf db d) items ?_ r rfl rfl rfl
  intro item hit ex hfind hexj
  have hexmem : ex ∈ vlansOf db d := dictFind_mem hfind
  have hexrows : ex ∈ db.vlans.rows := List.mem_of_mem_filter hexmem
  have hexr : ex = r := List.inj_on_of_nodup_map hnd hexrows hr hexj
  have hdev : ex.val.idx_device = d := by
    have := List.of_mem_filter hexmem
    simpa using this
  have hvlan : ex.val.vlan = item.vlan := by
    simpa using dictFind_prop hfind
  constructor
  · rw [hform item hit]
    rw [← hexr, hdev]
    rfl
  · rw [← hexr, hvlan]

/-- After an ungated Vlan Synchronizer run over a store with unique row
identifiers and unique (device, vlan) pairs, a referenced vlan has exactly
one row for (device, vlan). -/
theorem vlan_pair_count (meta : Row IDevice) (s : Snapshot) (db : DB)
    (st : Status) (hst : st.l1interface = true)
    (hnd : (db.vlans.rows.map Row.idx).Nodup)
    (hpair : (db.vlans.rows.map
      (fun r => (r.val.idx_device, r.val.vlan))).Nodup)
    (v : Nat) (hv : mkVlan meta.idx v ∈ vlanRows meta.idx (sortedLayer1 s)) :
    ((vlan meta s (db, st)).1.vlans.rows.countP
      (fun r => r.val.idx_device == meta.idx && r.val.vlan == v)) = 1 := by
  have hitems : mkVlan meta.idx v ∈
      uniqueVlansSorted meta.idx (sortedLayer1 s) :=
    mem_pySorted.2 (List.mem_dedup.2 hv)
  have hform : ∀ item ∈ uniqueVlansSorted meta.idx (sortedLayer1 s),
      item = mkVlan meta.idx item.vlan :=
    fun item hit => uniqueVlansSorted_form meta.idx (sortedLayer1 s) hit
  rw [vlan_rows_eq meta s db st hst, List.countP_append]
  have hmapped : (db.vlans.rows.map (vlanUpdAll (vlansOf db meta.idx)
        (uniqueVlansSorted meta.idx (sortedLayer1 s)))).countP
      (fun r => r.val.idx_device == meta.idx && r.val.vlan == v) =
      db.vlans.rows.countP
        (fun r => r.val.idx_device == meta.idx && r.val.vlan == v) := by
    rw [List.countP_map]
    apply List.countP_congr
    intro r hr
    obtain ⟨_, h2, h3⟩ := vlan_mapped_pairs db meta.idx _ hform hnd r hr
    simp [Function.comp, h2, h3]
  rw [hmapped, countP_insertedRows db.vlans.next _ _
    (fun item => item.idx_device == meta.idx && item.vlan == v)
    (fun j x => rfl)]
  cases hlook : dictFind (vlansOf db meta.idx)
      (fun q => q.val.vlan == v) with
  | some ex =>
    have hexmem : ex ∈ vlansOf db meta.idx := dictFind_mem hlook
    have hexrows : ex ∈ db.vlans.rows := List.mem_of_mem_filter hexmem
    have hdev : ex.val.idx_device = meta.idx := by
      have := List.of_mem_filter hexmem
      simpa using this
    have hvlan : ex.val.vlan = v := by
      simpa using dictFind_prop hlook
    have hrows1 : db.vlans.rows.countP
        (fun r => r.val.idx_device == meta.idx && r.val.vlan == v) = 1 := by
      refine countP_eq_one_of_unique hexrows (by simp [hdev, hvlan]) ?_ ?_
      · intro b hb hpb
        simp only [Bool.and_eq_true, beq_iff_eq] at hpb
        have hbp : (fun r : Row IVlan =>
            (r.val.idx_device, r.val.vlan)) b =
            (fun r : Row IVlan => (r.val.idx_device, r.val.vlan)) ex := by
          simp [hpb.1, hpb.2, hdev, hvlan]
        exact List.inj_on_of_nodup_map hpair hb hexrows hbp
      · exact (List.Nodup.of_map _ hpair)
    have hins0 : (vlanInsertsOf (vlansOf db meta.idx)
        (uniqueVlansSorted meta.idx (sortedLayer1 s))).countP
        (fun item => item.idx_device == meta.idx && item.vlan == v) = 0 := by
      rw [List.countP_eq_zero]
      intro item hitem hp
      simp only [Bool.and_eq_true, beq_iff_eq] at hp
      obtain ⟨_, hnone⟩ := (vlanInsertsOf_mem_iff _ _ _).1 hitem
      rw [hp.2] at hnone
      rw [hnone] at hlook
      cases hlook
    rw [hrows1, hins0]
  | none =>
    have hrows0 : db.vlans.rows.countP
        (fun r => r.val.idx_device == meta.idx && r.val.vlan == v) = 0 := by
      rw [List.countP_eq_zero]
      intro r hr hp
      simp only [Bool.and_eq_true, beq_iff_eq] at hp
      have hrpre : r ∈ vlansOf db meta.idx := by
        unfold vlansOf
        exact List.mem_filter.2 ⟨hr, by simp [hp.1]⟩
      have := dictFind_eq_none.1 hlook r hrpre
      simp [hp.2] at this
    have hins1 : (vlanInsertsOf (vlansOf db meta.idx)
        (uniqueVlansSorted meta.idx (sortedLayer1 s))).countP
        (fun item => item.idx_device == meta.idx && item.vlan == v) = 1 := by
      have hmemins : mkVlan meta.idx v ∈ vlanInsertsOf (vlansOf db meta.idx)
          (uniqueVlansSorted meta.idx (sortedLayer1 s)) :=
        (vlanInsertsOf_mem_iff _ _ _).2 ⟨hitems, hlook⟩
      refine countP_eq_one_of_unique hmemins (by simp [mkVlan]) ?_ ?_
      · intro b hb hpb
        simp only [Bool.and_eq_true, beq_iff_eq] at hpb
        obtain ⟨hbitems, _⟩ := (vlanInsertsOf_mem_iff _ _ _).1 hb
        have := hform b hbitems
        rw [this, hpb.2]
      · exact (vlanInsertsOf_sublist _ _).nodup
          (uniqueVlansSorted_nodup meta.idx (sortedLayer1 s))
    rw [hrows0, hins1]

/-! ## Characterization of the Vlan-Port Linker loop (for C6) -/

/-- One inner-loop iteration's effect on one stored vlanport row. -/
def vpStep (preVlans : List (Row IVlan)) (preVP : List (Row IVlanPort))
    (idxL1 : Nat) (item : Nat) (r : Row IVlanPort) : Row IVlanPort :=
  match dictFind preVlans (fun q => q.val.vlan == item) with
  | none => r
  | some vex =>
    match dictFind preVP (fun q =>
        q.val.idx_l1interface == idxL1 && q.val.idx_vlan == vex.idx) with
    | some pex =>
      if r.idx = pex.idx then ⟨pex.idx, ⟨idxL1, vex.idx, 1⟩⟩ else r
    | none => r

/-- Composite inner-loop effect on one stored vlanport row. -/
def vpInnerUpd (preVlans : List (Row IVlan)) (preVP : List (Row IVlanPort))
    (idxL1 : Nat) (vs : List Nat) (r : Row IVlanPort) : Row IVlanPort :=
  vs.foldl (fun r item => vpStep preVlans preVP idxL1 item r) r

/-- The inner loop's insert batch. -/
def vpInnerInserts (preVlans : List (Row IVlan))
    (preVP : List (Row IVlanPort)) (idxL1 : Nat) :
    List Nat → List IVlanPort
  | [] => []
  | item :: rest =>
    match dictFind preVlans (fun q => q.val.vlan == item) with
    | none => vpInnerInserts preVlans preVP idxL1 rest
    | some vex =>
      match dictFind preVP (fun q =>
          q.val.idx_l1interface == idxL1 && q.val.idx_vlan == vex.idx) with
      | some _ => vpInnerInserts preVlans preVP idxL1 rest
      | none => ⟨idxL1, vex.idx, 1⟩ :: vpInnerInserts preVlans preVP idxL1 rest

theorem vlanportInner_spec (preVlans : List (Row IVlan))
    (preVP : List (Row IVlanPort)) (idxL1 : Nat) (vs : List Nat)
    (t : Table IVlanPort) (ins : List IVlanPort) :
    vlanportInner preVlans preVP idxL1 vs t ins =
      (⟨t.rows.map (vpInnerUpd preVlans preVP idxL1 vs), t.next⟩,
        ins ++ vpInnerInserts preVlans preVP idxL1 vs) := by
  induction vs generalizing t ins with
  | nil =>
    cases t
    simp only [vlanportInner, vpInnerInserts, List.append_nil]
    refine Prod.ext (congrArg₂ Table.mk ?_ rfl) rfl
    rw [show vpInnerUpd preVlans preVP idxL1 [] = id from funext fun r => rfl,
      List.map_id]
  | cons item rest ih =>
    cases h1 : dictFind preVlans (fun q => q.val.vlan == item) with
    | none =>
      simp only [vlanportInner, h1]
      rw [ih]
      refine Prod.ext ?_ ?_
      · refine congrArg₂ Table.mk ?_ rfl
        apply List.map_congr_left
        intro r _
        simp only [vpInnerUpd, List.foldl_cons, vpStep, h1]
      · simp [vpInnerInserts, h1]
    | some vex =>
      cases h2 : dictFind preVP (fun q =>
          q.val.idx_l1interface == idxL1 && q.val.idx_vlan == vex.idx) with
      | some pex =>
        simp only [vlanportInner, h1, h2]
        rw [ih]
        refine Prod.ext ?_ ?_
        · refine congrArg₂ Table.mk ?_ ?_
          · simp only [Table.update, List.map_map]
            apply List.map_congr_left
            intro r _
            simp only [Function.comp, vpInnerUpd, List.foldl_cons, vpStep,
              h1, h2]
          · simp [Table.update]
        · simp [vpInnerInserts, h1, h2]
      | none =>
        simp only [vlanportInner, h1, h2]
        rw [ih]
        refine Prod.ext ?_ ?_
        · refine congrArg₂ Table.mk ?_ rfl
          apply List.map_congr_left
          intro r _
          simp only [vpInnerUpd, List.foldl_cons, vpStep, h1, h2]
        · simp [vpInnerInserts, h1, h2]

/-- One outer-loop iteration's effect on one stored vlanport row. -/
def vpOuterStep (preIf : List (Row IL1Interface))
    (preVlans : List (Row IVlan)) (preVP : List (Row IVlanPort))
    (p : Nat × IfData) (r : Row IVlanPort) : Row IVlanPort :=
  match dictFind preIf (fun q => q.val.ifindex == p.1) with
  | none => r
  | some l1ex =>
    if truthyL p.2.l1_vlans then
      match p.2.l1_vlans with
      | some vs =>
        vpInnerUpd preVlans preVP l1ex.idx (pySorted (fun a b => a ≤ b) vs) r
      | none => r
    else r

/-- Composite outer-loop effect on one stored vlanport row. -/
def vpOuterUpd (preIf : List (Row IL1Interface))
    (preVlans : List (Row IVlan)) (preVP : List (Row IVlanPort))
    (L : List (Nat × IfData)) (r : Row IVlanPort) : Row IVlanPort :=
  L.foldl (fun r p => vpOuterStep preIf preVlans preVP p r) r

/-- The outer loop's insert batch. -/
def vpOuterInserts (preIf : List (Row IL1Interface))
    (preVlans : List (Row IVlan)) (preVP : List (Row IVlanPort)) :
    List (Nat × IfData) → List IVlanPort
  | [] => []
  | p :: rest =>
    (match dictFind preIf (fun q => q.val.ifindex == p.1) with
     | none => []
     | some l1ex =>
       if truthyL p.2.l1_vlans then
         match p.2.l1_vlans with
         | some vs =>
           vpInnerInserts preVlans preVP l1ex.idx
             (pySorted (fun a b => a ≤ b) vs)
         | none => []
       else []) ++ vpOuterInserts preIf preVlans preVP rest

theorem vlanportLoop_spec (preIf : List (Row IL1Interface))
    (preVlans : List (Row IVlan)) (preVP : List (Row IVlanPort))
    (L : List (Nat × IfData)) (t : Table IVlanPort) (ins : List IVlanPort) :
    vlanportLoop preIf preVlans preVP L t ins =
      (⟨t.rows.map (vpOuterUpd preIf preVlans preVP L), t.next⟩,
        ins ++ vpOuterInserts preIf preVlans preVP L) := by
  induction L generalizing t ins with
  | nil =>
    cases t
    simp only [vlanportLoop, vpOuterInserts, List.append_nil]
    refine Prod.ext (congrArg₂ Table.mk ?_ rfl) rfl
    rw [show vpOuterUpd preIf preVlans preVP [] = id from
      funext fun r => rfl, List.map_id]
  | cons p rest ih =>
    obtain ⟨ifx, i⟩ := p
    cases h1 : dictFind preIf (fun q => q.val.ifindex == ifx) with
    | none =>
      simp only [vlanportLoop, h1]
      rw [ih]
      refine Prod.ext ?_ ?_
      · refine congrArg₂ Table.mk ?_ rfl
        apply List.map_congr_left
        intro r _
        simp only [vpOuterUpd, List.foldl_cons, vpOuterStep, h1]
      · simp [vpOuterInserts, h1]
    | some l1ex =>
      by_cases h2 : truthyL i.l1_vlans = true
      · cases h3 : i.l1_vlans with
        | none =>
          rw [h3] at h2
          cases h2
        | some vs =>
          have h2v : truthyL (some vs) = true := by
            rw [← h3]
            exact h2
          simp only [vlanportLoop, h1, h3, h2v, if_true]
          rw [vlanportInner_spec]
          rw [ih]
          refine Prod.ext ?_ ?_
          · refine congrArg₂ Table.mk ?_ rfl
            simp only [List.map_map]
            apply List.map_congr_left
            intro r _
            simp only [Function.comp, vpOuterUpd, List.foldl_cons,
              vpOuterStep, h1, h3, h2v, if_true]
          · simp only [vpOuterInserts, h1, h3, h2v, if_true,
              List.append_assoc]
      · have h2f : truthyL i.l1_vlans = false := by
          revert h2
          cases truthyL i.l1_vlans <;> simp
        simp only [vlanportLoop, h1, h2f]
        rw [if_neg (by simp [h2f])]
        rw [ih]
        refine Prod.ext ?_ ?_
        · refine congrArg₂ Table.mk ?_ rfl
          apply List.map_congr_left
          intro r _
          simp only [vpOuterUpd, List.foldl_cons, vpOuterStep, h1, h2f]
          rw [if_neg (by simp [h2f])]
        · simp only [vpOuterInserts, h1]
          rw [if_neg (by simp [h2f])]
          simp

/-- Rows of the Vlan-Port Linker's table after an ungated run. -/
theorem vlanport_rows_eq (meta : Row IDevice) (s : Snapshot) (db : DB)
    (st : Status) (hst : st.vlan = true) :
    (vlanport meta s (db, st)).1.vlanports.rows =
      db.vlanports.rows.map (vpOuterUpd (ifindexesOf db meta.idx)
          (vlansOf db meta.idx) (vlanportsOf db meta.idx) (sortedLayer1 s))
        ++ insertedRows db.vlanports.next
          (vpOuterInserts (ifindexesOf db meta.idx) (vlansOf db meta.idx)
            (vlanportsOf db meta.idx) (sortedLayer1 s)) := by
  have h := vlanportLoop_spec (ifindexesOf db meta.idx) (vlansOf db meta.idx)
    (vlanportsOf db meta.idx) (sortedLayer1 s) db.vlanports []
  simp only [vlanport, h, List.nil_append]
  rw [if_neg (by simp [hst])]
  by_cases he : (vpOuterInserts (ifindexesOf db meta.idx)
      (vlansOf db meta.idx) (vlanportsOf db meta.idx)
      (sortedLayer1 s)).isEmpty = true
  · rw [if_pos he]
    rw [List.isEmpty_iff] at he
    simp [he, insertedRows]
  · rw [if_neg he]
    simp only [Table.insertMany_rows]

/-- Inner-loop updates rewrite a stored row only to a payload carrying the
row's own (interface, vlan) reference pair. -/
theorem vpInnerUpd_pair (preVlans : List (Row IVlan))
    (preVP : List (Row IVlanPort)) (idxL1 : Nat) (vs : List Nat)
    {j a b : Nat}
    (hcond : ∀ item ∈ vs, ∀ vex pex,
      dictFind preVlans (fun q => q.val.vlan == item) = some vex →
      dictFind preVP (fun q =>
        q.val.idx_l1interface == idxL1 && q.val.idx_vlan == vex.idx) =
          some pex →
      pex.idx = j → idxL1 = a ∧ vex.idx = b) :
    ∀ r : Row IVlanPort, r.idx = j → r.val.idx_l1interface = a →
      r.val.idx_vlan = b →
      (vpInnerUpd preVlans preVP idxL1 vs r).idx = j ∧
      (vpInnerUpd preVlans preVP idxL1 vs r).val.idx_l1interface = a ∧
      (vpInnerUpd preVlans preVP idxL1 vs r).val.idx_vlan = b := by
  induction vs with
  | nil => exact fun r h1 h2 h3 => ⟨h1, h2, h3⟩
  | cons item rest ih =>
    intro r h1 h2 h3
    simp only [vpInnerUpd, List.foldl_cons]
    have hstep : (vpStep preVlans preVP idxL1 item r).idx = j ∧
        (vpStep preVlans preVP idxL1 item r).val.idx_l1interface = a ∧
        (vpStep preVlans preVP idxL1 item r).val.idx_vlan = b := by
      cases hf1 : dictFind preVlans (fun q => q.val.vlan == item) with
      | none =>
        simp only [vpStep, hf1]
        exact ⟨h1, h2, h3⟩
      | some vex =>
        cases hf2 : dictFind preVP (fun q =>
            q.val.idx_l1interface == idxL1 && q.val.idx_vlan == vex.idx) with
        | none =>
          simp only [vpStep, hf1, hf2]
          exact ⟨h1, h2, h3⟩
        | some pex =>
          simp only [vpStep, hf1, hf2]
          by_cases hej : r.idx = pex.idx
          · rw [if_pos hej]
            have hpj : pex.idx = j := by rw [← hej, h1]
            obtain ⟨ha, hb⟩ := hcond item (List.mem_cons_self _ _) vex pex
              hf1 hf2 hpj
            exact ⟨hpj, ha, hb⟩
          · rw [if_neg hej]
            exact ⟨h1, h2, h3⟩
    exact ih (fun it hit => hcond it (List.mem_cons_of_mem _ hit)) _
      hstep.1 hstep.2.1 hstep.2.2

/-- Outer-loop composite preserves identifier and reference pair under a
global rewrite condition. -/
theorem vpOuterUpd_pair (preIf : List (Row IL1Interface))
    (preVlans : List (Row IVlan)) (preVP : List (Row IVlanPort))
    (L : List (Nat × IfData)) {j a b : Nat}
    (hcond : ∀ (idxL1 : Nat), ∀ item, ∀ (vex : Row IVlan)
      (pex : Row IVlanPort),
      dictFind preVlans (fun q => q.val.vlan == item) = some vex →
      dictFind preVP (fun q =>
        q.val.idx_l1interface == idxL1 && q.val.idx_vlan == vex.idx) =
          some pex →
      pex.idx = j → idxL1 = a ∧ vex.idx = b) :
    ∀ r : Row IVlanPort, r.idx = j → r.val.idx_l1interface = a →
      r.val.idx_vlan = b →
      (vpOuterUpd preIf preVlans preVP L r).idx = j ∧
      (vpOuterUpd preIf preVlans preVP L r).val.idx_l1interface = a ∧
      (vpOuterUpd preIf preVlans preVP L r).val.idx_vlan = b := by
  induction L with
  | nil => exact fun r h1 h2 h3 => ⟨h1, h2, h3⟩
  | cons p rest ih =>
    intro r h1 h2 h3
    simp only [vpOuterUpd, List.foldl_cons]
    have hstep : (vpOuterStep preIf preVlans preVP p r).idx = j ∧
        (vpOuterStep preIf preVlans preVP p r).val.idx_l1interface = a ∧
        (vpOuterStep preIf preVlans preVP p r).val.idx_vlan = b := by
      cases hf : dictFind preIf (fun q => q.val.ifindex == p.1) with
      | none =>
        simp only [vpOuterStep, hf]
        exact ⟨h1, h2, h3⟩
      | some l1ex =>
        simp only [vpOuterStep, hf]
        by_cases ht : truthyL p.2.l1_vlans = true
        · cases hvl : p.2.l1_vlans with
          | none =>
            rw [hvl] at ht
            cases ht
          | some vs =>
            have htv : truthyL (some vs) = true := by
              rw [← hvl]
              exact ht
            rw [if_pos htv]
            exact vpInnerUpd_pair preVlans preVP l1ex.idx
              (pySorted (fun x y => x ≤ y) vs)
              (fun item _ vex pex hf1 hf2 hpj =>
                hcond l1ex.idx item vex pex hf1 hf2 hpj) r h1 h2 h3
        · have htf : truthyL p.2.l1_vlans = false := by
            revert ht
            cases truthyL p.2.l1_vlans <;> simp
          rw [if_neg (by simp [htf])]
          exact ⟨h1, h2, h3⟩
    exact ih _ hstep.1 hstep.2.1 hstep.2.2

/-- Per stored vlanport row: identifier and reference pair survive the
whole Vlan-Port loop. -/
theorem vlanport_mapped_pairs (db : DB) (d : Nat)
    (L : List (Nat × IfData))
    (hndVP : (db.vlanports.rows.map Row.idx).Nodup) :
    ∀ r ∈ db.vlanports.rows,
      (vpOuterUpd (ifindexesOf db d) (vlansOf db d) (vlanportsOf db d) L
        r).idx = r.idx ∧
      (vpOuterUpd (ifindexesOf db d) (vlansOf db d) (vlanportsOf db d) L
        r).val.idx_l1interface = r.val.idx_l1interface ∧
      (vpOuterUpd (ifindexesOf db d) (vlansOf db d) (vlanportsOf db d) L
        r).val.idx_vlan = r.val.idx_vlan := by
  intro r hr
  refine vpOuterUpd_pair (ifindexesOf db d) (vlansOf db d)
    (vlanportsOf db d) L ?_ r rfl rfl rfl
  intro idxL1 item vex pex hf1 hf2 hpj
  have hpmem : pex ∈ vlanportsOf db d := dictFind_mem hf2
  have hprows : pex ∈ db.vlanports.rows := List.mem_of_mem_filter hpmem
  have hpr : pex = r := List.inj_on_of_nodup_map hndVP hprows hr hpj
  have hprop := dictFind_prop hf2
  simp only [Bool.and_eq_true, beq_iff_eq] at hprop
  rw [hpr] at hprop
  exact ⟨hprop.1.symm, hprop.2.symm⟩

/-- The insert contribution of one interface iteration. -/
def vpSeg (preIf : List (Row IL1Interface)) (preVlans : List (Row IVlan))
    (preVP : List (Row IVlanPort)) (p : Nat × IfData) : List IVlanPort :=
  match dictFind preIf (fun q => q.val.ifindex == p.1) with
  | none => []
  | some l1ex =>
    if truthyL p.2.l1_vlans then
      match p.2.l1_vlans with
      | some vs =>
        vpInnerInserts preVlans preVP l1ex.idx
          (pySorted (fun a b => a ≤ b) vs)
      | none => []
    else []

theorem vpOuterInserts_cons (preIf : List (Row IL1Interface))
    (preVlans : List (Row IVlan)) (preVP : List (Row IVlanPort))
    (p : Nat × IfData) (rest : List (Nat × IfData)) :
    vpOuterInserts preIf preVlans preVP (p :: rest) =
      vpSeg preIf preVlans preVP p ++
        vpOuterInserts preIf preVlans preVP rest := rfl

/-- Form of an inner insert: the found vlan row's reference under this
interface, its pair absent from the prefetched vlanport dict. -/
theorem vpInnerInserts_mem (preVlans : List (Row IVlan))
    (preVP : List (Row IVlanPort)) (idxL1 : Nat) (vs : List Nat)
    {x : IVlanPort} (h : x ∈ vpInnerInserts preVlans preVP idxL1 vs) :
    ∃ item vex, item ∈ vs ∧
      dictFind preVlans (fun q => q.val.vlan == item) = some vex ∧
      dictFind preVP (fun q =>
        q.val.idx_l1interface == idxL1 && q.val.idx_vlan == vex.idx) =
          none ∧
      x = ⟨idxL1, vex.idx, 1⟩ := by
  induction vs with
  | nil => cases h
  | cons item rest ih =>
    cases hf1 : dictFind preVlans (fun q => q.val.vlan == item) with
    | none =>
      simp only [vpInnerInserts, hf1] at h
      obtain ⟨it, vex, h1, h2, h3, h4⟩ := ih h
      exact ⟨it, vex, List.mem_cons_of_mem _ h1, h2, h3, h4⟩
    | some vex =>
      cases hf2 : dictFind preVP (fun q =>
          q.val.idx_l1interface == idxL1 && q.val.idx_vlan == vex.idx) with
      | some pex =>
        simp only [vpInnerInserts, hf1, hf2] at h
        obtain ⟨it, vex2, h1, h2, h3, h4⟩ := ih h
        exact ⟨it, vex2, List.mem_cons_of_mem _ h1, h2, h3, h4⟩
      | none =>
        simp only [vpInnerInserts, hf1, hf2] at h
        rcases List.mem_cons.1 h with rfl | h5
        · exact ⟨item, vex, List.mem_cons_self _ _, hf1, hf2, rfl⟩
        · obtain ⟨it, vex2, h1, h2, h3, h4⟩ := ih h5
          exact ⟨it, vex2, List.mem_cons_of_mem _ h1, h2, h3, h4⟩

/-- No inner insert carries a pair that the prefetched vlanport dict already
resolves. -/
theorem vpInnerInserts_count_zero_found (preVlans : List (Row IVlan))
    (preVP : List (Row IVlanPort)) (idxL1 : Nat) (vs : List Nat)
    {L1 V : Nat} {pex : Row IVlanPort}
    (hfound : dictFind preVP (fun q =>
      q.val.idx_l1interface == L1 && q.val.idx_vlan == V) = some pex) :
    (vpInnerInserts preVlans preVP idxL1 vs).countP
      (fun x => x.idx_l1interface == L1 && x.idx_vlan == V) = 0 := by
  rw [List.countP_eq_zero]
  intro x hx hp
  obtain ⟨item, vex, _, _, hnone, hform⟩ :=
    vpInnerInserts_mem preVlans preVP idxL1 vs hx
  rw [hform] at hp
  simp only [Bool.and_eq_true, beq_iff_eq] at hp
  rw [hp.1, hp.2] at hnone
  rw [hnone] at hfound
  cases hfound

/-- Inserts of an interface other than the target one never carry the
target pair. -/
theorem vpInnerInserts_count_zero_ifx (preVlans : List (Row IVlan))
    (preVP : List (Row IVlanPort)) (j : Nat) (vs : List Nat)
    {L1 V : Nat} (hne : j ≠ L1) :
    (vpInnerInserts preVlans preVP j vs).countP
      (fun x => x.idx_l1interface == L1 && x.idx_vlan == V) = 0 := by
  rw [List.countP_eq_zero]
  intro x hx hp
  obtain ⟨item, vex, _, _, _, hform⟩ :=
    vpInnerInserts_mem preVlans preVP j vs hx
  rw [hform] at hp
  simp only [Bool.and_eq_true, beq_iff_eq] at hp
  exact hne hp.1

/-- With the target vlan absent from the iterated list, no inner insert
carries the target pair. -/
theorem vpInnerInserts_count_zero_notmem (preVlans : List (Row IVlan))
    (preVP : List (Row IVlanPort)) {L1 : Nat} {v : Nat} {vex : Row IVlan}
    (hndV : (preVlans.map Row.idx).Nodup)
    (hfindV : dictFind preVlans (fun q => q.val.vlan == v) = some vex)
    (vs : List Nat) (hv : v ∉ vs) :
    (vpInnerInserts preVlans preVP L1 vs).countP
      (fun x => x.idx_l1interface == L1 && x.idx_vlan == vex.idx) = 0 := by
  rw [List.countP_eq_zero]
  intro x hx hp
  obtain ⟨item, vex2, hitem, hf1, _, hform⟩ :=
    vpInnerInserts_mem preVlans preVP L1 vs hx
  rw [hform] at hp
  simp only [Bool.and_eq_true, beq_iff_eq] at hp
  have hvex : vex2 = vex := by
    have hm1 : vex2 ∈ preVlans := dictFind_mem hf1
    have hm2 : vex ∈ preVlans := dictFind_mem hfindV
    exact List.inj_on_of_nodup_map hndV hm1 hm2 hp.2
  have hv1 : vex.val.vlan = item := by
    rw [← hvex]
    simpa using dictFind_prop hf1
  have hv2 : vex.val.vlan = v := by
    simpa using dictFind_prop hfindV
  have hiv : item = v := by rw [← hv1, hv2]
  exact hv (hiv ▸ hitem)

/-- With the target vlan present exactly once and the pair unresolved, the
inner loop inserts the target pair exactly once. -/
theorem vpInnerInserts_count_one (preVlans : List (Row IVlan))
    (preVP : List (Row IVlanPort)) {L1 : Nat} {v : Nat} {vex : Row IVlan}
    (hndV : (preVlans.map Row.idx).Nodup)
    (hfindV : dictFind preVlans (fun q => q.val.vlan == v) = some vex)
    (hnone : dictFind preVP (fun q =>
      q.val.idx_l1interface == L1 && q.val.idx_vlan == vex.idx) = none)
    (vs : List Nat) (hnd : vs.Nodup) (hv : v ∈ vs) :
    (vpInnerInserts preVlans preVP L1 vs).countP
      (fun x => x.idx_l1interface == L1 && x.idx_vlan == vex.idx) = 1 := by
  induction vs with
  | nil => cases hv
  | cons item rest ih =>
    rcases List.nodup_cons.1 hnd with ⟨hnm, hndr⟩
    rcases List.mem_cons.1 hv with rfl | hv2
    · simp only [vpInnerInserts, hfindV, hnone]
      rw [List.countP_cons]
      have h0 := @vpInnerInserts_count_zero_notmem preVlans preVP
        L1 v vex hndV hfindV rest hnm
      simp [h0]
    · have hne : item ≠ v := fun h => hnm (h ▸ hv2)
      cases hf1 : dictFind preVlans (fun q => q.val.vlan == item) with
      | none =>
        simp only [vpInnerInserts, hf1]
        exact ih hndr hv2
      | some vex2 =>
        cases hf2 : dictFind preVP (fun q =>
            q.val.idx_l1interface == L1 && q.val.idx_vlan == vex2.idx) with
        | some pex =>
          simp only [vpInnerInserts, hf1, hf2]
          exact ih hndr hv2
        | none =>
          simp only [vpInnerInserts, hf1, hf2]
          rw [List.countP_cons]
          have hne2 : (vex2.idx == vex.idx) = false := by
            by_contra hcon
            have hbe : (vex2.idx == vex.idx) = true := by
              revert hcon
              cases vex2.idx == vex.idx <;> simp
            have heq : vex2.idx = vex.idx := by simpa using hbe
            have hvex : vex2 = vex :=
              List.inj_on_of_nodup_map hndV (dictFind_mem hf1)
                (dictFind_mem hfindV) heq
            have h1 : vex.val.vlan = item := by
              rw [← hvex]
              simpa using dictFind_prop hf1
            have h2 : vex.val.vlan = v := by
              simpa using dictFind_prop hfindV
            exact hne (h1 ▸ h2)
          simp [hne2, ih hndr hv2]

/-- An interface segment contributes no target-pair insert when the pair is
already resolved by the prefetched dict. -/
theorem vpSeg_count_zero_found (preIf : List (Row IL1Interface))
    (preVlans : List (Row IVlan)) (preVP : List (Row IVlanPort))
    (p : Nat × IfData) {L1 V : Nat} {pex : Row IVlanPort}
    (hfound : dictFind preVP (fun q =>
      q.val.idx_l1interface == L1 && q.val.idx_vlan == V) = some pex) :
    (vpSeg preIf preVlans preVP p).countP
      (fun x => x.idx_l1interface == L1 && x.idx_vlan == V) = 0 := by
  cases hf : dictFind preIf (fun q => q.val.ifindex == p.1) with
  | none => simp [vpSeg, hf]
  | some l1ex =>
    cases hvl : p.2.l1_vlans with
    | none => simp [vpSeg, hf, hvl, truthyL]
    | some vs =>
      by_cases ht : truthyL (some vs) = true
      · simp only [vpSeg, hf, hvl, ht, if_true]
        exact vpInnerInserts_count_zero_found preVlans preVP l1ex.idx _
          hfound
      · have htf : truthyL (some vs) = false := by
          revert ht
          cases truthyL (some vs) <;> simp
        simp [vpSeg, hf, hvl, htf]

theorem vpOuterInserts_count_zero_found (preIf : List (Row IL1Interface))
    (preVlans : List (Row IVlan)) (preVP : List (Row IVlanPort))
    (L : List (Nat × IfData)) {L1 V : Nat} {pex : Row IVlanPort}
    (hfound : dictFind preVP (fun q =>
      q.val.idx_l1interface == L1 && q.val.idx_vlan == V) = some pex) :
    (vpOuterInserts preIf preVlans preVP L).countP
      (fun x => x.idx_l1interface == L1 && x.idx_vlan == V) = 0 := by
  induction L with
  | nil => simp [vpOuterInserts]
  | cons p rest ih =>
    rw [vpOuterInserts_cons, List.countP_append,
      vpSeg_count_zero_found preIf preVlans preVP p hfound, ih]

/-- An interface other than the target one contributes no target-pair
insert. -/
theorem vpSeg_count_zero_ne (preIf : List (Row IL1Interface))
    (preVlans : List (Row IVlan)) (preVP : List (Row IVlanPort))
    {ifx V : Nat} {l1ex : Row IL1Interface}
    (hndIf : (preIf.map Row.idx).Nodup)
    (hfindIf : dictFind preIf (fun q => q.val.ifindex == ifx) = some l1ex)
    (p : Nat × IfData) (hne : p.1 ≠ ifx) :
    (vpSeg preIf preVlans preVP p).countP
      (fun x => x.idx_l1interface == l1ex.idx && x.idx_vlan == V) = 0 := by
  cases hf : dictFind preIf (fun q => q.val.ifindex == p.1) with
  | none => simp [vpSeg, hf]
  | some l1ex2 =>
    have hneidx : l1ex2.idx ≠ l1ex.idx := by
      intro hEq
      have h12 : l1ex2 = l1ex := List.inj_on_of_nodup_map hndIf
        (dictFind_mem hf) (dictFind_mem hfindIf) hEq
      have hp1 : l1ex2.val.ifindex = p.1 := by
        simpa using dictFind_prop hf
      have hp2 : l1ex.val.ifindex = ifx := by
        simpa using dictFind_prop hfindIf
      rw [h12, hp2] at hp1
      exact hne hp1.symm
    cases hvl : p.2.l1_vlans with
    | none => simp [vpSeg, hf, hvl, truthyL]
    | some vs =>
      by_cases ht : truthyL (some vs) = true
      · simp only [vpSeg, hf, hvl, ht, if_true]
        exact vpInnerInserts_count_zero_ifx preVlans preVP l1ex2.idx _
          hneidx
      · have htf : truthyL (some vs) = false := by
          revert ht
          cases truthyL (some vs) <;> simp
        simp [vpSeg, hf, hvl, htf]

theorem vpOuterInserts_count_zero_keys (preIf : List (Row IL1Interface))
    (preVlans : List (Row IVlan)) (preVP : List (Row IVlanPort))
    {ifx V : Nat} {l1ex : Row IL1Interface}
    (hndIf : (preIf.map Row.idx).Nodup)
    (hfindIf : dictFind preIf (fun q => q.val.ifindex == ifx) = some l1ex)
    (L : List (Nat × IfData)) (hall : ∀ q ∈ L, q.1 ≠ ifx) :
    (vpOuterInserts preIf preVlans preVP L).countP
      (fun x => x.idx_l1interface == l1ex.idx && x.idx_vlan == V) = 0 := by
  induction L with
  | nil => simp [vpOuterInserts]
  | cons p rest ih =>
    rw [vpOuterInserts_cons, List.countP_append,
      vpSeg_count_zero_ne preIf preVlans preVP hndIf hfindIf p
        (hall p (List.mem_cons_self _ _)),
      ih (fun q hq => hall q (List.mem_cons_of_mem _ hq))]

/-- With the target association unresolved in the prefetched dict, the outer
loop inserts exactly one row for it. -/
theorem vpOuterInserts_count_one (preIf : List (Row IL1Interface))
    (preVlans : List (Row IVlan)) (preVP : List (Row IVlanPort))
    {ifx v : Nat} {i : IfData} {l1ex : Row IL1Interface} {vex : Row IVlan}
    {vs0 : List Nat}
    (hndIf : (preIf.map Row.idx).Nodup)
    (hndV : (preVlans.map Row.idx).Nodup)
    (hfindIf : dictFind preIf (fun q => q.val.ifindex == ifx) = some l1ex)
    (hfindV : dictFind preVlans (fun q => q.val.vlan == v) = some vex)
    (hnone : dictFind preVP (fun q =>
      q.val.idx_l1interface == l1ex.idx && q.val.idx_vlan == vex.idx) =
        none)
    (hvs : i.l1_vlans = some vs0) (hnd0 : vs0.Nodup) (hv : v ∈ vs0)
    {L : List (Nat × IfData)} (hmem : (ifx, i) ∈ L)
    (hkeys : (L.map Prod.fst).Nodup) :
    (vpOuterInserts preIf preVlans preVP L).countP
      (fun x => x.idx_l1interface == l1ex.idx && x.idx_vlan == vex.idx) =
      1 := by
  induction L with
  | nil => cases hmem
  | cons p rest ih =>
    simp only [List.map_cons, List.nodup_cons] at hkeys
    rw [vpOuterInserts_cons, List.countP_append]
    rcases List.mem_cons.1 hmem with heq | hm2
    · cases heq
      have ht : truthyL (some vs0) = true := by
        cases vs0 with
        | nil => cases hv
        | cons a t => simp [truthyL]
      have hseg : (vpSeg preIf preVlans preVP (ifx, i)).countP
          (fun x => x.idx_l1interface == l1ex.idx &&
            x.idx_vlan == vex.idx) = 1 := by
        simp only [vpSeg, hfindIf, hvs, ht, if_true]
        exact vpInnerInserts_count_one preVlans preVP hndV hfindV hnone _
          (((pySorted_perm _ _).nodup_iff).2 hnd0) (mem_pySorted.2 hv)
      rw [hseg, vpOuterInserts_count_zero_keys preIf preVlans preVP hndIf
        hfindIf rest ?_]
      intro q hq hEq
      apply hkeys.1
      rw [← hEq]
      have hmm := List.mem_map_of_mem Prod.fst hq
      exact hmm
    · have hne : p.1 ≠ ifx := by
        intro hEq
        apply hkeys.1
        rw [hEq]
        exact List.mem_map_of_mem Prod.fst hm2
      rw [vpSeg_count_zero_ne preIf preVlans preVP hndIf hfindIf p hne,
        ih hm2 hkeys.2]

/-- After an ungated Vlan-Port Linker run, a listed (interface, vlan)
association whose sides resolve has exactly one VlanPort row. -/
theorem vlanport_pair_count (meta : Row IDevice) (s : Snapshot) (db : DB)
    (st : Status) (hst : st.vlan = true)
    (hndVP : (db.vlanports.rows.map Row.idx).Nodup)
    (hpairVP : (db.vlanports.rows.map
      (fun r => (r.val.idx_l1interface, r.val.idx_vlan))).Nodup)
    (hndIfdb : (db.l1interfaces.rows.map Row.idx).Nodup)
    (hndVdb : (db.vlans.rows.map Row.idx).Nodup)
    (hkeys : (s.layer1.map Prod.fst).Nodup)
    {ifx : Nat} {i : IfData} (hmem : (ifx, i) ∈ s.layer1)
    {vs0 : List Nat} (hvs : i.l1_vlans = some vs0) (hnd0 : vs0.Nodup)
    {v : Nat} (hv : v ∈ vs0)
    {l1ex : Row IL1Interface}
    (hfindIf : dictFind (ifindexesOf db meta.idx)
      (fun q => q.val.ifindex == ifx) = some l1ex)
    {vex : Row IVlan}
    (hfindV : dictFind (vlansOf db meta.idx)
      (fun q => q.val.vlan == v) = some vex) :
    ((vlanport meta s (db, st)).1.vlanports.rows.countP
      (fun r => r.val.idx_l1interface == l1ex.idx &&
        r.val.idx_vlan == vex.idx)) = 1 := by
  have hndIf : ((ifindexesOf db meta.idx).map Row.idx).Nodup :=
    List.Nodup.sublist ((List.filter_sublist _).map Row.idx) hndIfdb
  have hndV : ((vlansOf db meta.idx).map Row.idx).Nodup :=
    List.Nodup.sublist ((List.filter_sublist _).map Row.idx) hndVdb
  have hmem2 : (ifx, i) ∈ sortedLayer1 s := mem_pySorted.2 hmem
  have hkeys2 : ((sortedLayer1 s).map Prod.fst).Nodup :=
    (((pySorted_perm _ _).map Prod.fst).nodup_iff).2 hkeys
  rw [vlanport_rows_eq meta s db st hst, List.countP_append]
  have hmapped : (db.vlanports.rows.map (vpOuterUpd (ifindexesOf db meta.idx)
        (vlansOf db meta.idx) (vlanportsOf db meta.idx)
        (sortedLayer1 s))).countP
      (fun r => r.val.idx_l1interface == l1ex.idx &&
        r.val.idx_vlan == vex.idx) =
      db.vlanports.rows.countP
        (fun r => r.val.idx_l1interface == l1ex.idx &&
          r.val.idx_vlan == vex.idx) := by
    rw [List.countP_map]
    apply List.countP_congr
    intro r hr
    obtain ⟨_, h2, h3⟩ := vlanport_mapped_pairs db meta.idx
      (sortedLayer1 s) hndVP r hr
    simp [Function.comp, h2, h3]
  rw [hmapped, countP_insertedRows _ _ _
    (fun x => x.idx_l1interface == l1ex.idx && x.idx_vlan == vex.idx)
    (fun j x => rfl)]
  cases hlook : dictFind (vlanportsOf db meta.idx) (fun q =>
      q.val.idx_l1interface == l1ex.idx && q.val.idx_vlan == vex.idx) with
  | some pex =>
    have hpmem : pex ∈ vlanportsOf db meta.idx := dictFind_mem hlook
    have hprows : pex ∈ db.vlanports.rows := List.mem_of_mem_filter hpmem
    have hprop := dictFind_prop hlook
    simp only [Bool.and_eq_true, beq_iff_eq] at hprop
    have hrows1 : db.vlanports.rows.countP
        (fun r => r.val.idx_l1interface == l1ex.idx &&
          r.val.idx_vlan == vex.idx) = 1 := by
      refine countP_eq_one_of_unique hprows (by simp [hprop.1, hprop.2])
        ?_ (List.Nodup.of_map _ hpairVP)
      intro b hb hpb
      simp only [Bool.and_eq_true, beq_iff_eq] at hpb
      have hbp : (fun r : Row IVlanPort =>
          (r.val.idx_l1interface, r.val.idx_vlan)) b =
          (fun r : Row IVlanPort =>
            (r.val.idx_l1interface, r.val.idx_vlan)) pex := by
        simp [hpb.1, hpb.2, hprop.1, hprop.2]
      exact List.inj_on_of_nodup_map hpairVP hb hprows hbp
    rw [hrows1, vpOuterInserts_count_zero_found _ _ _ _ hlook]
  | none =>
    have hrows0 : db.vlanports.rows.countP
        (fun r => r.val.idx_l1interface == l1ex.idx &&
          r.val.idx_vlan == vex.idx) = 0 := by
      rw [List.countP_eq_zero]
      intro r hr hp
      simp only [Bool.and_eq_true, beq_iff_eq] at hp
      have hrpre : r ∈ vlanportsOf db meta.idx := by
        unfold vlanportsOf
        refine List.mem_filter.2 ⟨hr, ?_⟩
        rw [List.any_eq_true]
        exact ⟨l1ex, dictFind_mem hfindIf, by simp [hp.1]⟩
      have := dictFind_eq_none.1 hlook r hrpre
      simp [hp.1, hp.2] at this
    rw [hrows0, vpOuterInserts_count_one (ifindexesOf db meta.idx)
      (vlansOf db meta.idx) (vlanportsOf db meta.idx) hndIf hndV hfindIf
      hfindV hlook hvs hnd0 hv hmem2 hkeys2]

/-- **C6.** The Vlan Synchronizer deduplicates before any existence lookup
(the iterated candidates are duplicate-free) and processes them in order
sorted by vlan number then device id (first two conjuncts); for every vlan
referenced by any interface it leaves exactly one Vlan row for
(device, vlan) (third conjunct); the Vlan-Port Linker then leaves exactly
one VlanPort row per listed (interface, vlan) association whose two sides
resolve (fourth conjunct) — e.g. three interfaces listing VLAN 100 yield
one Vlan row and three VlanPort rows. -/
theorem C6_vlan_dedup_and_linking (meta : Row IDevice) (s : Snapshot)
    (db : DB) (st : Status) :
    (uniqueVlansSorted meta.idx (sortedLayer1 s)).Nodup ∧
    (uniqueVlansSorted meta.idx (sortedLayer1 s)).Pairwise
      (fun a b => vlanLe a b = true) ∧
    (st.l1interface = true →
      (db.vlans.rows.map Row.idx).Nodup →
      (db.vlans.rows.map (fun r => (r.val.idx_device, r.val.vlan))).Nodup →
      ∀ v, mkVlan meta.idx v ∈ vlanRows meta.idx (sortedLayer1 s) →
      ((vlan meta s (db, st)).1.vlans.rows.countP
        (fun r => r.val.idx_device == meta.idx && r.val.vlan == v)) = 1) ∧
    (st.vlan = true →
      (db.vlanports.rows.map Row.idx).Nodup →
      (db.vlanports.rows.map
        (fun r => (r.val.idx_l1interface, r.val.idx_vlan))).Nodup →
      (db.l1interfaces.rows.map Row.idx).Nodup →
      (db.vlans.rows.map Row.idx).Nodup →
      (s.layer1.map Prod.fst).Nodup →
      ∀ ifx i vs0 v l1ex vex, (ifx, i) ∈ s.layer1 →
        i.l1_vlans = some vs0 → vs0.Nodup → v ∈ vs0 →
        dictFind (ifindexesOf db meta.idx)
          (fun q => q.val.ifindex == ifx) = some l1ex →
        dictFind (vlansOf db meta.idx)
          (fun q => q.val.vlan == v) = some vex →
        ((vlanport meta s (db, st)).1.vlanports.rows.countP
          (fun r => r.val.idx_l1interface == l1ex.idx &&
            r.val.idx_vlan == vex.idx)) = 1) :=
  ⟨uniqueVlansSorted_nodup _ _,
   pySorted_pairwise vlanLe vlanLe_total vlanLe_trans _,
   fun hst h1 h2 v hv => vlan_pair_count meta s db st hst h1 h2 v hv,
   fun hst h1 h2 h3 h4 h5 ifx i vs0 v l1ex vex hm hvs hnd hv hf1 hf2 =>
     vlanport_pair_count meta s db st hst h1 h2 h3 h4 h5 hm hvs hnd hv
       hf1 hf2⟩

/-- One shared interface record for the C6 witness: vlan list `[100]`. -/
def if6 : IfData := ifdW (some 1) (some 1) (some [100]) none

/-- Store for the C6 witness vlan stage: three interface rows, no vlans. -/
def dbW6 : DB :=
  { devices := ⟨[metaW], 2⟩,
    l1interfaces := ⟨[⟨1, mkL1 1 1 if6 0 1⟩, ⟨2, mkL1 1 2 if6 0 1⟩,
      ⟨3, mkL1 1 3 if6 0 1⟩], 4⟩,
    vlans := Table.empty _, vlanports := Table.empty _,
    macs := Table.empty _, macports := Table.empty _,
    macips := Table.empty _, ouis := [] }

/-- Snapshot for the C6 witness: three interfaces each listing VLAN 100. -/
def sW6 : Snapshot :=
  { host := some "h", sysName := some "s", sysDescr := some "d",
    sysObjectID := some "o", sysUpTime := some 9, timestamp := some 100,
    layer1 := [(1, if6), (2, if6), (3, if6)],
    ipv4 := none, ipv6 := none }

/-- Status at the Vlan stage. -/
def stW6 : Status := ⟨true, false, false, false, false, false⟩

/-- Store at the Vlan-Port stage: the vlan row for (1, 100) present. -/
def dbW6b : DB := { dbW6 with vlans := ⟨[⟨1, mkVlan 1 100⟩], 2⟩ }

/-- Status at the Vlan-Port stage. -/
def stW6b : Status := ⟨true, true, false, false, false, false⟩

/-- Witness for C6: the three-interfaces-one-vlan example — one Vlan row for
(device, 100) and one VlanPort row for each of the three interfaces. -/
theorem C6_vlan_dedup_and_linking_witness :
    (stW6.l1interface = true ∧
     mkVlan metaW.idx 100 ∈ vlanRows metaW.idx (sortedLayer1 sW6) ∧
     stW6b.vlan = true ∧
     (1, if6) ∈ sW6.layer1 ∧ if6.l1_vlans = some [100] ∧
     dictFind (ifindexesOf dbW6b metaW.idx)
       (fun q => q.val.ifindex == 1) = some ⟨1, mkL1 1 1 if6 0 1⟩ ∧
     dictFind (vlansOf dbW6b metaW.idx)
       (fun q => q.val.vlan == 100) = some ⟨1, mkVlan 1 100⟩) ∧
    ((vlan metaW sW6 (dbW6, stW6)).1.vlans.rows.countP
      (fun r => r.val.idx_device == metaW.idx && r.val.vlan == 100) = 1) ∧
    (vlan metaW sW6 (dbW6, stW6)).1.vlans.rows.length = 1 ∧
    ((vlanport metaW sW6 (dbW6b, stW6b)).1.vlanports.rows.countP
      (fun r => r.val.idx_l1interface == (1 : Nat) &&
        r.val.idx_vlan == (1 : Nat)) = 1) ∧
    ((vlanport metaW sW6 (dbW6b, stW6b)).1.vlanports.rows.countP
      (fun r => r.val.idx_l1interface == (2 : Nat) &&
        r.val.idx_vlan == (1 : Nat)) = 1) ∧
    ((vlanport metaW sW6 (dbW6b, stW6b)).1.vlanports.rows.countP
      (fun r => r.val.idx_l1interface == (3 : Nat) &&
        r.val.idx_vlan == (1 : Nat)) = 1) ∧
    (vlanport metaW sW6 (dbW6b, stW6b)).1.vlanports.rows.length = 3 :=
  ⟨⟨rfl, by decide, rfl, by decide, rfl, by decide, by decide⟩,
   (C6_vlan_dedup_and_linking metaW sW6 dbW6 stW6).2.2.1 rfl (by decide)
     (by decide) 100 (by decide),
   by decide,
   (C6_vlan_dedup_and_linking metaW sW6 dbW6b stW6b).2.2.2 rfl (by decide)
     (by decide) (by decide) (by decide) (by decide) 1 if6 [100] 100
     ⟨1, mkL1 1 1 if6 0 1⟩ ⟨1, mkVlan 1 100⟩ (by decide) rfl (by decide)
     (by decide) (by decide) (by decide),
   (C6_vlan_dedup_and_linking metaW sW6 dbW6b stW6b).2.2.2 rfl (by decide)
     (by decide) (by decide) (by decide) (by decide) 2 if6 [100] 100
     ⟨2, mkL1 1 2 if6 0 1⟩ ⟨1, mkVlan 1 100⟩ (by decide) rfl (by decide)
     (by decide) (by decide) (by decide),
   (C6_vlan_dedup_and_linking metaW sW6 dbW6b stW6b).2.2.2 rfl (by decide)
     (by decide) (by decide) (by decide) (by decide) 3 if6 [100] 100
     ⟨3, mkL1 1 3 if6 0 1⟩ ⟨1, mkVlan 1 100⟩ (by decide) rfl (by decide)
     (by decide) (by decide) (by decide),
   by decide⟩

/-- **C4.** The claim says two devices concurrently observing the same MAC
end with exactly one Mac row.  The code's check-then-insert admits an
interleaving (both `_mac.exists` scans before either batched insert) that
leaves two rows for `aa:bb:cc:dd:ee:ff` in the shared table — against the
claim and the spec's own concurrency requirement (sections 5, 9).  A
serialized schedule, by contrast, leaves exactly one row. -/
theorem C4_mac_race_double_insert :
    macRace [true, false, true, false] []
        ⟨["aabbccddeeff"], [], false⟩ ⟨["aabbccddeeff"], [], false⟩ =
      ["aabbccddeeff", "aabbccddeeff"] ∧
    (macRace [true, false, true, false] []
        ⟨["aabbccddeeff"], [], false⟩ ⟨["aabbccddeeff"], [], false⟩).count
      "aabbccddeeff" = 2 ∧
    (macRace [true, true, false, false] []
        ⟨["aabbccddeeff"], [], false⟩ ⟨["aabbccddeeff"], [], false⟩).count
      "aabbccddeeff" = 1 := by
  refine ⟨rfl, rfl, rfl⟩

/-! ## Idempotence analysis: generic store lemmas -/

/-- Overwriting a stored row with the payload it already carries leaves the
table unchanged. -/
theorem Table.update_noop {α : Type} {t : Table α} {i : Nat} {v : α}
    (h : ∀ r ∈ t.rows, r.idx = i → r.val = v) : t.update i v = t := by
  cases t with
  | mk rows next =>
    simp only [Table.update]
    refine congrArg₂ Table.mk ?_ rfl
    conv_rhs => rw [← List.map_id rows]
    apply List.map_congr_left
    intro r hr
    by_cases hri : r.idx = i
    · rw [if_pos hri]
      have hv := h r hr hri
      show (⟨i, v⟩ : Row α) = r
      rw [← hri, ← hv]
    · rw [if_neg hri]
      rfl

/-- A key present somewhere in the dict source resolves to some row. -/
theorem dictFind_found {α : Type} {rows : List (Row α)} {p : Row α → Bool}
    (h : ∃ r ∈ rows, p r = true) : ∃ ex, dictFind rows p = some ex := by
  obtain ⟨r, hr, hpr⟩ := h
  cases hf : dictFind rows p with
  | some ex => exact ⟨ex, rfl⟩
  | none => exact absurd hpr (dictFind_eq_none.1 hf r hr)

/-- A key present somewhere in the table resolves to some row. -/
theorem findRow_found {α : Type} {t : Table α} {p : Row α → Bool}
    (h : ∃ r ∈ t.rows, p r = true) :
    ∃ ex, t.findRow p = some ex ∧ ex ∈ t.rows ∧ p ex = true := by
  obtain ⟨r, hr, hpr⟩ := h
  cases hf : t.rows.find? p with
  | some ex =>
    exact ⟨ex, hf, List.mem_of_find?_eq_some hf, List.find?_some hf⟩
  | none => exact absurd hpr (List.find?_eq_none.1 hf r hr)

/-- The value of an inserted row is one of the batch's values. -/
theorem insertedRows_val_mem {α : Type} {n : Nat} {vs : List α} {r : Row α}
    (h : r ∈ insertedRows n vs) : r.val ∈ vs := by
  induction vs generalizing n with
  | nil => cases h
  | cons v rest ih =>
    rcases List.mem_cons.1 h with rfl | h2
    · exact List.mem_cons_self _ _
    · exact List.mem_cons_of_mem _ (ih h2)

/-- Identifiers of a batched insert start at the handed-out counter. -/
theorem insertedRows_idx_ge {α : Type} {n : Nat} {vs : List α} {r : Row α}
    (h : r ∈ insertedRows n vs) : n ≤ r.idx := by
  induction vs generalizing n with
  | nil => cases h
  | cons v rest ih =>
    rcases List.mem_cons.1 h with rfl | h2
    · exact Nat.le_refl n
    · exact Nat.le_of_succ_le (ih h2)

/-- A batched insert assigns pairwise distinct identifiers. -/
theorem insertedRows_idx_nodup {α : Type} (n : Nat) (vs : List α) :
    ((insertedRows n vs).map Row.idx).Nodup := by
  induction vs generalizing n with
  | nil => simp [insertedRows]
  | cons v rest ih =>
    simp only [insertedRows, List.map_cons, List.nodup_cons]
    refine ⟨?_, ih (n + 1)⟩
    intro hmem
    obtain ⟨r, hr, hidx⟩ := List.mem_map.1 hmem
    have hge : n + 1 ≤ r.idx := insertedRows_idx_ge hr
    have heq : r.idx = n := hidx
    omega

/-- In an identifier-unique row list, rows agreeing on the identifier
coincide. -/
theorem row_eq_of_idx {α : Type} {rows : List (Row α)}
    (hnd : (rows.map Row.idx).Nodup) {r1 r2 : Row α}
    (h1 : r1 ∈ rows) (h2 : r2 ∈ rows) (h : r1.idx = r2.idx) : r1 = r2 :=
  List.inj_on_of_nodup_map hnd h1 h2 h

/-- A predicate identifying its satisfiers counts at most one over a
duplicate-free list. -/
theorem countP_le_one_of_nodup {α : Type} {l : List α} {P : α → Bool}
    (hnd : l.Nodup)
    (hP : ∀ a ∈ l, ∀ b ∈ l, P a = true → P b = true → a = b) :
    l.countP P ≤ 1 := by
  induction l with
  | nil => simp
  | cons a t ih =>
    rcases List.nodup_cons.1 hnd with ⟨hat, hndt⟩
    rw [List.countP_cons]
    by_cases hPa : P a = true
    · have h0 : t.countP P = 0 := by
        rw [List.countP_eq_zero]
        intro b hb hPb
        have hba := hP b (List.mem_cons_of_mem _ hb) a
          (List.mem_cons_self _ _) hPb hPa
        exact hat (hba ▸ hb)
      simp [h0, hPa]
    · have hz : (if P a then 1 else 0) = 0 := by simp [hPa]
      rw [hz, Nat.add_zero]
      exact ih hndt fun x hx y hy =>
        hP x (List.mem_cons_of_mem _ hx) y (List.mem_cons_of_mem _ hy)

/-- Two inserted rows whose values satisfy a predicate held by at most one
batch value are the same row. -/
theorem insertedRows_unique_by {α : Type} {n : Nat} {vs : List α}
    {P : α → Bool} (hc : vs.countP P ≤ 1) {r1 r2 : Row α}
    (h1 : r1 ∈ insertedRows n vs) (h2 : r2 ∈ insertedRows n vs)
    (hp1 : P r1.val = true) (hp2 : P r2.val = true) : r1 = r2 := by
  induction vs generalizing n with
  | nil => cases h1
  | cons v rest ih =>
    rw [List.countP_cons] at hc
    rcases List.mem_cons.1 h1 with rfl | h1t
    · rcases List.mem_cons.1 h2 with rfl | h2t
      · rfl
      · exfalso
        have hv : P v = true := hp1
        have hpos : 0 < rest.countP P :=
          List.countP_pos_iff.2 ⟨r2.val, insertedRows_val_mem h2t, hp2⟩
        rw [hv, if_pos rfl] at hc
        omega
    · rcases List.mem_cons.1 h2 with rfl | h2t
      · exfalso
        have hv : P v = true := hp2
        have hpos : 0 < rest.countP P :=
          List.countP_pos_iff.2 ⟨r1.val, insertedRows_val_mem h1t, hp1⟩
        rw [hv, if_pos rfl] at hc
        omega
      · exact ih (Nat.le_trans (Nat.le_add_right _ _) hc) h1t h2t

/-- The last-wins dict lookup resolves the unique satisfying row. -/
theorem dictFind_unique {α : Type} {rows : List (Row α)} {p : Row α → Bool}
    {r : Row α} (hr : r ∈ rows) (hp : p r = true)
    (huniq : ∀ x ∈ rows, p x = true → x = r) : dictFind rows p = some r := by
  obtain ⟨ex, hex⟩ := dictFind_found ⟨r, hr, hp⟩
  rw [hex, huniq ex (dictFind_mem hex) (dictFind_prop hex)]

/-- An empty batch leaves the table untouched. -/
theorem Table.insertMany_nil {α : Type} (t : Table α) :
    t.insertMany [] = t := rfl

/-- The source's emptiness guard before `insert(...)` is redundant. -/
theorem ite_isEmpty_insertMany {α : Type} (t : Table α) (ins : List α) :
    (if ins.isEmpty then t else t.insertMany ins) = t.insertMany ins := by
  cases ins with
  | nil => simp [Table.insertMany_nil]
  | cons v rest => simp

/-- The effect of a batched insert on an empty table. -/
theorem insertMany_of_empty {α : Type} (n : Nat) (vs : List α) :
    Table.insertMany ⟨[], n⟩ vs = ⟨insertedRows n vs, n + vs.length⟩ := by
  have h1 : (Table.insertMany (⟨[], n⟩ : Table α) vs).rows =
      insertedRows n vs := by
    simp [Table.insertMany_rows]
  have h2 : (Table.insertMany (⟨[], n⟩ : Table α) vs).next = n + vs.length := by
    simp [Table.insertMany_next]
  rw [show Table.insertMany (⟨[], n⟩ : Table α) vs =
    ⟨(Table.insertMany (⟨[], n⟩ : Table α) vs).rows,
      (Table.insertMany (⟨[], n⟩ : Table α) vs).next⟩ from rfl, h1, h2]

/-- Mapping a value function over a batched insert's rows maps it over the
batch. -/
theorem insertedRows_map_val {α β : Type} (n : Nat) (vs : List α) (g : α → β) :
    (insertedRows n vs).map (fun r => g r.val) = vs.map g := by
  rw [show (fun r : Row α => g r.val) = g ∘ Row.val from rfl, ← List.map_map,
    insertedRows_vals]

/-! ## Idempotence analysis: the stores a first run builds -/

/-- The interface rows a first run inserts against an empty Interface table:
one insert-branch row per snapshot interface, in iteration order. -/
def l1Fresh (d : Nat) (L : List (Nat × IfData)) : List IL1Interface :=
  L.map (fun p => mkL1 d p.1 p.2 0 1)

/-- The mac rows a first run inserts against an empty Mac table. -/
def macFresh (lkp : List (String × Nat)) (ms : List String) : List IMac :=
  ms.map (fun m => ⟨assocGet lkp (strTake m 6), 1, m, 1⟩)

/-- The kept rows of one neighbor-table walk: entries with a valid address
and a resolvable mac, as the rows `_process_macip` builds for them. -/
def keptRows (env : Env) (tMac : Table IMac) (d ver : Nat) :
    List (String × String) → List IMacIp
  | [] => []
  | e :: rest =>
    match env.ipNorm e.1 with
    | none => keptRows env tMac d ver rest
    | some ip =>
      match tMac.findRow (fun r => r.val.mac == env.macNorm e.2) with
      | none => keptRows env tMac d ver rest
      | some mex =>
        ⟨d, mex.idx, ip, if env.dns then env.dnsLookup ip else none, ver, 1⟩
          :: keptRows env tMac d ver rest

/-- All kept rows of the Mac-IP Synchronizer (IPv4 walk then IPv6 walk). -/
def macipAdds (env : Env) (tMac : Table IMac) (d : Nat) (s : Snapshot) :
    List IMacIp :=
  (if truthyL s.ipv4 then keptRows env tMac d 4 (s.ipv4.getD []) else []) ++
    (if truthyL s.ipv6 then keptRows env tMac d 6 (s.ipv6.getD []) else [])

/-- The normalized (address, mac) key of each valid-address neighbor entry,
across both neighbor tables. -/
def neighborKeys (env : Env) (s : Snapshot) : List (String × String) :=
  ((if truthyL s.ipv4 then s.ipv4.getD [] else []) ++
      (if truthyL s.ipv6 then s.ipv6.getD [] else [])).filterMap
    (fun e => (env.ipNorm e.1).map (fun ip => (ip, env.macNorm e.2)))

/-- A first run of the Device Registrar against an empty Device table
inserts the identity row under identifier 1 and resolves it. -/
theorem device_fresh (db : DB) (s : Snapshot)
    (host sn sd so : String) (su ts : Nat)
    (hdev : db.devices = ⟨[], 1⟩)
    (hh : s.host = some host) (hn : s.sysName = some sn)
    (hd : s.sysDescr = some sd) (ho : s.sysObjectID = some so)
    (hu : s.sysUpTime = some su) (ht : s.timestamp = some ts) :
    device db s = .ok (⟨1, deviceRow host sn sd so su ts⟩,
      { db with devices := ⟨[⟨1, deviceRow host sn sd so su ts⟩], 2⟩ }) := by
  simp only [device, hh, hn, hd, ho, hu, ht, hdev]
  simp [Table.findRow, Table.insertOne, deviceRow]

/-- The interface loop against an empty prefetched dict collects one insert
per snapshot interface and touches nothing. -/
theorem l1Loop_fresh (env : Env) (d : Nat) (L : List (Nat × IfData))
    (t : Table IL1Interface) (ins : List IL1Interface) :
    l1Loop env d [] L t ins = (t, ins ++ l1Fresh d L) := by
  induction L generalizing ins with
  | nil => simp [l1Loop, l1Fresh]
  | cons p rest ih =>
    obtain ⟨ifx, i⟩ := p
    have hnone : dictFind ([] : List (Row IL1Interface))
        (fun q => q.val.ifindex == ifx) = none := rfl
    simp only [l1Loop, hnone]
    rw [ih]
    simp [l1Fresh]

/-- A first Interface Synchronizer run against an empty Interface table:
every snapshot interface is batch-inserted with idle-since 0, enabled 1. -/
theorem l1stage_fresh (env : Env) (meta : Row IDevice) (s : Snapshot)
    (db : DB) (st : Status) (hl1 : db.l1interfaces = ⟨[], 1⟩) :
    l1interface env meta s true (db, st) =
      ({ db with l1interfaces :=
          ⟨insertedRows 1 (l1Fresh meta.idx (sortedLayer1 s)),
            1 + (l1Fresh meta.idx (sortedLayer1 s)).length⟩ },
        { st with l1interface := true }) := by
  have hpre : ifindexesOf db meta.idx = [] := by
    simp [ifindexesOf, hl1]
  have h : l1Loop env meta.idx (ifindexesOf db meta.idx) (sortedLayer1 s)
      db.l1interfaces [] =
      (db.l1interfaces, [] ++ l1Fresh meta.idx (sortedLayer1 s)) := by
    rw [hpre]
    exact l1Loop_fresh env meta.idx (sortedLayer1 s) db.l1interfaces []
  simp only [l1interface, h, List.nil_append]
  rw [if_neg (by simp)]
  rw [ite_isEmpty_insertMany, hl1, insertMany_of_empty]

/-- The vlan loop against an empty prefetched dict collects every item. -/
theorem vlanLoop_fresh (items : List IVlan) (t : Table IVlan)
    (ins : List IVlan) :
    vlanLoop [] items t ins = (t, ins ++ items) := by
  induction items generalizing ins with
  | nil => simp [vlanLoop]
  | cons item rest ih =>
    have hnone : dictFind ([] : List (Row IVlan))
        (fun q => q.val.vlan == item.vlan) = none := rfl
    simp only [vlanLoop, hnone]
    rw [ih]
    simp

/-- A first Vlan Synchronizer run against an empty Vlan table batch-inserts
the deduplicated sorted candidates. -/
theorem vlanstage_fresh (meta : Row IDevice) (s : Snapshot) (db : DB)
    (st : Status) (hst : st.l1interface = true) (hv : db.vlans = ⟨[], 1⟩) :
    vlan meta s (db, st) =
      ({ db with vlans :=
          ⟨insertedRows 1 (uniqueVlansSorted meta.idx (sortedLayer1 s)),
            1 + (uniqueVlansSorted meta.idx (sortedLayer1 s)).length⟩ },
        { st with vlan := true }) := by
  have hpre : vlansOf db meta.idx = [] := by
    simp [vlansOf, hv]
  have h : vlanLoop (vlansOf db meta.idx)
      (uniqueVlansSorted meta.idx (sortedLayer1 s)) db.vlans [] =
      (db.vlans, [] ++ uniqueVlansSorted meta.idx (sortedLayer1 s)) := by
    rw [hpre]
    exact vlanLoop_fresh (uniqueVlansSorted meta.idx (sortedLayer1 s)) db.vlans []
  simp only [vlan, h, List.nil_append]
  rw [if_neg (by simp [hst])]
  rw [ite_isEmpty_insertMany, hv, insertMany_of_empty]

/-- The vlanport inner loop against an empty prefetched vlanport dict only
collects inserts. -/
theorem vpInner_fresh (preVlans : List (Row IVlan)) (idxL1 : Nat)
    (vs : List Nat) (t : Table IVlanPort) (ins : List IVlanPort) :
    vlanportInner preVlans [] idxL1 vs t ins =
      (t, ins ++ vpInnerInserts preVlans [] idxL1 vs) := by
  induction vs generalizing ins with
  | nil => simp [vlanportInner, vpInnerInserts]
  | cons item rest ih =>
    cases h1 : dictFind preVlans (fun q => q.val.vlan == item) with
    | none =>
      simp only [vlanportInner, vpInnerInserts, h1]
      exact ih ins
    | some vex =>
      have h2 : dictFind ([] : List (Row IVlanPort)) (fun q =>
          q.val.idx_l1interface == idxL1 && q.val.idx_vlan == vex.idx) =
        none := rfl
      simp only [vlanportInner, vpInnerInserts, h1, h2]
      rw [ih]
      simp

/-- The vlanport outer loop against an empty prefetched vlanport dict only
collects inserts. -/
theorem vpLoop_fresh (preIf : List (Row IL1Interface))
    (preVlans : List (Row IVlan)) (L : List (Nat × IfData))
    (t : Table IVlanPort) (ins : List IVlanPort) :
    vlanportLoop preIf preVlans [] L t ins =
      (t, ins ++ vpOuterInserts preIf preVlans [] L) := by
  induction L generalizing ins with
  | nil => simp [vlanportLoop, vpOuterInserts]
  | cons p rest ih =>
    obtain ⟨ifx, i⟩ := p
    cases h1 : dictFind preIf (fun q => q.val.ifindex == ifx) with
    | none =>
      simp only [vlanportLoop, vpOuterInserts, h1]
      rw [ih]
      simp
    | some l1ex =>
      by_cases h2 : truthyL i.l1_vlans = true
      · cases h3 : i.l1_vlans with
        | none =>
          rw [h3] at h2
          simp [truthyL] at h2
        | some vs =>
          have h2v : truthyL (some vs) = true := by
            rw [← h3]
            exact h2
          simp only [vlanportLoop, vpOuterInserts, h1, h3, h2v, if_true]
          rw [vpInner_fresh, ih]
          simp
      · have h2f : truthyL i.l1_vlans = false := by
          revert h2
          cases truthyL i.l1_vlans <;> simp
        simp only [vlanportLoop, vpOuterInserts, h1]
        rw [if_neg (by simp [h2f]), if_neg (by simp [h2f])]
        rw [ih]
        simp

/-- A first Vlan-Port Linker run against an empty VlanPort table
batch-inserts one association row per resolvable (interface, vlan). -/
theorem vpstage_fresh (meta : Row IDevice) (s : Snapshot) (db : DB)
    (st : Status) (hst : st.vlan = true) (hvp : db.vlanports = ⟨[], 1⟩) :
    vlanport meta s (db, st) =
      ({ db with vlanports :=
          ⟨insertedRows 1 (vpOuterInserts (ifindexesOf db meta.idx)
              (vlansOf db meta.idx) [] (sortedLayer1 s)),
            1 + (vpOuterInserts (ifindexesOf db meta.idx)
              (vlansOf db meta.idx) [] (sortedLayer1 s)).length⟩ },
        { st with vlanport := true }) := by
  have hpre : vlanportsOf db meta.idx = [] := by
    simp [vlanportsOf, hvp]
  have h : vlanportLoop (ifindexesOf db meta.idx) (vlansOf db meta.idx)
      (vlanportsOf db meta.idx) (sortedLayer1 s) db.vlanports [] =
      (db.vlanports, [] ++ vpOuterInserts (ifindexesOf db meta.idx)
        (vlansOf db meta.idx) [] (sortedLayer1 s)) := by
    rw [hpre]
    exact vpLoop_fresh (ifindexesOf db meta.idx) (vlansOf db meta.idx)
      (sortedLayer1 s) db.vlanports []
  simp only [vlanport, h, List.nil_append]
  rw [if_neg (by simp [hst])]
  rw [ite_isEmpty_insertMany, hvp, insertMany_of_empty]

/-- The mac loop against an empty Mac table collects one insert per
processed mac. -/
theorem macLoop_fresh (lkp : List (String × Nat)) (L : List String)
    (n : Nat) (ins : List IMac) :
    macLoop lkp L ⟨[], n⟩ ins = (⟨[], n⟩, ins ++ macFresh lkp L) := by
  induction L generalizing ins with
  | nil => simp [macLoop, macFresh]
  | cons item rest ih =>
    have hnone : Table.findRow (⟨[], n⟩ : Table IMac)
        (fun r => r.val.mac == item) = none := rfl
    simp only [macLoop, hnone]
    rw [ih]
    simp [macFresh]

/-- A first Mac Synchronizer run against an empty Mac table batch-inserts
one row per sorted unique lowercased mac. -/
theorem macstage_fresh (meta : Row IDevice) (s : Snapshot) (db : DB)
    (st : Status) (hst : st.vlanport = true) (hm : db.macs = ⟨[], 1⟩) :
    mac meta s (db, st) =
      ({ db with macs :=
          ⟨insertedRows 1 (macFresh (macLkp meta s db) (macItems meta s db)),
            1 + (macFresh (macLkp meta s db) (macItems meta s db)).length⟩ },
        { st with mac := true }) := by
  have h : macLoop (macLkp meta s db) (macItems meta s db) db.macs [] =
      (⟨[], 1⟩, [] ++ macFresh (macLkp meta s db) (macItems meta s db)) := by
    rw [hm]
    exact macLoop_fresh (macLkp meta s db) (macItems meta s db) 1 []
  simp only [macLkp, macItems] at h
  simp only [mac, h, List.nil_append]
  rw [if_neg (by simp [hst])]
  rw [ite_isEmpty_insertMany, insertMany_of_empty]
  simp only [macLkp, macItems]

/-- The Mac-Port inner loop cannot raise once the interface row resolved. -/
theorem macportInner_ok (tMac : Table IMac) (l1 : Row IL1Interface)
    (ms : List String) (t : Table IMacPort) :
    ∃ t2, macportInner tMac (some l1) ms t = .ok t2 := by
  induction ms generalizing t with
  | nil => exact ⟨t, rfl⟩
  | cons item rest ih =>
    cases hfm : tMac.findRow (fun r => r.val.mac == item) with
    | none =>
      obtain ⟨t2, h2⟩ := ih t
      exact ⟨t2, by simp only [macportInner, hfm]; exact h2⟩
    | some mex =>
      cases hfp : t.findRow (fun r =>
          r.val.idx_l1interface == l1.idx && r.val.idx_mac == mex.idx) with
      | some pex =>
        obtain ⟨t2, h2⟩ := ih (t.update pex.idx ⟨l1.idx, mex.idx, 1⟩)
        exact ⟨t2, by simp only [macportInner, hfm, hfp]; exact h2⟩
      | none =>
        obtain ⟨t2, h2⟩ := ih (t.insertOne ⟨l1.idx, mex.idx, 1⟩)
        exact ⟨t2, by simp only [macportInner, hfm, hfp]; exact h2⟩

/-- The inner loop with no resolved interface row succeeds only by skipping
every mac, leaving the table as it was. -/
theorem macportInner_none (tMac : Table IMac) (ms : List String)
    (t t2 : Table IMacPort) (h : macportInner tMac none ms t = .ok t2) :
    t2 = t := by
  induction ms with
  | nil =>
    have h2 : (Except.ok t : Except (Table IMacPort) (Table IMacPort)) =
      .ok t2 := h
    injection h2 with h3
    exact h3.symm
  | cons item rest ih =>
    cases hfm : tMac.findRow (fun r => r.val.mac == item) with
    | none =>
      simp only [macportInner, hfm] at h
      exact ih h
    | some mex =>
      simp only [macportInner, hfm] at h
      exact Except.noConfusion h

/-- The Mac-Port outer loop cannot raise when every interface with observed
macs resolves in the prefetched interface dict. -/
theorem macportLoop_ok (tMac : Table IMac) (preIf : List (Row IL1Interface))
    (L : List (Nat × IfData)) (t : Table IMacPort)
    (hif : ∀ p ∈ L, truthyL p.2.l1_macs = true →
      (dictFind preIf (fun q => q.val.ifindex == p.1)).isSome) :
    ∃ t2, macportLoop tMac preIf L t = .ok t2 := by
  induction L generalizing t with
  | nil => exact ⟨t, rfl⟩
  | cons p rest ih =>
    obtain ⟨ifx, i⟩ := p
    by_cases htr : truthyL i.l1_macs = true
    · cases hms : i.l1_macs with
      | none =>
        rw [hms] at htr
        simp [truthyL] at htr
      | some ms =>
        have hsome := hif (ifx, i) (List.mem_cons_self _ _) htr
        cases hle : dictFind preIf (fun q => q.val.ifindex == ifx) with
        | none =>
          rw [hle] at hsome
          simp at hsome
        | some l1 =>
          obtain ⟨t1, h1⟩ := macportInner_ok tMac l1
            (pySorted (fun a b => a ≤ b) ms) t
          obtain ⟨t2, h2⟩ := ih t1 fun q hq => hif q (List.mem_cons_of_mem _ hq)
          refine ⟨t2, ?_⟩
          have htr2 : truthyL (some ms) = true := by
            rw [← hms]
            exact htr
          simp only [macportLoop, hle, hms, htr2, if_true, h1]
          exact h2
    · have hf : truthyL i.l1_macs = false := by
        revert htr
        cases truthyL i.l1_macs <;> simp
      obtain ⟨t2, h2⟩ := ih t fun q hq => hif q (List.mem_cons_of_mem _ hq)
      refine ⟨t2, ?_⟩
      simp only [macportLoop]
      rw [if_neg (by simp [hf])]
      exact h2

/-- An ungated Mac-Port run with every observed interface resolvable
completes, writing only its own table. -/
theorem macportstage_ok (meta : Row IDevice) (s : Snapshot) (db : DB)
    (st : Status) (hst : st.mac = true)
    (hif : ∀ p ∈ sortedLayer1 s, truthyL p.2.l1_macs = true →
      (dictFind (ifindexesOf db meta.idx)
        (fun q => q.val.ifindex == p.1)).isSome) :
    ∃ t2, macportLoop db.macs (ifindexesOf db meta.idx) (sortedLayer1 s)
        db.macports = .ok t2 ∧
      macport meta s (db, st) =
        .ok ({ db with macports := t2 }, { st with macport := true }) := by
  obtain ⟨t2, h2⟩ := macportLoop_ok db.macs (ifindexesOf db meta.idx)
    (sortedLayer1 s) db.macports hif
  refine ⟨t2, h2, ?_⟩
  simp only [macport]
  rw [if_neg (by simp [hst])]
  simp only [h2]

/-- One neighbor-table walk against an empty MacIp table keeps exactly the
kept rows as adds and schedules no update. -/
theorem processMacip_fresh (env : Env) (tMac : Table IMac) (t : Table IMacIp)
    (ht : t.rows = []) (d ver : Nat) (ents : List (String × String))
    (adds : List IMacIp) (upds : List (Nat × IMacIp)) :
    processMacip env tMac t d ver ents adds upds =
      (adds ++ keptRows env tMac d ver ents, upds) := by
  induction ents generalizing adds with
  | nil => simp [processMacip, keptRows]
  | cons e rest ih =>
    cases hip : env.ipNorm e.1 with
    | none =>
      simp only [processMacip, keptRows, hip]
      exact ih adds
    | some ip =>
      cases hfm : tMac.findRow (fun r => r.val.mac == env.macNorm e.2) with
      | none =>
        simp only [processMacip, keptRows, hip, hfm]
        exact ih adds
      | some mex =>
        have hfp : t.findRow (fun r =>
            r.val.idx_device == d && r.val.idx_mac == mex.idx
              && r.val.ip_ == ip) = none := by
          simp [Table.findRow, ht]
        simp only [processMacip, keptRows, hip, hfm, hfp]
        rw [ih]
        simp

/-- A first Mac-IP Synchronizer run against an empty MacIp table
batch-inserts the sorted kept rows of both neighbor tables. -/
theorem macipstage_fresh (env : Env) (meta : Row IDevice) (s : Snapshot)
    (db : DB) (st : Status) (hst : st.macport = true)
    (hmi : db.macips = ⟨[], 1⟩) :
    macip env meta s (db, st) =
      ({ db with macips := ⟨insertedRows 1
            (pySorted macipLE (macipAdds env db.macs meta.idx s)),
          1 + (pySorted macipLE (macipAdds env db.macs meta.idx s)).length⟩ },
        st) := by
  have hrows : db.macips.rows = [] := by rw [hmi]
  have h4 := processMacip_fresh env db.macs db.macips hrows meta.idx 4
    (s.ipv4.getD []) [] []
  have h6 := processMacip_fresh env db.macs db.macips hrows meta.idx 6
    (s.ipv6.getD []) [] []
  simp only [macip, macipAdds]
  rw [if_neg (by simp [hst])]
  by_cases ht4 : truthyL s.ipv4 = true
  · by_cases ht6 : truthyL s.ipv6 = true
    · rw [if_pos ht4, if_pos ht6, if_pos ht4, if_pos ht6, h4, h6]
      simp only [List.nil_append, List.append_nil, pySorted, List.foldl_nil]
      rw [hmi, insertMany_of_empty]
    · rw [if_pos ht4, if_neg ht6, if_pos ht4, if_neg ht6, h4]
      simp only [List.nil_append, List.append_nil, pySorted, List.foldl_nil]
      rw [hmi, insertMany_of_empty]
  · by_cases ht6 : truthyL s.ipv6 = true
    · rw [if_neg ht4, if_pos ht6, if_neg ht4, if_pos ht6, h6]
      simp only [List.nil_append, List.append_nil, pySorted, List.foldl_nil]
      rw [hmi, insertMany_of_empty]
    · rw [if_neg ht4, if_neg ht6, if_neg ht4, if_neg ht6]
      simp only [List.nil_append, List.append_nil, pySorted, List.foldl_nil]
      rw [hmi, insertMany_of_empty]

/-- An update never moves identifiers past the insert counter. -/
theorem Table.update_bound {α : Type} {t : Table α}
    (hb : ∀ r ∈ t.rows, r.idx < t.next) (i : Nat) (v : α) :
    ∀ r ∈ (t.update i v).rows, r.idx < (t.update i v).next := by
  intro r hr
  simp only [Table.update] at hr ⊢
  obtain ⟨r0, hr0, hEq⟩ := List.mem_map.1 hr
  have hb0 := hb r0 hr0
  by_cases h : r0.idx = i
  · rw [if_pos h] at hEq
    rw [← hEq]
    show i < t.next
    omega
  · rw [if_neg h] at hEq
    rw [← hEq]
    exact hb0

/-- The (interface, mac) reference pairs stored in a MacPort row list. -/
def mpPairs (rows : List (Row IMacPort)) : List (Nat × Nat) :=
  rows.map (fun r => (r.val.idx_l1interface, r.val.idx_mac))

/-- The Mac-Port table invariant: identifier-unique rows below the counter,
every row enabled, reference pairs pairwise distinct. -/
def mpInv (t : Table IMacPort) : Prop :=
  ((t.rows.map Row.idx).Nodup ∧ ∀ r ∈ t.rows, r.idx < t.next) ∧
    (∀ r ∈ t.rows, r.val.enabled = 1) ∧ (mpPairs t.rows).Nodup

/-- An in-place overwrite carrying the overwritten row's reference pair
preserves the invariant and the stored pairs. -/
theorem mpInv_update {t : Table IMacPort} (hinv : mpInv t)
    {pex : Row IMacPort} (hmem : pex ∈ t.rows) {v : IMacPort}
    (h1 : v.idx_l1interface = pex.val.idx_l1interface)
    (h2 : v.idx_mac = pex.val.idx_mac) (h3 : v.enabled = 1) :
    mpInv (t.update pex.idx v) ∧
      mpPairs (t.update pex.idx v).rows = mpPairs t.rows := by
  obtain ⟨⟨hnd, hb⟩, hen, hpn⟩ := hinv
  have hpairs : mpPairs (t.update pex.idx v).rows = mpPairs t.rows := by
    simp only [Table.update, mpPairs, List.map_map]
    apply List.map_congr_left
    intro r hr
    by_cases h : r.idx = pex.idx
    · have hre : r = pex := row_eq_of_idx hnd hr hmem h
      simp only [Function.comp, if_pos h]
      rw [h1, h2, hre]
    · simp only [Function.comp, if_neg h]
  refine ⟨⟨⟨?_, ?_⟩, ?_, ?_⟩, hpairs⟩
  · rw [Table.update_idxs]
    exact hnd
  · exact Table.update_bound hb pex.idx v
  · intro r hr
    simp only [Table.update] at hr
    obtain ⟨r0, hr0, hEq⟩ := List.mem_map.1 hr
    by_cases h : r0.idx = pex.idx
    · rw [if_pos h] at hEq
      rw [← hEq]
      exact h3
    · rw [if_neg h] at hEq
      rw [← hEq]
      exact hen r0 hr0
  · rw [hpairs]
    exact hpn

/-- Inserting a row with a not-yet-stored reference pair preserves the
invariant and appends the pair. -/
theorem mpInv_insertOne {t : Table IMacPort} (hinv : mpInv t) {v : IMacPort}
    (h3 : v.enabled = 1)
    (hnp : (v.idx_l1interface, v.idx_mac) ∉ mpPairs t.rows) :
    mpInv (t.insertOne v) ∧
      mpPairs (t.insertOne v).rows =
        mpPairs t.rows ++ [(v.idx_l1interface, v.idx_mac)] := by
  obtain ⟨⟨hnd, hb⟩, hen, hpn⟩ := hinv
  have hpairs : mpPairs (t.insertOne v).rows =
      mpPairs t.rows ++ [(v.idx_l1interface, v.idx_mac)] := by
    simp [Table.insertOne, mpPairs]
  refine ⟨⟨⟨?_, ?_⟩, ?_, ?_⟩, hpairs⟩
  · simp only [Table.insertOne, List.map_append]
    rw [List.nodup_append]
    refine ⟨hnd, List.nodup_singleton _, ?_⟩
    intro a ha
    simp only [List.map_cons, List.map_nil, List.mem_singleton]
    intro hEq
    obtain ⟨r0, hr0, hidx⟩ := List.mem_map.1 ha
    have hlt := hb r0 hr0
    have : a = t.next := hEq
    omega
  · intro r hr
    simp only [Table.insertOne] at hr ⊢
    rcases List.mem_append.1 hr with hm | hm
    · have := hb r hm
      omega
    · rcases List.mem_singleton.1 hm with rfl
      show t.next < t.next + 1
      omega
  · intro r hr
    simp only [Table.insertOne] at hr
    rcases List.mem_append.1 hr with hm | hm
    · exact hen r hm
    · rcases List.mem_singleton.1 hm with rfl
      exact h3
  · rw [hpairs, List.nodup_append]
    refine ⟨hpn, List.nodup_singleton _, ?_⟩
    intro q hq
    simp only [List.mem_singleton]
    intro hEq
    rw [hEq] at hq
    exact hnp hq

/-- Invariant preservation and pair coverage across one interface's inner
Mac-Port loop: the invariant survives, stored pairs persist, and every mac of
the list that resolves ends with its association pair stored. -/
theorem macportInner_inv (tMac : Table IMac) (l1 : Row IL1Interface)
    (ms : List String) (t t2 : Table IMacPort)
    (h : macportInner tMac (some l1) ms t = .ok t2) (hinv : mpInv t) :
    mpInv t2 ∧ (∀ q ∈ mpPairs t.rows, q ∈ mpPairs t2.rows) ∧
      ∀ item ∈ ms, ∀ mex,
        tMac.findRow (fun r => r.val.mac == item) = some mex →
        (l1.idx, mex.idx) ∈ mpPairs t2.rows := by
  induction ms generalizing t with
  | nil =>
    have h2 : (Except.ok t : Except (Table IMacPort) (Table IMacPort)) =
      .ok t2 := h
    injection h2 with h3
    subst h3
    exact ⟨hinv, fun q hq => hq, fun item hitem =>
      absurd hitem (List.not_mem_nil _)⟩
  | cons item rest ih =>
    cases hfm : tMac.findRow (fun r => r.val.mac == item) with
    | none =>
      simp only [macportInner, hfm] at h
      obtain ⟨hi2, hmono, hitems⟩ := ih t h hinv
      refine ⟨hi2, hmono, ?_⟩
      intro it hit mex hfm2
      rcases List.mem_cons.1 hit with rfl | hit2
      · rw [hfm] at hfm2
        exact Option.noConfusion hfm2
      · exact hitems it hit2 mex hfm2
    | some mex =>
      cases hfp : t.findRow (fun r =>
          r.val.idx_l1interface == l1.idx && r.val.idx_mac == mex.idx) with
      | some pex =>
        simp only [macportInner, hfm, hfp] at h
        have hpmem : pex ∈ t.rows := List.mem_of_find?_eq_some hfp
        have hpp := List.find?_some hfp
        simp only [Bool.and_eq_true, beq_iff_eq] at hpp
        obtain ⟨hupd, hpairs⟩ := mpInv_update hinv hpmem
          (v := ⟨l1.idx, mex.idx, 1⟩) hpp.1.symm hpp.2.symm rfl
        obtain ⟨hi2, hmono, hitems⟩ := ih _ h hupd
        refine ⟨hi2, ?_, ?_⟩
        · intro q hq
          refine hmono q ?_
          rw [hpairs]
          exact hq
        · intro it hit mex2 hfm2
          rcases List.mem_cons.1 hit with rfl | hit2
          · rw [hfm] at hfm2
            injection hfm2 with hmex
            subst hmex
            apply hmono
            rw [hpairs]
            have hpe : (l1.idx, mex.idx) =
                (pex.val.idx_l1interface, pex.val.idx_mac) := by
              rw [hpp.1, hpp.2]
            rw [hpe]
            exact List.mem_map_of_mem _ hpmem
          · exact hitems it hit2 mex2 hfm2
      | none =>
        simp only [macportInner, hfm, hfp] at h
        have hnp : ((l1.idx, mex.idx) : Nat × Nat) ∉ mpPairs t.rows := by
          intro hmem
          obtain ⟨r0, hr0, hEq⟩ := List.mem_map.1 hmem
          simp only [Prod.mk.injEq] at hEq
          have hp0 : (fun r => r.val.idx_l1interface == l1.idx &&
              r.val.idx_mac == mex.idx) r0 = true := by
            simp [hEq.1, hEq.2]
          exact List.find?_eq_none.1 hfp r0 hr0 hp0
        obtain ⟨hins, hpairs⟩ := mpInv_insertOne hinv
          (v := ⟨l1.idx, mex.idx, 1⟩) rfl hnp
        obtain ⟨hi2, hmono, hitems⟩ := ih _ h hins
        refine ⟨hi2, ?_, ?_⟩
        · intro q hq
          apply hmono
          rw [hpairs]
          exact List.mem_append_left _ hq
        · intro it hit mex2 hfm2
          rcases List.mem_cons.1 hit with rfl | hit2
          · rw [hfm] at hfm2
            injection hfm2 with hmex
            subst hmex
            apply hmono
            rw [hpairs]
            exact List.mem_append_right _ (List.mem_cons_self _ _)
          · exact hitems it hit2 mex2 hfm2

/-- Invariant preservation and association coverage across the whole
Mac-Port outer loop. -/
theorem macportLoop_inv (tMac : Table IMac) (preIf : List (Row IL1Interface))
    (L : List (Nat × IfData)) (t t2 : Table IMacPort)
    (h : macportLoop tMac preIf L t = .ok t2) (hinv : mpInv t) :
    mpInv t2 ∧ (∀ q ∈ mpPairs t.rows, q ∈ mpPairs t2.rows) ∧
      ∀ p ∈ L, ∀ ms, p.2.l1_macs = some ms →
        ∀ item ∈ pySorted (fun a b => a ≤ b) ms,
        ∀ mex, tMac.findRow (fun r => r.val.mac == item) = some mex →
        ∀ l1ex, dictFind preIf (fun q => q.val.ifindex == p.1) = some l1ex →
          (l1ex.idx, mex.idx) ∈ mpPairs t2.rows := by
  induction L generalizing t with
  | nil =>
    have h2 : (Except.ok t : Except (Table IMacPort) (Table IMacPort)) =
      .ok t2 := h
    injection h2 with h3
    subst h3
    exact ⟨hinv, fun q hq => hq, fun p hp => absurd hp (List.not_mem_nil _)⟩
  | cons p rest ih =>
    obtain ⟨ifx, i⟩ := p
    by_cases htr : truthyL i.l1_macs = true
    · cases hms : i.l1_macs with
      | none =>
        rw [hms] at htr
        simp [truthyL] at htr
      | some ms =>
        have htr2 : truthyL (some ms) = true := by
          rw [← hms]
          exact htr
        cases hle : dictFind preIf (fun q => q.val.ifindex == ifx) with
        | none =>
          simp only [macportLoop, hle, hms, htr2, if_true] at h
          cases hinner : macportInner tMac none
              (pySorted (fun a b => a ≤ b) ms) t with
          | error te =>
            simp only [hinner] at h
            exact Except.noConfusion h
          | ok t1 =>
            simp only [hinner] at h
            have ht1 : t1 = t := macportInner_none tMac _ t t1 hinner
            rw [ht1] at h
            obtain ⟨hi2, hmono, hrest⟩ := ih t h hinv
            refine ⟨hi2, hmono, ?_⟩
            intro q hq ms2 hms2 item hitem mex hfm l1ex hl1ex
            rcases List.mem_cons.1 hq with rfl | hq2
            · have hl1b : dictFind preIf
                  (fun q => q.val.ifindex == ifx) = some l1ex := hl1ex
              rw [hle] at hl1b
              exact Option.noConfusion hl1b
            · exact hrest q hq2 ms2 hms2 item hitem mex hfm l1ex hl1ex
        | some l1 =>
          simp only [macportLoop, hle, hms, htr2, if_true] at h
          cases hinner : macportInner tMac (some l1)
              (pySorted (fun a b => a ≤ b) ms) t with
          | error te =>
            simp only [hinner] at h
            exact Except.noConfusion h
          | ok t1 =>
            simp only [hinner] at h
            obtain ⟨hi1, hmono1, hitems1⟩ :=
              macportInner_inv tMac l1 _ t t1 hinner hinv
            obtain ⟨hi2, hmono2, hrest⟩ := ih t1 h hi1
            refine ⟨hi2, fun q hq => hmono2 q (hmono1 q hq), ?_⟩
            intro q hq ms2 hms2 item hitem mex hfm l1ex hl1ex
            rcases List.mem_cons.1 hq with rfl | hq2
            · have hms2b : i.l1_macs = some ms2 := hms2
              rw [hms] at hms2b
              injection hms2b with hms3
              subst hms3
              have hl1b : dictFind preIf
                  (fun q => q.val.ifindex == ifx) = some l1ex := hl1ex
              rw [hle] at hl1b
              injection hl1b with hl13
              subst hl13
              exact hmono2 _ (hitems1 item hitem mex hfm)
            · exact hrest q hq2 ms2 hms2 item hitem mex hfm l1ex hl1ex
    · have hf : truthyL i.l1_macs = false := by
        revert htr
        cases truthyL i.l1_macs <;> simp
      simp only [macportLoop] at h
      rw [if_neg (by simp [hf])] at h
      obtain ⟨hi2, hmono, hrest⟩ := ih t h hinv
      refine ⟨hi2, hmono, ?_⟩
      intro q hq ms2 hms2 item hitem mex hfm l1ex hl1ex
      rcases List.mem_cons.1 hq with rfl | hq2
      · have hms2b : i.l1_macs = some ms2 := hms2
        have hne : ms2 ≠ [] := List.ne_nil_of_mem (mem_pySorted.1 hitem)
        rw [hms2b] at hf
        simp [truthyL, List.isEmpty_iff] at hf
        exact absurd hf hne
      · exact hrest q hq2 ms2 hms2 item hitem mex hfm l1ex hl1ex

/-- A second Device Registrar run resolves the stored identity row and
rewrites it unchanged. -/
theorem device_again (db : DB) (s : Snapshot)
    (host sn sd so : String) (su ts : Nat)
    (hdev : db.devices.rows = [⟨1, deviceRow host sn sd so su ts⟩])
    (hh : s.host = some host) (hn : s.sysName = some sn)
    (hd : s.sysDescr = some sd) (ho : s.sysObjectID = some so)
    (hu : s.sysUpTime = some su) (ht : s.timestamp = some ts) :
    device db s = .ok (⟨1, deviceRow host sn sd so su ts⟩, db) := by
  have hf : db.devices.findRow (fun r => r.val.hostname == host) =
      some ⟨1, deviceRow host sn sd so su ts⟩ := by
    simp [Table.findRow, hdev, deviceRow]
  have hupd : db.devices.update 1 (deviceRow host sn sd so su ts) =
      db.devices := by
    apply Table.update_noop
    intro r hr hidx
    rw [hdev] at hr
    rcases List.mem_singleton.1 hr with rfl
    rfl
  simp only [device, hh, hn, hd, ho, hu, ht, hf, hupd]

/-- No insert is collected when every snapshot interface resolves. -/
theorem l1InsertsOf_nil (d : Nat) (pre : List (Row IL1Interface))
    (L : List (Nat × IfData))
    (h : ∀ p ∈ L, ∃ ex,
      dictFind pre (fun q => q.val.ifindex == p.1) = some ex) :
    l1InsertsOf d pre L = [] := by
  induction L with
  | nil => rfl
  | cons p rest ih =>
    obtain ⟨ex, hex⟩ := h p (List.mem_cons_self _ _)
    simp only [l1InsertsOf, hex]
    exact ih fun q hq => h q (List.mem_cons_of_mem _ hq)

/-- A second Interface Synchronizer run over the table a first run built is
a no-op: every lookup hits the interface's own insert-branch row, and under
the admin/oper proviso the idle machine rewrites it unchanged. -/
theorem l1stage_run2 (env : Env) (meta : Row IDevice) (s : Snapshot)
    (db : DB) (st : Status)
    (hrows : db.l1interfaces.rows =
      insertedRows 1 (l1Fresh meta.idx (sortedLayer1 s)))
    (hkeys : (s.layer1.map Prod.fst).Nodup)
    (hstat : ∀ p ∈ s.layer1,
      (p.2.ifAdminStatus = some 1 ∧ p.2.ifOperStatus = some 1) ∨
        p.2.ifAdminStatus = some 2) :
    l1interface env meta s true (db, st) =
      (db, { st with l1interface := true }) := by
  have hkeysL : ((sortedLayer1 s).map Prod.fst).Nodup :=
    (((pySorted_perm _ _).map Prod.fst).nodup_iff).2 hkeys
  have hpre_eq : ifindexesOf db meta.idx = db.l1interfaces.rows := by
    unfold ifindexesOf
    rw [List.filter_eq_self]
    intro r hr
    rw [hrows] at hr
    obtain ⟨p, hp, hval⟩ := List.mem_map.1 (insertedRows_val_mem hr)
    rw [← hval]
    simp [mkL1]
  have hndpre : ((ifindexesOf db meta.idx).map Row.idx).Nodup := by
    rw [hpre_eq, hrows]
    exact insertedRows_idx_nodup 1 _
  have hcount : ∀ k : Nat,
      (l1Fresh meta.idx (sortedLayer1 s)).countP
        (fun v => v.ifindex == k) ≤ 1 := by
    intro k
    unfold l1Fresh
    rw [List.countP_map]
    have hfun : ((fun v : IL1Interface => v.ifindex == k) ∘
        (fun p : Nat × IfData => mkL1 meta.idx p.1 p.2 0 1)) =
      (fun p : Nat × IfData => p.1 == k) := rfl
    rw [hfun]
    refine countP_le_one_of_nodup (List.Nodup.of_map _ hkeysL) ?_
    intro a ha b hb hpa hpb
    have ha1 : a.1 = k := by simpa using hpa
    have hb1 : b.1 = k := by simpa using hpb
    exact List.inj_on_of_nodup_map hkeysL ha hb (by rw [ha1, hb1])
  have hfound : ∀ p ∈ sortedLayer1 s, ∃ ex,
      dictFind (ifindexesOf db meta.idx)
        (fun q => q.val.ifindex == p.1) = some ex := by
    intro p hp
    apply dictFind_found
    have hv : mkL1 meta.idx p.1 p.2 0 1 ∈ l1Fresh meta.idx (sortedLayer1 s) :=
      List.mem_map_of_mem _ hp
    obtain ⟨j, hj⟩ := insertedRows_mem 1 hv
    refine ⟨⟨j, mkL1 meta.idx p.1 p.2 0 1⟩, ?_, ?_⟩
    · rw [hpre_eq, hrows]
      exact hj
    · simp [mkL1]
  have hins : l1InsertsOf meta.idx (ifindexesOf db meta.idx)
      (sortedLayer1 s) = [] :=
    l1InsertsOf_nil meta.idx _ _ hfound
  have hid : ∀ r ∈ db.l1interfaces.rows,
      l1UpdAll env meta.idx (ifindexesOf db meta.idx) (sortedLayer1 s) r
        = r := by
    intro r hr
    have hr2 := hr
    rw [hrows] at hr2
    obtain ⟨p, hpL, hvform⟩ := List.mem_map.1 (insertedRows_val_mem hr2)
    obtain ⟨ifx, i⟩ := p
    have hfr : dictFind (ifindexesOf db meta.idx)
        (fun q => q.val.ifindex == ifx) = some r := by
      apply dictFind_unique
      · rw [hpre_eq]
        exact hr
      · rw [← hvform]
        simp [mkL1]
      · intro x hx hpx
        rw [hpre_eq, hrows] at hx
        refine insertedRows_unique_by (hcount ifx) hx hr2 hpx ?_
        rw [← hvform]
        simp [mkL1]
    have htarget := l1UpdAll_target env meta.idx hpL hkeysL hfr hndpre
    rw [htarget]
    have hts : r.val.ts_idle = 0 := by
      rw [← hvform]
      rfl
    have hen : r.val.enabled = 1 := by
      rw [← hvform]
      rfl
    rw [hts, hen]
    have hsp := hstat (ifx, i) (mem_pySorted.1 hpL)
    have h0 : tsIdleNext i 0 env.now = 0 := by
      unfold tsIdleNext
      rcases hsp with ⟨h1, h2⟩ | h1
      · have h1b : i.ifAdminStatus = some 1 := h1
        have h2b : i.ifOperStatus = some 1 := h2
        rw [h1b, h2b]
        simp
      · have h1b : i.ifAdminStatus = some 2 := h1
        rw [h1b]
        simp
    rw [h0]
    rw [if_pos (by omega : (1 : Nat) ≠ 0)]
    rw [hvform]
  have hspec := l1Loop_spec env meta.idx (ifindexesOf db meta.idx)
    (sortedLayer1 s) db.l1interfaces []
  simp only [l1interface, hspec, List.nil_append]
  rw [if_neg (by simp)]
  rw [hins, ite_isEmpty_insertMany, Table.insertMany_nil]
  have hmap : db.l1interfaces.rows.map
      (l1UpdAll env meta.idx (ifindexesOf db meta.idx) (sortedLayer1 s)) =
      db.l1interfaces.rows := by
    conv_rhs => rw [← List.map_id db.l1interfaces.rows]
    exact List.map_congr_left hid
  rw [hmap]

/-- A vlan iteration for a different vlan number leaves the row resolved
for `v` untouched. -/
theorem vlanStep_other {pre : List (Row IVlan)} {v : Nat} {ex : Row IVlan}
    (hfind : dictFind pre (fun q => q.val.vlan == v) = some ex)
    (hpre : (pre.map Row.idx).Nodup) {item : IVlan} (hk : item.vlan ≠ v)
    {r : Row IVlan} (hr : r.idx = ex.idx) :
    vlanStep pre item r = r := by
  unfold vlanStep
  cases h2 : dictFind pre (fun q => q.val.vlan == item.vlan) with
  | none => rfl
  | some ex2 =>
    simp only
    have hne : r.idx ≠ ex2.idx := by
      rw [hr]
      intro hEq
      have hmem1 := dictFind_mem hfind
      have hmem2 := dictFind_mem h2
      have hee : ex = ex2 := List.inj_on_of_nodup_map hpre hmem1 hmem2 hEq
      subst hee
      have p1 := dictFind_prop hfind
      have p2 := dictFind_prop h2
      simp at p1 p2
      exact hk (by rw [← p2, p1])
    simp [hne]

/-- Vlan iterations whose numbers all differ from `v` leave the row resolved
for `v` untouched. -/
theorem vlanUpdAll_notouch {pre : List (Row IVlan)} {v : Nat} {ex : Row IVlan}
    (hfind : dictFind pre (fun q => q.val.vlan == v) = some ex)
    (hpre : (pre.map Row.idx).Nodup)
    (items : List IVlan) (hL : ∀ q ∈ items, q.vlan ≠ v)
    {r : Row IVlan} (hr : r.idx = ex.idx) :
    vlanUpdAll pre items r = r := by
  induction items generalizing r with
  | nil => rfl
  | cons item rest ih =>
    simp only [vlanUpdAll, List.foldl_cons]
    rw [show vlanStep pre item r = r from
      vlanStep_other hfind hpre (hL item (List.mem_cons_self _ _)) hr]
    exact ih (fun q hq => hL q (List.mem_cons_of_mem _ hq)) hr

/-- The composite vlan loop effect on the row resolved for an item of a
number-unique iteration list: exactly the source's overwrite. -/
theorem vlanUpdAll_target {pre : List (Row IVlan)} {items : List IVlan}
    {item : IVlan} {ex : Row IVlan} (hmem : item ∈ items)
    (hkeys : (items.map IVlan.vlan).Nodup)
    (hfind : dictFind pre (fun q => q.val.vlan == item.vlan) = some ex)
    (hpre : (pre.map Row.idx).Nodup) :
    vlanUpdAll pre items ex = ⟨ex.idx, item⟩ := by
  induction items with
  | nil => cases hmem
  | cons it rest ih =>
    simp only [List.map_cons, List.nodup_cons] at hkeys
    rcases List.mem_cons.1 hmem with heq | hmem2
    · cases heq
      simp only [vlanUpdAll, List.foldl_cons, vlanStep, hfind, if_pos rfl]
      refine vlanUpdAll_notouch hfind hpre rest ?_ rfl
      intro q hq hEq
      apply hkeys.1
      rw [← hEq]
      have hmm := List.mem_map_of_mem IVlan.vlan hq
      exact hmm
    · have hk : it.vlan ≠ item.vlan := by
        intro hEq
        apply hkeys.1
        rw [hEq]
        exact List.mem_map_of_mem IVlan.vlan hmem2
      simp only [vlanUpdAll, List.foldl_cons]
      rw [show vlanStep pre it ex = ex from vlanStep_other hfind hpre hk rfl]
      exact ih hmem2 hkeys.2

/-- No vlan insert is collected when every item resolves. -/
theorem vlanInsertsOf_nil (pre : List (Row IVlan)) (items : List IVlan)
    (h : ∀ it ∈ items, ∃ ex,
      dictFind pre (fun q => q.val.vlan == it.vlan) = some ex) :
    vlanInsertsOf pre items = [] := by
  induction items with
  | nil => rfl
  | cons it rest ih =>
    obtain ⟨ex, hex⟩ := h it (List.mem_cons_self _ _)
    simp only [vlanInsertsOf, hex]
    exact ih fun q hq => h q (List.mem_cons_of_mem _ hq)

/-- A second Vlan Synchronizer run over the table a first run built is a
no-op: every deduplicated item resolves to its own row and is rewritten
unchanged. -/
theorem vlanstage_run2 (meta : Row IDevice) (s : Snapshot) (db : DB)
    (st : Status) (hst : st.l1interface = true)
    (hrows : db.vlans.rows =
      insertedRows 1 (uniqueVlansSorted meta.idx (sortedLayer1 s))) :
    vlan meta s (db, st) = (db, { st with vlan := true }) := by
  have hnd : (uniqueVlansSorted meta.idx (sortedLayer1 s)).Nodup :=
    uniqueVlansSorted_nodup meta.idx (sortedLayer1 s)
  have hvnd : ((uniqueVlansSorted meta.idx (sortedLayer1 s)).map
      IVlan.vlan).Nodup := by
    refine List.Nodup.map_on ?_ hnd
    intro x hx y hy hEq
    rw [uniqueVlansSorted_form meta.idx (sortedLayer1 s) hx,
      uniqueVlansSorted_form meta.idx (sortedLayer1 s) hy]
    rw [show IVlan.vlan x = x.vlan from rfl] at hEq
    rw [hEq]
  have hpre_eq : vlansOf db meta.idx = db.vlans.rows := by
    unfold vlansOf
    rw [List.filter_eq_self]
    intro r hr
    rw [hrows] at hr
    have hform := uniqueVlansSorted_form meta.idx (sortedLayer1 s)
      (insertedRows_val_mem hr)
    rw [hform]
    simp [mkVlan]
  have hndpre : ((vlansOf db meta.idx).map Row.idx).Nodup := by
    rw [hpre_eq, hrows]
    exact insertedRows_idx_nodup 1 _
  have hcount : ∀ k : Nat,
      (uniqueVlansSorted meta.idx (sortedLayer1 s)).countP
        (fun v => v.vlan == k) ≤ 1 := by
    intro k
    refine countP_le_one_of_nodup hnd ?_
    intro a ha b hb hpa hpb
    have ha1 : a.vlan = k := by simpa using hpa
    have hb1 : b.vlan = k := by simpa using hpb
    rw [uniqueVlansSorted_form meta.idx (sortedLayer1 s) ha,
      uniqueVlansSorted_form meta.idx (sortedLayer1 s) hb, ha1, hb1]
  have hfound : ∀ it ∈ uniqueVlansSorted meta.idx (sortedLayer1 s), ∃ ex,
      dictFind (vlansOf db meta.idx)
        (fun q => q.val.vlan == it.vlan) = some ex := by
    intro it hit
    apply dictFind_found
    obtain ⟨j, hj⟩ := insertedRows_mem 1 hit
    refine ⟨⟨j, it⟩, ?_, by simp⟩
    rw [hpre_eq, hrows]
    exact hj
  have hins : vlanInsertsOf (vlansOf db meta.idx)
      (uniqueVlansSorted meta.idx (sortedLayer1 s)) = [] :=
    vlanInsertsOf_nil _ _ hfound
  have hid : ∀ r ∈ db.vlans.rows,
      vlanUpdAll (vlansOf db meta.idx)
        (uniqueVlansSorted meta.idx (sortedLayer1 s)) r = r := by
    intro r hr
    have hr2 := hr
    rw [hrows] at hr2
    have hvm := insertedRows_val_mem hr2
    have hfr : dictFind (vlansOf db meta.idx)
        (fun q => q.val.vlan == r.val.vlan) = some r := by
      apply dictFind_unique
      · rw [hpre_eq]
        exact hr
      · simp
      · intro x hx hpx
        rw [hpre_eq, hrows] at hx
        exact insertedRows_unique_by (hcount r.val.vlan) hx hr2 hpx (by simp)
    have htarget := vlanUpdAll_target hvm hvnd hfr hndpre
    rw [htarget]
  have hspec := vlanLoop_spec (vlansOf db meta.idx)
    (uniqueVlansSorted meta.idx (sortedLayer1 s)) db.vlans []
  simp only [vlan, hspec, List.nil_append]
  rw [if_neg (by simp [hst])]
  rw [hins, ite_isEmpty_insertMany, Table.insertMany_nil]
  have hmap : db.vlans.rows.map (vlanUpdAll (vlansOf db meta.idx)
      (uniqueVlansSorted meta.idx (sortedLayer1 s))) = db.vlans.rows := by
    conv_rhs => rw [← List.map_id db.vlans.rows]
    exact List.map_congr_left hid
  rw [hmap]

/-- Form of an outer insert: a resolvable association's row. -/
theorem vpOuterInserts_mem (preIf : List (Row IL1Interface))
    (preVlans : List (Row IVlan)) (preVP : List (Row IVlanPort))
    {L : List (Nat × IfData)} {x : IVlanPort}
    (h : x ∈ vpOuterInserts preIf preVlans preVP L) :
    ∃ p, p ∈ L ∧ ∃ l1ex vs item vex,
      dictFind preIf (fun q => q.val.ifindex == p.1) = some l1ex ∧
      p.2.l1_vlans = some vs ∧
      item ∈ pySorted (fun a b => a ≤ b) vs ∧
      dictFind preVlans (fun q => q.val.vlan == item) = some vex ∧
      x = ⟨l1ex.idx, vex.idx, 1⟩ := by
  induction L with
  | nil => cases h
  | cons p rest ih =>
    rw [vpOuterInserts_cons] at h
    rcases List.mem_append.1 h with hseg | hrest
    · cases h1 : dictFind preIf (fun q => q.val.ifindex == p.1) with
      | none =>
        simp only [vpSeg, h1] at hseg
        cases hseg
      | some l1ex =>
        by_cases h2 : truthyL p.2.l1_vlans = true
        · cases h3 : p.2.l1_vlans with
          | none =>
            rw [h3] at h2
            simp [truthyL] at h2
          | some vs =>
            have h2v : truthyL (some vs) = true := by
              rw [← h3]
              exact h2
            simp only [vpSeg, h1, h3, h2v, if_true] at hseg
            obtain ⟨item, vex, hitem, hfv, _, hform⟩ :=
              vpInnerInserts_mem preVlans preVP l1ex.idx _ hseg
            exact ⟨p, List.mem_cons_self _ _, l1ex, vs, item, vex, h1, h3,
              hitem, hfv, hform⟩
        · have h2f : truthyL p.2.l1_vlans = false := by
            revert h2
            cases truthyL p.2.l1_vlans <;> simp
          simp only [vpSeg, h1] at hseg
          rw [if_neg (by simp [h2f])] at hseg
          cases hseg
    · obtain ⟨q, hq, hq2⟩ := ih hrest
      exact ⟨q, List.mem_cons_of_mem _ hq, hq2⟩

/-- No inner insert is collected when every resolvable pair is already in
the prefetched vlanport dict. -/
theorem vpInnerInserts_nil (preVlans : List (Row IVlan))
    (preVP : List (Row IVlanPort)) (idxL1 : Nat) (vs : List Nat)
    (h : ∀ item ∈ vs, ∀ vex,
      dictFind preVlans (fun q => q.val.vlan == item) = some vex →
      ∃ pex, dictFind preVP (fun q =>
        q.val.idx_l1interface == idxL1 && q.val.idx_vlan == vex.idx) =
          some pex) :
    vpInnerInserts preVlans preVP idxL1 vs = [] := by
  induction vs with
  | nil => rfl
  | cons item rest ih =>
    cases h1 : dictFind preVlans (fun q => q.val.vlan == item) with
    | none =>
      simp only [vpInnerInserts, h1]
      exact ih fun q hq vex hv => h q (List.mem_cons_of_mem _ hq) vex hv
    | some vex =>
      obtain ⟨pex, hpex⟩ := h item (List.mem_cons_self _ _) vex h1
      simp only [vpInnerInserts, h1, hpex]
      exact ih fun q hq vex2 hv => h q (List.mem_cons_of_mem _ hq) vex2 hv

/-- No outer insert is collected when every resolvable association is
already in the prefetched vlanport dict. -/
theorem vpOuterInserts_nil (preIf : List (Row IL1Interface))
    (preVlans : List (Row IVlan)) (preVP : List (Row IVlanPort))
    (L : List (Nat × IfData))
    (h : ∀ p ∈ L, ∀ l1ex,
      dictFind preIf (fun q => q.val.ifindex == p.1) = some l1ex →
      ∀ vs, p.2.l1_vlans = some vs →
      ∀ item ∈ pySorted (fun a b => a ≤ b) vs, ∀ vex,
      dictFind preVlans (fun q => q.val.vlan == item) = some vex →
      ∃ pex, dictFind preVP (fun q =>
        q.val.idx_l1interface == l1ex.idx && q.val.idx_vlan == vex.idx) =
          some pex) :
    vpOuterInserts preIf preVlans preVP L = [] := by
  induction L with
  | nil => rfl
  | cons p rest ih =>
    rw [vpOuterInserts_cons]
    have hseg : vpSeg preIf preVlans preVP p = [] := by
      cases h1 : dictFind preIf (fun q => q.val.ifindex == p.1) with
      | none => simp only [vpSeg, h1]
      | some l1ex =>
        by_cases h2 : truthyL p.2.l1_vlans = true
        · cases h3 : p.2.l1_vlans with
          | none =>
            rw [h3] at h2
            simp [truthyL] at h2
          | some vs =>
            have h2v : truthyL (some vs) = true := by
              rw [← h3]
              exact h2
            simp only [vpSeg, h1, h3, h2v, if_true]
            exact vpInnerInserts_nil preVlans preVP l1ex.idx _
              fun item hitem vex hv =>
                h p (List.mem_cons_self _ _) l1ex h1 vs h3 item hitem vex hv
        · have h2f : truthyL p.2.l1_vlans = false := by
            revert h2
            cases truthyL p.2.l1_vlans <;> simp
          simp only [vpSeg, h1]
          rw [if_neg (by simp [h2f])]
    rw [hseg, List.nil_append]
    exact ih fun q hq => h q (List.mem_cons_of_mem _ hq)

/-- Against an empty prefetched vlanport dict, each resolvable vlan of the
list contributes its association row to the inner inserts. -/
theorem vpInnerInserts_self_mem (preVlans : List (Row IVlan)) (idxL1 : Nat)
    {vs : List Nat} {item : Nat} {vex : Row IVlan} (hi : item ∈ vs)
    (hvex : dictFind preVlans (fun q => q.val.vlan == item) = some vex) :
    (⟨idxL1, vex.idx, 1⟩ : IVlanPort) ∈
      vpInnerInserts preVlans [] idxL1 vs := by
  induction vs with
  | nil => cases hi
  | cons v rest ih =>
    rcases List.mem_cons.1 hi with rfl | hi2
    · have hnone : dictFind ([] : List (Row IVlanPort)) (fun q =>
          q.val.idx_l1interface == idxL1 && q.val.idx_vlan == vex.idx) =
        none := rfl
      simp only [vpInnerInserts, hvex, hnone]
      exact List.mem_cons_self _ _
    · cases h1 : dictFind preVlans (fun q => q.val.vlan == v) with
      | none =>
        simp only [vpInnerInserts, h1]
        exact ih hi2
      | some vex2 =>
        have hnone : dictFind ([] : List (Row IVlanPort)) (fun q =>
            q.val.idx_l1interface == idxL1 && q.val.idx_vlan == vex2.idx) =
          none := rfl
        simp only [vpInnerInserts, h1, hnone]
        exact List.mem_cons_of_mem _ (ih hi2)

/-- Against an empty prefetched vlanport dict, each resolvable association
contributes its row to the outer inserts. -/
theorem vpOuterInserts_self_mem (preIf : List (Row IL1Interface))
    (preVlans : List (Row IVlan)) {L : List (Nat × IfData)}
    {p : Nat × IfData} {l1ex : Row IL1Interface} {vs : List Nat} {item : Nat}
    {vex : Row IVlan} (hp : p ∈ L)
    (hl1 : dictFind preIf (fun q => q.val.ifindex == p.1) = some l1ex)
    (hvs : p.2.l1_vlans = some vs)
    (hi : item ∈ pySorted (fun a b => a ≤ b) vs)
    (hvex : dictFind preVlans (fun q => q.val.vlan == item) = some vex) :
    (⟨l1ex.idx, vex.idx, 1⟩ : IVlanPort) ∈
      vpOuterInserts preIf preVlans [] L := by
  induction L with
  | nil => cases hp
  | cons q rest ih =>
    rw [vpOuterInserts_cons]
    rcases List.mem_cons.1 hp with rfl | hp2
    · apply List.mem_append_left
      have hne : vs ≠ [] := List.ne_nil_of_mem (mem_pySorted.1 hi)
      have htrv : truthyL (some vs) = true := by
        cases vs with
        | nil => exact absurd rfl hne
        | cons a l => rfl
      simp only [vpSeg, hl1, hvs, htrv, if_true]
      exact vpInnerInserts_self_mem preVlans l1ex.idx hi hvex
    · exact List.mem_append_right _ (ih hp2)

/-- A stored row every resolvable pair-overwrite of which restores its
payload survives the inner loop. -/
theorem vpInnerUpd_fix (preVlans : List (Row IVlan))
    (preVP : List (Row IVlanPort)) (idxL1 : Nat) (vs : List Nat)
    {r : Row IVlanPort}
    (h : ∀ item ∈ vs, ∀ vex,
      dictFind preVlans (fun q => q.val.vlan == item) = some vex →
      ∀ pex, dictFind preVP (fun q =>
        q.val.idx_l1interface == idxL1 && q.val.idx_vlan == vex.idx) =
          some pex →
      pex.idx = r.idx → (⟨idxL1, vex.idx, 1⟩ : IVlanPort) = r.val) :
    vpInnerUpd preVlans preVP idxL1 vs r = r := by
  induction vs with
  | nil => rfl
  | cons item rest ih =>
    simp only [vpInnerUpd, List.foldl_cons]
    have hstep : vpStep preVlans preVP idxL1 item r = r := by
      cases h1 : dictFind preVlans (fun q => q.val.vlan == item) with
      | none => simp only [vpStep, h1]
      | some vex =>
        cases h2 : dictFind preVP (fun q =>
            q.val.idx_l1interface == idxL1 && q.val.idx_vlan == vex.idx) with
        | none => simp only [vpStep, h1, h2]
        | some pex =>
          simp only [vpStep, h1, h2]
          by_cases hri : r.idx = pex.idx
          · rw [if_pos hri]
            have hval := h item (List.mem_cons_self _ _) vex h1 pex h2
              hri.symm
            rw [← hri, hval]
          · rw [if_neg hri]
    rw [hstep]
    exact ih fun it hit vex hv pex hp hidx =>
      h it (List.mem_cons_of_mem _ hit) vex hv pex hp hidx

/-- A stored row every resolvable association-overwrite of which restores
its payload survives the outer loop. -/
theorem vpOuterUpd_fix (preIf : List (Row IL1Interface))
    (preVlans : List (Row IVlan)) (preVP : List (Row IVlanPort))
    (L : List (Nat × IfData)) {r : Row IVlanPort}
    (h : ∀ p ∈ L, ∀ l1ex,
      dictFind preIf (fun q => q.val.ifindex == p.1) = some l1ex →
      ∀ vs, p.2.l1_vlans = some vs →
      ∀ item ∈ pySorted (fun a b => a ≤ b) vs, ∀ vex,
      dictFind preVlans (fun q => q.val.vlan == item) = some vex →
      ∀ pex, dictFind preVP (fun q =>
        q.val.idx_l1interface == l1ex.idx && q.val.idx_vlan == vex.idx) =
          some pex →
      pex.idx = r.idx → (⟨l1ex.idx, vex.idx, 1⟩ : IVlanPort) = r.val) :
    vpOuterUpd preIf preVlans preVP L r = r := by
  induction L with
  | nil => rfl
  | cons p rest ih =>
    simp only [vpOuterUpd, List.foldl_cons]
    have hstep : vpOuterStep preIf preVlans preVP p r = r := by
      cases h1 : dictFind preIf (fun q => q.val.ifindex == p.1) with
      | none => simp only [vpOuterStep, h1]
      | some l1ex =>
        simp only [vpOuterStep, h1]
        by_cases h2 : truthyL p.2.l1_vlans = true
        · cases h3 : p.2.l1_vlans with
          | none =>
            rw [h3] at h2
            simp [truthyL] at h2
          | some vs =>
            have h2v : truthyL (some vs) = true := by
              rw [← h3]
              exact h2
            rw [if_pos h2v]
            show vpInnerUpd preVlans preVP l1ex.idx
              (pySorted (fun a b => a ≤ b) vs) r = r
            exact vpInnerUpd_fix preVlans preVP l1ex.idx _
              fun item hitem vex hv pex hp2 hidx =>
                h p (List.mem_cons_self _ _) l1ex h1 vs h3 item hitem vex hv
                  pex hp2 hidx
        · rw [if_neg h2]
    rw [hstep]
    exact ih fun q hq => h q (List.mem_cons_of_mem _ hq)

/-- A second Vlan-Port Linker run over the table a first run built is a
no-op: every association resolves to its own row and is rewritten
unchanged. -/
theorem vpstage_run2 (meta : Row IDevice) (s : Snapshot) (db : DB)
    (st : Status) (hst : st.vlan = true)
    (hl1nd : (db.l1interfaces.rows.map Row.idx).Nodup)
    (hvnd : (db.vlans.rows.map Row.idx).Nodup)
    (hvp : db.vlanports.rows = insertedRows 1
      (vpOuterInserts (ifindexesOf db meta.idx) (vlansOf db meta.idx) []
        (sortedLayer1 s))) :
    vlanport meta s (db, st) = (db, { st with vlanport := true }) := by
  have hvpnd : (db.vlanports.rows.map Row.idx).Nodup := by
    rw [hvp]
    exact insertedRows_idx_nodup 1 _
  have hpre_eq : vlanportsOf db meta.idx = db.vlanports.rows := by
    unfold vlanportsOf
    rw [List.filter_eq_self]
    intro r hr
    rw [hvp] at hr
    obtain ⟨p, _, l1ex, vs, item, vex, hfi, _, _, _, hform⟩ :=
      vpOuterInserts_mem _ _ _ (insertedRows_val_mem hr)
    rw [List.any_eq_true]
    refine ⟨l1ex, dictFind_mem hfi, ?_⟩
    rw [hform]
    simp
  have hassoc : ∀ p ∈ sortedLayer1 s, ∀ l1ex,
      dictFind (ifindexesOf db meta.idx)
        (fun q => q.val.ifindex == p.1) = some l1ex →
      ∀ vs, p.2.l1_vlans = some vs →
      ∀ item ∈ pySorted (fun a b => a ≤ b) vs, ∀ vex,
      dictFind (vlansOf db meta.idx)
        (fun q => q.val.vlan == item) = some vex →
      ∃ pex, dictFind (vlanportsOf db meta.idx) (fun q =>
        q.val.idx_l1interface == l1ex.idx && q.val.idx_vlan == vex.idx) =
          some pex := by
    intro p hp l1ex hl1 vs hvs item hitem vex hvex
    apply dictFind_found
    have hmem : (⟨l1ex.idx, vex.idx, 1⟩ : IVlanPort) ∈
        vpOuterInserts (ifindexesOf db meta.idx) (vlansOf db meta.idx) []
          (sortedLayer1 s) :=
      vpOuterInserts_self_mem _ _ hp hl1 hvs hitem hvex
    obtain ⟨j, hj⟩ := insertedRows_mem 1 hmem
    refine ⟨⟨j, ⟨l1ex.idx, vex.idx, 1⟩⟩, ?_, by simp⟩
    rw [hpre_eq, hvp]
    exact hj
  have hins : vpOuterInserts (ifindexesOf db meta.idx) (vlansOf db meta.idx)
      (vlanportsOf db meta.idx) (sortedLayer1 s) = [] :=
    vpOuterInserts_nil _ _ _ _ hassoc
  have hid : ∀ r ∈ db.vlanports.rows,
      vpOuterUpd (ifindexesOf db meta.idx) (vlansOf db meta.idx)
        (vlanportsOf db meta.idx) (sortedLayer1 s) r = r := by
    intro r hr
    refine vpOuterUpd_fix _ _ _ _ ?_
    intro p hp l1ex hl1 vs hvs item hitem vex hvex pex hpex hidx
    have hpmem : pex ∈ db.vlanports.rows := by
      rw [← hpre_eq]
      exact dictFind_mem hpex
    have hpr : pex = r := row_eq_of_idx hvpnd hpmem hr hidx
    have hpp := dictFind_prop hpex
    rw [hpr] at hpp
    simp only [Bool.and_eq_true, beq_iff_eq] at hpp
    have hen : r.val.enabled = 1 := by
      have hr2 := hr
      rw [hvp] at hr2
      obtain ⟨_, _, _, _, _, _, _, _, _, _, hform⟩ :=
        vpOuterInserts_mem _ _ _ (insertedRows_val_mem hr2)
      rw [hform]
    rw [← hpp.1, ← hpp.2, ← hen]
  have hspec := vlanportLoop_spec (ifindexesOf db meta.idx)
    (vlansOf db meta.idx) (vlanportsOf db meta.idx) (sortedLayer1 s)
    db.vlanports []
  simp only [vlanport, hspec, List.nil_append]
  rw [if_neg (by simp [hst])]
  rw [hins, ite_isEmpty_insertMany, Table.insertMany_nil]
  have hmap : db.vlanports.rows.map
      (vpOuterUpd (ifindexesOf db meta.idx) (vlansOf db meta.idx)
        (vlanportsOf db meta.idx) (sortedLayer1 s)) =
      db.vlanports.rows := by
    conv_rhs => rw [← List.map_id db.vlanports.rows]
    exact List.map_congr_left hid
  rw [hmap]

/-- A second Mac loop run over a table already holding every processed mac
with its freshly built row is a no-op. -/
theorem macLoop_noop (lkp : List (String × Nat)) (L : List String)
    (t : Table IMac) (ins : List IMac)
    (hnd : (t.rows.map Row.idx).Nodup)
    (hall : ∀ item ∈ L, ∃ ex,
      t.findRow (fun r => r.val.mac == item) = some ex ∧
      ex.val = ⟨assocGet lkp (strTake item 6), 1, item, 1⟩) :
    macLoop lkp L t ins = (t, ins) := by
  induction L with
  | nil => rfl
  | cons item rest ih =>
    obtain ⟨ex, hex, hexval⟩ := hall item (List.mem_cons_self _ _)
    simp only [macLoop, hex]
    have hupd : t.update ex.idx
        ⟨assocGet lkp (strTake item 6), 1, item, 1⟩ = t := by
      apply Table.update_noop
      intro r hr hidx
      have hexmem : ex ∈ t.rows := List.mem_of_find?_eq_some hex
      have hre : r = ex := row_eq_of_idx hnd hr hexmem hidx
      rw [hre, hexval]
    rw [hupd]
    exact ih fun q hq => hall q (List.mem_cons_of_mem _ hq)

/-- A second Mac Synchronizer run over the table a first run built is a
no-op: every unique mac resolves to its own row, rewritten unchanged. -/
theorem macstage_run2 (meta : Row IDevice) (s : Snapshot) (db : DB)
    (st : Status) (hst : st.vlanport = true)
    (hm : db.macs.rows =
      insertedRows 1 (macFresh (macLkp meta s db) (macItems meta s db))) :
    mac meta s (db, st) = (db, { st with mac := true }) := by
  have hnd : (db.macs.rows.map Row.idx).Nodup := by
    rw [hm]
    exact insertedRows_idx_nodup 1 _
  have hall : ∀ item ∈ macItems meta s db, ∃ ex,
      db.macs.findRow (fun r => r.val.mac == item) = some ex ∧
      ex.val = ⟨assocGet (macLkp meta s db) (strTake item 6), 1, item, 1⟩ := by
    intro item hitem
    have hv : (⟨assocGet (macLkp meta s db) (strTake item 6), 1, item, 1⟩ :
        IMac) ∈ macFresh (macLkp meta s db) (macItems meta s db) :=
      List.mem_map_of_mem _ hitem
    obtain ⟨j, hj⟩ := insertedRows_mem 1 hv
    obtain ⟨ex, hex, hexmem, hexp⟩ := findRow_found (t := db.macs)
      (p := fun r => r.val.mac == item)
      ⟨⟨j, _⟩, by rw [hm]; exact hj, by simp⟩
    refine ⟨ex, hex, ?_⟩
    rw [hm] at hexmem
    obtain ⟨m2, hm2, hform⟩ := List.mem_map.1 (insertedRows_val_mem hexmem)
    have hmac : ex.val.mac = item := by simpa using hexp
    have hm2i : m2 = item := by
      rw [← hform] at hmac
      exact hmac
    rw [← hform, hm2i]
  have hloop := macLoop_noop (macLkp meta s db) (macItems meta s db)
    db.macs [] hnd hall
  simp only [macLkp, macItems] at hloop
  simp only [mac, hloop]
  rw [if_neg (by simp [hst])]
  rfl

/-- A second Mac-Port inner loop run over a table already holding every
resolvable pair, enabled, is a no-op. -/
theorem macportInner_noop (tMac : Table IMac) (l1 : Row IL1Interface)
    (ms : List String) (t : Table IMacPort)
    (hnd : (t.rows.map Row.idx).Nodup)
    (hen : ∀ r ∈ t.rows, r.val.enabled = 1)
    (h : ∀ item ∈ ms, ∀ mex,
      tMac.findRow (fun r => r.val.mac == item) = some mex →
      (l1.idx, mex.idx) ∈ mpPairs t.rows) :
    macportInner tMac (some l1) ms t = .ok t := by
  induction ms with
  | nil => rfl
  | cons item rest ih =>
    cases hfm : tMac.findRow (fun r => r.val.mac == item) with
    | none =>
      simp only [macportInner, hfm]
      exact ih fun q hq mex hm => h q (List.mem_cons_of_mem _ hq) mex hm
    | some mex =>
      have hp := h item (List.mem_cons_self _ _) mex hfm
      obtain ⟨r0, hr0, hpr0⟩ := List.mem_map.1 hp
      simp only [Prod.mk.injEq] at hpr0
      obtain ⟨pex, hpex, hpmem, hppred⟩ := findRow_found (t := t)
        (p := fun r => r.val.idx_l1interface == l1.idx &&
          r.val.idx_mac == mex.idx)
        ⟨r0, hr0, by simp [hpr0.1, hpr0.2]⟩
      simp only [macportInner, hfm, hpex]
      have hupd : t.update pex.idx ⟨l1.idx, mex.idx, 1⟩ = t := by
        apply Table.update_noop
        intro r hr hidx
        have hre : r = pex := row_eq_of_idx hnd hr hpmem hidx
        subst hre
        have he := hen r hr
        simp only [Bool.and_eq_true, beq_iff_eq] at hppred
        rw [← hppred.1, ← hppred.2, ← he]
      rw [hupd]
      exact ih fun q hq mex2 hm2 => h q (List.mem_cons_of_mem _ hq) mex2 hm2

/-- A second Mac-Port outer loop run over a table already holding every
resolvable association, enabled, is a no-op. -/
theorem macportLoop_noop (tMac : Table IMac)
    (preIf : List (Row IL1Interface)) (L : List (Nat × IfData))
    (t : Table IMacPort)
    (hnd : (t.rows.map Row.idx).Nodup)
    (hen : ∀ r ∈ t.rows, r.val.enabled = 1)
    (h : ∀ p ∈ L, ∀ ms, p.2.l1_macs = some ms →
      ∀ item ∈ pySorted (fun a b => a ≤ b) ms,
      ∀ mex, tMac.findRow (fun r => r.val.mac == item) = some mex →
      ∀ l1ex, dictFind preIf (fun q => q.val.ifindex == p.1) = some l1ex →
        (l1ex.idx, mex.idx) ∈ mpPairs t.rows)
    (hif : ∀ p ∈ L, truthyL p.2.l1_macs = true →
      (dictFind preIf (fun q => q.val.ifindex == p.1)).isSome) :
    macportLoop tMac preIf L t = .ok t := by
  induction L with
  | nil => rfl
  | cons p rest ih =>
    obtain ⟨ifx, i⟩ := p
    by_cases htr : truthyL i.l1_macs = true
    · cases hms : i.l1_macs with
      | none =>
        rw [hms] at htr
        simp [truthyL] at htr
      | some ms =>
        have htr2 : truthyL (some ms) = true := by
          rw [← hms]
          exact htr
        have hsome := hif (ifx, i) (List.mem_cons_self _ _) htr
        cases hle : dictFind preIf (fun q => q.val.ifindex == ifx) with
        | none =>
          rw [hle] at hsome
          simp at hsome
        | some l1 =>
          have hinner := macportInner_noop tMac l1
            (pySorted (fun a b => a ≤ b) ms) t hnd hen
            fun item hitem mex hm =>
              h (ifx, i) (List.mem_cons_self _ _) ms hms item hitem mex hm
                l1 hle
          simp only [macportLoop, hle, hms, htr2, if_true, hinner]
          exact ih
            (fun q hq ms2 hms2 item hitem mex hm l1ex hl1 =>
              h q (List.mem_cons_of_mem _ hq) ms2 hms2 item hitem mex hm
                l1ex hl1)
            fun q hq htq => hif q (List.mem_cons_of_mem _ hq) htq
    · have hf : truthyL i.l1_macs = false := by
        revert htr
        cases truthyL i.l1_macs <;> simp
      simp only [macportLoop]
      rw [if_neg (by simp [hf])]
      exact ih
        (fun q hq ms2 hms2 item hitem mex hm l1ex hl1 =>
          h q (List.mem_cons_of_mem _ hq) ms2 hms2 item hitem mex hm
            l1ex hl1)
        fun q hq htq => hif q (List.mem_cons_of_mem _ hq) htq

/-- A second Mac-Port Linker run over the table a first run built is a
no-op and completes. -/
theorem macportstage_run2 (meta : Row IDevice) (s : Snapshot) (db : DB)
    (st : Status) (hst : st.mac = true)
    (hnd : (db.macports.rows.map Row.idx).Nodup)
    (hen : ∀ r ∈ db.macports.rows, r.val.enabled = 1)
    (hpres : ∀ p ∈ sortedLayer1 s, ∀ ms, p.2.l1_macs = some ms →
      ∀ item ∈ pySorted (fun a b => a ≤ b) ms,
      ∀ mex, db.macs.findRow (fun r => r.val.mac == item) = some mex →
      ∀ l1ex, dictFind (ifindexesOf db meta.idx)
        (fun q => q.val.ifindex == p.1) = some l1ex →
        (l1ex.idx, mex.idx) ∈ mpPairs db.macports.rows)
    (hif : ∀ p ∈ sortedLayer1 s, truthyL p.2.l1_macs = true →
      (dictFind (ifindexesOf db meta.idx)
        (fun q => q.val.ifindex == p.1)).isSome) :
    macport meta s (db, st) = .ok (db, { st with macport := true }) := by
  have hloop := macportLoop_noop db.macs (ifindexesOf db meta.idx)
    (sortedLayer1 s) db.macports hnd hen hpres hif
  simp only [macport]
  rw [if_neg (by simp [hst])]
  simp only [hloop]

/-- Each entry with a valid address and resolvable mac contributes its row
to the kept rows. -/
theorem keptRows_self_mem (env : Env) (tMac : Table IMac) (d ver : Nat)
    {ents : List (String × String)} {e : String × String} (he : e ∈ ents)
    {ip : String} (hip : env.ipNorm e.1 = some ip)
    {mex : Row IMac}
    (hfm : tMac.findRow (fun r => r.val.mac == env.macNorm e.2) = some mex) :
    (⟨d, mex.idx, ip, if env.dns then env.dnsLookup ip else none, ver, 1⟩ :
      IMacIp) ∈ keptRows env tMac d ver ents := by
  induction ents with
  | nil => cases he
  | cons e0 rest ih =>
    rcases List.mem_cons.1 he with rfl | he2
    · simp only [keptRows, hip, hfm]
      exact List.mem_cons_self _ _
    · cases h1 : env.ipNorm e0.1 with
      | none =>
        simp only [keptRows, h1]
        exact ih he2
      | some ip0 =>
        cases h2 : tMac.findRow (fun r => r.val.mac == env.macNorm e0.2) with
        | none =>
          simp only [keptRows, h1, h2]
          exact ih he2
        | some mex0 =>
          simp only [keptRows, h1, h2]
          exact List.mem_cons_of_mem _ (ih he2)

/-- A neighbor-table walk against a table already holding every kept row
keeps nothing new and schedules only payload-preserving updates. -/
theorem processMacip_noop (env : Env) (tMac : Table IMac) (t : Table IMacIp)
    (d ver : Nat) (ents : List (String × String)) (adds : List IMacIp)
    (upds : List (Nat × IMacIp))
    (hnd : (t.rows.map Row.idx).Nodup)
    (h : ∀ e ∈ ents, ∀ ip, env.ipNorm e.1 = some ip →
      ∀ mex, tMac.findRow (fun r => r.val.mac == env.macNorm e.2) = some mex →
      (∃ r ∈ t.rows, (r.val.idx_device == d && r.val.idx_mac == mex.idx
          && r.val.ip_ == ip) = true) ∧
      ∀ r ∈ t.rows, (r.val.idx_device == d && r.val.idx_mac == mex.idx
          && r.val.ip_ == ip) = true →
        r.val = ⟨d, mex.idx, ip,
          if env.dns then env.dnsLookup ip else none, ver, 1⟩) :
    ∃ upds2, processMacip env tMac t d ver ents adds upds =
        (adds, upds ++ upds2) ∧
      ∀ q ∈ upds2, ∀ r ∈ t.rows, r.idx = q.1 → r.val = q.2 := by
  induction ents generalizing upds with
  | nil =>
    refine ⟨[], ?_, ?_⟩
    · simp [processMacip]
    · intro q hq
      cases hq
  | cons e rest ih =>
    cases hip : env.ipNorm e.1 with
    | none =>
      obtain ⟨u2, hu, hprop⟩ := ih upds
        fun q hq => h q (List.mem_cons_of_mem _ hq)
      refine ⟨u2, ?_, hprop⟩
      simp only [processMacip, hip]
      exact hu
    | some ip =>
      cases hfm : tMac.findRow (fun r => r.val.mac == env.macNorm e.2) with
      | none =>
        obtain ⟨u2, hu, hprop⟩ := ih upds
          fun q hq => h q (List.mem_cons_of_mem _ hq)
        refine ⟨u2, ?_, hprop⟩
        simp only [processMacip, hip, hfm]
        exact hu
      | some mex =>
        obtain ⟨hex, hval⟩ := h e (List.mem_cons_self _ _) ip hip mex hfm
        obtain ⟨pex, hpex, hpmem, hppred⟩ := findRow_found (t := t)
          (p := fun r => r.val.idx_device == d && r.val.idx_mac == mex.idx
            && r.val.ip_ == ip) hex
        obtain ⟨u2, hu, hprop⟩ := ih (upds ++ [(pex.idx, ⟨d, mex.idx, ip,
            if env.dns then env.dnsLookup ip else none, ver, 1⟩)])
          fun q hq => h q (List.mem_cons_of_mem _ hq)
        refine ⟨(pex.idx, ⟨d, mex.idx, ip,
          if env.dns then env.dnsLookup ip else none, ver, 1⟩) :: u2, ?_, ?_⟩
        · simp only [processMacip, hip, hfm, hpex]
          rw [hu, List.append_assoc]
          rfl
        · intro q hq
          rcases List.mem_cons.1 hq with rfl | hq2
          · intro r hr hidx
            have hre : r = pex := row_eq_of_idx hnd hr hpmem hidx
            rw [hre]
            exact hval pex hpmem hppred
          · exact hprop q hq2

/-- Scheduled updates that all restore their row's payload fold to the
identity. -/
theorem foldl_update_noop {α : Type} (t : Table α) (us : List (Nat × α))
    (h : ∀ q ∈ us, ∀ r ∈ t.rows, r.idx = q.1 → r.val = q.2) :
    us.foldl (fun t2 q => t2.update q.1 q.2) t = t := by
  induction us with
  | nil => rfl
  | cons q rest ih =>
    rw [List.foldl_cons]
    rw [show t.update q.1 q.2 = t from Table.update_noop
      fun r hr hidx => h q (List.mem_cons_self _ _) r hr hidx]
    exact ih fun q2 hq2 => h q2 (List.mem_cons_of_mem _ hq2)

/-- The kept rows do not depend on the clock. -/
theorem keptRows_congr (env env2 : Env) (tMac : Table IMac) (d ver : Nat)
    (hip : env2.ipNorm = env.ipNorm) (hmac : env2.macNorm = env.macNorm)
    (hdns : env2.dns = env.dns) (hlk : env2.dnsLookup = env.dnsLookup)
    (ents : List (String × String)) :
    keptRows env2 tMac d ver ents = keptRows env tMac d ver ents := by
  induction ents with
  | nil => rfl
  | cons e rest ih =>
    simp only [keptRows, hip, hmac, hdns, hlk, ih]

/-- The kept rows of a whole run do not depend on the clock. -/
theorem macipAdds_congr (env env2 : Env) (tMac : Table IMac) (d : Nat)
    (s : Snapshot)
    (hip : env2.ipNorm = env.ipNorm) (hmac : env2.macNorm = env.macNorm)
    (hdns : env2.dns = env.dns) (hlk : env2.dnsLookup = env.dnsLookup) :
    macipAdds env2 tMac d s = macipAdds env tMac d s := by
  unfold macipAdds
  rw [keptRows_congr env env2 tMac d 4 hip hmac hdns hlk,
    keptRows_congr env env2 tMac d 6 hip hmac hdns hlk]

/-- A second Mac-IP Synchronizer run over the table a first run built is a
no-op: every kept entry resolves to its own stored row, whose scheduled
update restores it, and nothing is added. -/
theorem macipstage_run2 (env : Env) (meta : Row IDevice) (s : Snapshot)
    (db : DB) (st : Status) (hst : st.macport = true)
    (hmrows : db.macips.rows = insertedRows 1
      (pySorted macipLE (macipAdds env db.macs meta.idx s)))
    (hknd : ((macipAdds env db.macs meta.idx s).map
      (fun x => (x.idx_device, x.idx_mac, x.ip_))).Nodup) :
    macip env meta s (db, st) = (db, st) := by
  have hnd : (db.macips.rows.map Row.idx).Nodup := by
    rw [hmrows]
    exact insertedRows_idx_nodup 1 _
  have hmain : ∀ rowv : IMacIp, rowv ∈ macipAdds env db.macs meta.idx s →
      (∃ r ∈ db.macips.rows, (r.val.idx_device == rowv.idx_device &&
        r.val.idx_mac == rowv.idx_mac && r.val.ip_ == rowv.ip_) = true) ∧
      ∀ r ∈ db.macips.rows, (r.val.idx_device == rowv.idx_device &&
        r.val.idx_mac == rowv.idx_mac && r.val.ip_ == rowv.ip_) = true →
        r.val = rowv := by
    intro rowv hrowv
    constructor
    · have hsort : rowv ∈ pySorted macipLE (macipAdds env db.macs meta.idx s) :=
        mem_pySorted.2 hrowv
      obtain ⟨j, hj⟩ := insertedRows_mem 1 hsort
      refine ⟨⟨j, rowv⟩, ?_, by simp⟩
      rw [hmrows]
      exact hj
    · intro r hr hpred
      rw [hmrows] at hr
      have hvm : r.val ∈ macipAdds env db.macs meta.idx s :=
        mem_pySorted.1 (insertedRows_val_mem hr)
      simp only [Bool.and_eq_true, beq_iff_eq] at hpred
      refine List.inj_on_of_nodup_map hknd hvm hrowv ?_
      rw [hpred.1.1, hpred.1.2, hpred.2]
  have hin4 : ∀ x : IMacIp,
      x ∈ keptRows env db.macs meta.idx 4 (s.ipv4.getD []) →
      x ∈ macipAdds env db.macs meta.idx s := by
    intro x hx
    unfold macipAdds
    by_cases t4 : truthyL s.ipv4 = true
    · rw [if_pos t4]
      exact List.mem_append_left _ hx
    · exfalso
      have hge : s.ipv4.getD [] = [] := by
        cases hs4 : s.ipv4 with
        | none => rfl
        | some l =>
          rw [hs4] at t4
          cases l with
          | nil => rfl
          | cons a tl => exact absurd rfl t4
      rw [hge] at hx
      cases hx
  have hin6 : ∀ x : IMacIp,
      x ∈ keptRows env db.macs meta.idx 6 (s.ipv6.getD []) →
      x ∈ macipAdds env db.macs meta.idx s := by
    intro x hx
    unfold macipAdds
    by_cases t6 : truthyL s.ipv6 = true
    · rw [if_pos t6]
      exact List.mem_append_right _ hx
    · exfalso
      have hge : s.ipv6.getD [] = [] := by
        cases hs6 : s.ipv6 with
        | none => rfl
        | some l =>
          rw [hs6] at t6
          cases l with
          | nil => rfl
          | cons a tl => exact absurd rfl t6
      rw [hge] at hx
      cases hx
  obtain ⟨u4, hu4, hprop4⟩ := processMacip_noop env db.macs db.macips
    meta.idx 4 (s.ipv4.getD []) [] [] hnd
    fun e he ip hip mex hfm =>
      hmain _ (hin4 _ (keptRows_self_mem env db.macs meta.idx 4 he hip hfm))
  obtain ⟨u6, hu6, hprop6⟩ := processMacip_noop env db.macs db.macips
    meta.idx 6 (s.ipv6.getD []) [] [] hnd
    fun e he ip hip mex hfm =>
      hmain _ (hin6 _ (keptRows_self_mem env db.macs meta.idx 6 he hip hfm))
  simp only [List.nil_append] at hu4 hu6
  simp only [macip]
  rw [if_neg (by simp [hst])]
  by_cases t4 : truthyL s.ipv4 = true
  · by_cases t6 : truthyL s.ipv6 = true
    · rw [if_pos t4, if_pos t6, hu4, hu6]
      simp only [List.nil_append]
      have hfold : (pySorted (fun a b => a.1 ≤ b.1) (u4 ++ u6)).foldl
          (fun t2 q => t2.update q.1 q.2) db.macips = db.macips := by
        apply foldl_update_noop
        intro q hq
        rcases List.mem_append.1 (mem_pySorted.1 hq) with hq2 | hq2
        · exact hprop4 q hq2
        · exact hprop6 q hq2
      rw [hfold]
      rw [show pySorted macipLE ([] : List IMacIp) = [] from rfl,
        Table.insertMany_nil]
    · rw [if_pos t4, if_neg t6, hu4]
      simp only [List.nil_append, List.append_nil]
      have hfold : (pySorted (fun a b => a.1 ≤ b.1) u4).foldl
          (fun t2 q => t2.update q.1 q.2) db.macips = db.macips := by
        apply foldl_update_noop
        intro q hq
        exact hprop4 q (mem_pySorted.1 hq)
      rw [hfold]
      rw [show pySorted macipLE ([] : List IMacIp) = [] from rfl,
        Table.insertMany_nil]
  · by_cases t6 : truthyL s.ipv6 = true
    · rw [if_neg t4, if_pos t6, hu6]
      simp only [List.nil_append]
      have hfold : (pySorted (fun a b => a.1 ≤ b.1) u6).foldl
          (fun t2 q => t2.update q.1 q.2) db.macips = db.macips := by
        apply foldl_update_noop
        intro q hq
        exact hprop6 q (mem_pySorted.1 hq)
      rw [hfold]
      rw [show pySorted macipLE ([] : List IMacIp) = [] from rfl,
        Table.insertMany_nil]
    · rw [if_neg t4, if_neg t6]
      simp only [List.nil_append]
      rw [show pySorted (fun a b : Nat × IMacIp => a.1 ≤ b.1)
          ([] : List (Nat × IMacIp)) = [] from rfl]
      rw [List.foldl_nil]
      rw [show pySorted macipLE ([] : List IMacIp) = [] from rfl,
        Table.insertMany_nil]

/-- Natural-key uniqueness across the seven entity tables. -/
def dbKeysUnique (db : DB) : Prop :=
  (db.devices.rows.map (fun r => r.val.hostname)).Nodup ∧
  (db.l1interfaces.rows.map
    (fun r => (r.val.idx_device, r.val.ifindex))).Nodup ∧
  (db.vlans.rows.map (fun r => (r.val.idx_device, r.val.vlan))).Nodup ∧
  (db.vlanports.rows.map
    (fun r => (r.val.idx_l1interface, r.val.idx_vlan))).Nodup ∧
  (db.macs.rows.map (fun r => r.val.mac)).Nodup ∧
  (db.macports.rows.map
    (fun r => (r.val.idx_l1interface, r.val.idx_mac))).Nodup ∧
  (db.macips.rows.map
    (fun r => (r.val.idx_device, r.val.idx_mac, r.val.ip_))).Nodup

/-- Key-unique interfaces yield key-unique fresh interface rows. -/
theorem l1Fresh_keys_nodup (d : Nat) {L : List (Nat × IfData)}
    (hkeys : (L.map Prod.fst).Nodup) :
    ((l1Fresh d L).map (fun v => (v.idx_device, v.ifindex))).Nodup := by
  unfold l1Fresh
  rw [List.map_map]
  have h1 : ((fun v : IL1Interface => (v.idx_device, v.ifindex)) ∘
      (fun p : Nat × IfData => mkL1 d p.1 p.2 0 1)) =
    ((fun k : Nat => (d, k)) ∘ Prod.fst) := rfl
  rw [h1, ← List.map_map]
  refine List.Nodup.map ?_ hkeys
  intro a b hEq
  injection hEq with h2 h3

/-- The deduplicated sorted vlan candidates carry distinct keys. -/
theorem vlanItems_keys_nodup (d : Nat) (l1 : List (Nat × IfData)) :
    ((uniqueVlansSorted d l1).map
      (fun v => (v.idx_device, v.vlan))).Nodup := by
  refine List.Nodup.map_on ?_ (uniqueVlansSorted_nodup d l1)
  intro x hx y hy hEq
  have hx2 := uniqueVlansSorted_form d l1 hx
  have hy2 := uniqueVlansSorted_form d l1 hy
  injection hEq with h1 h2
  rw [hx2, hy2, h2]

/-- Distinct vlans of one interface land on distinct reference pairs. -/
theorem vpInnerInserts_pairs_nodup (preVlans : List (Row IVlan))
    (idxL1 : Nat) (vs : List Nat) (hnd : vs.Nodup)
    (hV : (preVlans.map Row.idx).Nodup) :
    ((vpInnerInserts preVlans [] idxL1 vs).map
      (fun x => (x.idx_l1interface, x.idx_vlan))).Nodup := by
  induction vs with
  | nil => simp [vpInnerInserts]
  | cons item rest ih =>
    rcases List.nodup_cons.1 hnd with ⟨hnm, hndr⟩
    cases h1 : dictFind preVlans (fun q => q.val.vlan == item) with
    | none =>
      simp only [vpInnerInserts, h1]
      exact ih hndr
    | some vex =>
      have hnone : dictFind ([] : List (Row IVlanPort)) (fun q =>
          q.val.idx_l1interface == idxL1 && q.val.idx_vlan == vex.idx) =
        none := rfl
      simp only [vpInnerInserts, h1, hnone, List.map_cons, List.nodup_cons]
      refine ⟨?_, ih hndr⟩
      intro hmem
      obtain ⟨x, hx, hxp⟩ := List.mem_map.1 hmem
      obtain ⟨item2, vex2, hitem2, hf2, _, hform⟩ :=
        vpInnerInserts_mem preVlans [] idxL1 rest hx
      subst hform
      simp only [Prod.mk.injEq] at hxp
      have hvv : vex2 = vex := List.inj_on_of_nodup_map hV
        (dictFind_mem hf2) (dictFind_mem h1) hxp.2
      have h1p := dictFind_prop h1
      have h2p := dictFind_prop hf2
      simp at h1p h2p
      rw [hvv, h1p] at h2p
      exact hnm (by rw [h2p]; exact hitem2)

/-- Across interfaces and vlans, the Vlan-Port insert batch carries
pairwise distinct reference pairs. -/
theorem vpOuterInserts_pairs_nodup (preIf : List (Row IL1Interface))
    (preVlans : List (Row IVlan)) (L : List (Nat × IfData))
    (hIf : (preIf.map Row.idx).Nodup) (hV : (preVlans.map Row.idx).Nodup)
    (hkeys : (L.map Prod.fst).Nodup)
    (hvl : ∀ p ∈ L, ∀ vs, p.2.l1_vlans = some vs → vs.Nodup) :
    ((vpOuterInserts preIf preVlans [] L).map
      (fun x => (x.idx_l1interface, x.idx_vlan))).Nodup := by
  induction L with
  | nil => simp [vpOuterInserts]
  | cons p rest ih =>
    simp only [List.map_cons, List.nodup_cons] at hkeys
    rw [vpOuterInserts_cons, List.map_append, List.nodup_append]
    refine ⟨?_, ?_, ?_⟩
    · cases h1 : dictFind preIf (fun q => q.val.ifindex == p.1) with
      | none => simp [vpSeg, h1]
      | some l1ex =>
        by_cases h2 : truthyL p.2.l1_vlans = true
        · cases h3 : p.2.l1_vlans with
          | none =>
            rw [h3] at h2
            simp [truthyL] at h2
          | some vs =>
            have h2v : truthyL (some vs) = true := by
              rw [← h3]
              exact h2
            simp only [vpSeg, h1, h3, h2v, if_true]
            refine vpInnerInserts_pairs_nodup preVlans l1ex.idx _ ?_ hV
            exact ((pySorted_perm _ _).nodup_iff).2
              (hvl p (List.mem_cons_self _ _) vs h3)
        · have h2f : truthyL p.2.l1_vlans = false := by
            revert h2
            cases truthyL p.2.l1_vlans <;> simp
          simp only [vpSeg, h1]
          rw [if_neg (by simp [h2f])]
          simp
    · exact ih hkeys.2
        fun q hq vs hvs => hvl q (List.mem_cons_of_mem _ hq) vs hvs
    · intro a ha hmem2
      obtain ⟨x, hx, hxp⟩ := List.mem_map.1 ha
      have hxone : x ∈ vpOuterInserts preIf preVlans [] [p] := by
        rw [vpOuterInserts_cons]
        exact List.mem_append_left _ hx
      obtain ⟨p0, hp0, l1ex, vs, item, vex, hfi, hvs, hitem, hfv, hform⟩ :=
        vpOuterInserts_mem _ _ _ hxone
      have hp0e := List.mem_singleton.1 hp0
      subst hp0e
      obtain ⟨x2, hx2b, hxp2⟩ := List.mem_map.1 hmem2
      obtain ⟨q, hq, l1ex2, vs2, item2, vex2, hfi2, hvs2, hitem2, hfv2,
        hform2⟩ := vpOuterInserts_mem _ _ _ hx2b
      subst hform
      subst hform2
      rw [← hxp] at hxp2
      simp only [Prod.mk.injEq] at hxp2
      have hl : l1ex2 = l1ex := List.inj_on_of_nodup_map hIf
        (dictFind_mem hfi2) (dictFind_mem hfi) hxp2.1
      have e1 := dictFind_prop hfi
      have e2 := dictFind_prop hfi2
      simp at e1 e2
      rw [hl] at e2
      have hpq : p0.1 = q.1 := by
        rw [← e1, e2]
      exact hkeys.1 (by rw [hpq]; exact List.mem_map_of_mem Prod.fst hq)

/-- The keys of the kept rows, resolved from the normalized entry keys. -/
theorem keptRows_keys (env : Env) (tMac : Table IMac) (d ver : Nat)
    (ents : List (String × String)) :
    (keptRows env tMac d ver ents).map
        (fun x => (x.idx_device, x.idx_mac, x.ip_)) =
      (ents.filterMap (fun e => (env.ipNorm e.1).map
          (fun ip => (ip, env.macNorm e.2)))).filterMap
        (fun q => (tMac.findRow (fun r => r.val.mac == q.2)).map
          (fun mex => (d, mex.idx, q.1))) := by
  induction ents with
  | nil => rfl
  | cons e rest ih =>
    cases hip : env.ipNorm e.1 with
    | none => simp [keptRows, List.filterMap_cons, hip, ih]
    | some ip =>
      cases hfm : tMac.findRow (fun r => r.val.mac == env.macNorm e.2) with
      | none => simp [keptRows, List.filterMap_cons, hip, hfm, ih]
      | some mex => simp [keptRows, List.filterMap_cons, hip, hfm, ih]

/-- Distinct normalized neighbor keys yield distinct MacIp keys: the kept
rows of one run are key-unique. -/
theorem macipAdds_keys_nodup (env : Env) (tMac : Table IMac) (d : Nat)
    (s : Snapshot) (hndM : (tMac.rows.map Row.idx).Nodup)
    (h : (neighborKeys env s).Nodup) :
    ((macipAdds env tMac d s).map
      (fun x => (x.idx_device, x.idx_mac, x.ip_))).Nodup := by
  have hside : ∀ (ver : Nat) (o : Option (List (String × String))),
      (if truthyL o = true then keptRows env tMac d ver (o.getD [])
          else []).map (fun x => (x.idx_device, x.idx_mac, x.ip_)) =
      ((if truthyL o = true then o.getD [] else []).filterMap
          (fun e => (env.ipNorm e.1).map
            (fun ip => (ip, env.macNorm e.2)))).filterMap
        (fun q => (tMac.findRow (fun r => r.val.mac == q.2)).map
          (fun mex => (d, mex.idx, q.1))) := by
    intro ver o
    by_cases t : truthyL o = true
    · rw [if_pos t, if_pos t]
      exact keptRows_keys env tMac d ver _
    · rw [if_neg t, if_neg t]
      rfl
  have hkeys : (macipAdds env tMac d s).map
      (fun x => (x.idx_device, x.idx_mac, x.ip_)) =
    (neighborKeys env s).filterMap
      (fun q => (tMac.findRow (fun r => r.val.mac == q.2)).map
        (fun mex => (d, mex.idx, q.1))) := by
    unfold macipAdds neighborKeys
    rw [List.filterMap_append, List.map_append, hside 4 s.ipv4,
      hside 6 s.ipv6, List.filterMap_append]
  rw [hkeys]
  refine List.Nodup.filterMap ?_ h
  intro q1 q2 k hk1 hk2
  cases hf1 : tMac.findRow (fun r => r.val.mac == q1.2) with
  | none =>
    rw [hf1] at hk1
    simp at hk1
  | some mex1 =>
    cases hf2 : tMac.findRow (fun r => r.val.mac == q2.2) with
    | none =>
      rw [hf2] at hk2
      simp at hk2
    | some mex2 =>
      rw [hf1] at hk1
      rw [hf2] at hk2
      simp at hk1 hk2
      have hk12 := hk1.trans hk2.symm
      injection hk12 with e1 e23
      injection e23 with e2 e3
      have hmm : mex1 = mex2 := List.inj_on_of_nodup_map hndM
        (List.mem_of_find?_eq_some hf1) (List.mem_of_find?_eq_some hf2) e2
      have p1 := List.find?_some hf1
      have p2 := List.find?_some hf2
      simp at p1 p2
      rw [hmm] at p1
      have hsnd : q1.2 = q2.2 := by
        rw [← p1, p2]
      exact Prod.ext e3 hsnd

/-- Every snapshot interface resolves in the prefetched dict of a table
built by a fresh Interface Synchronizer run. -/
theorem l1Fresh_find (db : DB) (d : Nat) (s : Snapshot)
    (hrows : db.l1interfaces.rows =
      insertedRows 1 (l1Fresh d (sortedLayer1 s))) :
    ∀ p ∈ sortedLayer1 s, ∃ ex,
      dictFind (ifindexesOf db d) (fun q => q.val.ifindex == p.1) =
        some ex := by
  have hpre_eq : ifindexesOf db d = db.l1interfaces.rows := by
    unfold ifindexesOf
    rw [List.filter_eq_self]
    intro r hr
    rw [hrows] at hr
    obtain ⟨p, hp, hval⟩ := List.mem_map.1 (insertedRows_val_mem hr)
    rw [← hval]
    simp [mkL1]
  intro p hp
  apply dictFind_found
  have hv : mkL1 d p.1 p.2 0 1 ∈ l1Fresh d (sortedLayer1 s) :=
    List.mem_map_of_mem _ hp
  obtain ⟨j, hj⟩ := insertedRows_mem 1 hv
  refine ⟨⟨j, mkL1 d p.1 p.2 0 1⟩, ?_, by simp [mkL1]⟩
  rw [hpre_eq, hrows]
  exact hj

/-- The store after a fresh run's Device Registrar. -/
def dbAfterDevice (ouis : List (Row String)) (host sn sd so : String)
    (su ts : Nat) : DB :=
  { DB.emptyWith ouis with
    devices := ⟨[⟨1, deviceRow host sn sd so su ts⟩], 2⟩ }

/-- The store after a fresh run's Interface Synchronizer. -/
def dbAfterL1 (ouis : List (Row String)) (host sn sd so : String)
    (su ts : Nat) (s : Snapshot) : DB :=
  { dbAfterDevice ouis host sn sd so su ts with
    l1interfaces := ⟨insertedRows 1 (l1Fresh 1 (sortedLayer1 s)),
      1 + (l1Fresh 1 (sortedLayer1 s)).length⟩ }

/-- The store after a fresh run's Vlan Synchronizer. -/
def dbAfterVlan (ouis : List (Row String)) (host sn sd so : String)
    (su ts : Nat) (s : Snapshot) : DB :=
  { dbAfterL1 ouis host sn sd so su ts s with
    vlans := ⟨insertedRows 1 (uniqueVlansSorted 1 (sortedLayer1 s)),
      1 + (uniqueVlansSorted 1 (sortedLayer1 s)).length⟩ }

/-- The store after a fresh run's Vlan-Port Linker. -/
def dbAfterVlanPort (ouis : List (Row String)) (host sn sd so : String)
    (su ts : Nat) (s : Snapshot) : DB :=
  { dbAfterVlan ouis host sn sd so su ts s with
    vlanports := ⟨insertedRows 1
        (vpOuterInserts (ifindexesOf (dbAfterVlan ouis host sn sd so su ts s) 1)
          (vlansOf (dbAfterVlan ouis host sn sd so su ts s) 1) []
          (sortedLayer1 s)),
      1 + (vpOuterInserts (ifindexesOf (dbAfterVlan ouis host sn sd so su ts s) 1)
          (vlansOf (dbAfterVlan ouis host sn sd so su ts s) 1) []
          (sortedLayer1 s)).length⟩ }

/-- The store after a fresh run's Mac Synchronizer. -/
def dbAfterMac (ouis : List (Row String)) (host sn sd so : String)
    (su ts : Nat) (s : Snapshot) : DB :=
  { dbAfterVlanPort ouis host sn sd so su ts s with
    macs := ⟨insertedRows 1 (macFresh
        (macLkp ⟨1, deviceRow host sn sd so su ts⟩ s
          (dbAfterVlanPort ouis host sn sd so su ts s))
        (macItems ⟨1, deviceRow host sn sd so su ts⟩ s
          (dbAfterVlanPort ouis host sn sd so su ts s))),
      1 + (macFresh
        (macLkp ⟨1, deviceRow host sn sd so su ts⟩ s
          (dbAfterVlanPort ouis host sn sd so su ts s))
        (macItems ⟨1, deviceRow host sn sd so su ts⟩ s
          (dbAfterVlanPort ouis host sn sd so su ts s))).length⟩ }

/-- The store after a fresh run's Mac-Port Linker (its table is the live
loop's result). -/
def dbAfterMacPort (t5 : Table IMacPort) (ouis : List (Row String))
    (host sn sd so : String) (su ts : Nat) (s : Snapshot) : DB :=
  { dbAfterMac ouis host sn sd so su ts s with macports := t5 }

/-- The store a whole fresh run builds. -/
def dbRun1 (env : Env) (t5 : Table IMacPort) (ouis : List (Row String))
    (host sn sd so : String) (su ts : Nat) (s : Snapshot) : DB :=
  { dbAfterMacPort t5 ouis host sn sd so su ts s with
    macips := ⟨insertedRows 1 (pySorted macipLE
        (macipAdds env (dbAfterMacPort t5 ouis host sn sd so su ts s).macs
          1 s)),
      1 + (pySorted macipLE
        (macipAdds env (dbAfterMacPort t5 ouis host sn sd so su ts s).macs
          1 s)).length⟩ }

/-- **C2.** (amended) From a fresh store, reconciling the identical snapshot
twice produces the identical final store state, and no table holds two rows
with the same natural key afterwards, provided: every snapshot interface is
admin-up with oper-up or admin-down (otherwise the first run records
idle-since 0 and the second stamps the clock); interface keys are unique;
each interface's vlan list is duplicate-free; and no two neighbor-table
entries normalize to the same (address, mac) key. -/
theorem C2_idempotent_reconcile (env : Env) (now2 : Nat) (s : Snapshot)
    (ouis : List (Row String)) (host sn sd so : String) (su ts : Nat)
    (hh : s.host = some host) (hn : s.sysName = some sn)
    (hd : s.sysDescr = some sd) (ho : s.sysObjectID = some so)
    (hu : s.sysUpTime = some su) (ht : s.timestamp = some ts)
    (hkeys : (s.layer1.map Prod.fst).Nodup)
    (hstat : ∀ p ∈ s.layer1,
      (p.2.ifAdminStatus = some 1 ∧ p.2.ifOperStatus = some 1) ∨
        p.2.ifAdminStatus = some 2)
    (hvl : ∀ p ∈ s.layer1, ∀ vs, p.2.l1_vlans = some vs → vs.Nodup)
    (hnb : (neighborKeys env s).Nodup) :
    ∃ db1, process env s (DB.emptyWith ouis) = .ok db1 ∧
      process { env with now := now2 } s db1 = .ok db1 ∧
      dbKeysUnique db1 := by
  have hkeysL : ((sortedLayer1 s).map Prod.fst).Nodup :=
    (((pySorted_perm _ _).map Prod.fst).nodup_iff).2 hkeys
  have h0 : device (DB.emptyWith ouis) s =
      .ok (⟨1, deviceRow host sn sd so su ts⟩,
        dbAfterDevice ouis host sn sd so su ts) :=
    device_fresh _ s host sn sd so su ts rfl hh hn hd ho hu ht
  have h1 : l1interface env ⟨1, deviceRow host sn sd so su ts⟩ s true
      (dbAfterDevice ouis host sn sd so su ts, Status.start) =
      (dbAfterL1 ouis host sn sd so su ts s,
        ⟨true, false, false, false, false, false⟩) :=
    l1stage_fresh env ⟨1, deviceRow host sn sd so su ts⟩ s
      (dbAfterDevice ouis host sn sd so su ts) Status.start rfl
  have h2 : vlan ⟨1, deviceRow host sn sd so su ts⟩ s
      (dbAfterL1 ouis host sn sd so su ts s,
        ⟨true, false, false, false, false, false⟩) =
      (dbAfterVlan ouis host sn sd so su ts s,
        ⟨true, true, false, false, false, false⟩) :=
    vlanstage_fresh ⟨1, deviceRow host sn sd so su ts⟩ s
      (dbAfterL1 ouis host sn sd so su ts s)
      ⟨true, false, false, false, false, false⟩ rfl rfl
  have h3 : vlanport ⟨1, deviceRow host sn sd so su ts⟩ s
      (dbAfterVlan ouis host sn sd so su ts s,
        ⟨true, true, false, false, false, false⟩) =
      (dbAfterVlanPort ouis host sn sd so su ts s,
        ⟨true, true, true, false, false, false⟩) :=
    vpstage_fresh ⟨1, deviceRow host sn sd so su ts⟩ s
      (dbAfterVlan ouis host sn sd so su ts s)
      ⟨true, true, false, false, false, false⟩ rfl rfl
  have h4 : mac ⟨1, deviceRow host sn sd so su ts⟩ s
      (dbAfterVlanPort ouis host sn sd so su ts s,
        ⟨true, true, true, false, false, false⟩) =
      (dbAfterMac ouis host sn sd so su ts s,
        ⟨true, true, true, true, false, false⟩) :=
    macstage_fresh ⟨1, deviceRow host sn sd so su ts⟩ s
      (dbAfterVlanPort ouis host sn sd so su ts s)
      ⟨true, true, true, false, false, false⟩ rfl rfl
  have hif1 : ∀ p ∈ sortedLayer1 s, truthyL p.2.l1_macs = true →
      (dictFind (ifindexesOf (dbAfterMac ouis host sn sd so su ts s) 1)
        (fun q => q.val.ifindex == p.1)).isSome := by
    intro p hp htr
    obtain ⟨ex, hex⟩ :=
      l1Fresh_find (dbAfterMac ouis host sn sd so su ts s) 1 s rfl p hp
    rw [hex]
    rfl
  obtain ⟨t5, hloop5, hstep5⟩ := macportstage_ok
    ⟨1, deviceRow host sn sd so su ts⟩ s
    (dbAfterMac ouis host sn sd so su ts s)
    ⟨true, true, true, true, false, false⟩ rfl hif1
  have h5 : macport ⟨1, deviceRow host sn sd so su ts⟩ s
      (dbAfterMac ouis host sn sd so su ts s,
        ⟨true, true, true, true, false, false⟩) =
      .ok (dbAfterMacPort t5 ouis host sn sd so su ts s,
        ⟨true, true, true, true, true, false⟩) := hstep5
  have h6 : macip env ⟨1, deviceRow host sn sd so su ts⟩ s
      (dbAfterMacPort t5 ouis host sn sd so su ts s,
        ⟨true, true, true, true, true, false⟩) =
      (dbRun1 env t5 ouis host sn sd so su ts s,
        ⟨true, true, true, true, true, false⟩) :=
    macipstage_fresh env ⟨1, deviceRow host sn sd so su ts⟩ s
      (dbAfterMacPort t5 ouis host sn sd so su ts s)
      ⟨true, true, true, true, true, false⟩ rfl rfl
  have hrun1 : process env s (DB.emptyWith ouis) =
      .ok (dbRun1 env t5 ouis host sn sd so su ts s) := by
    simp only [process, h0]
    simp only [Topology.process]
    rw [show topologyValid (dbAfterDevice ouis host sn sd so su ts)
      ⟨1, deviceRow host sn sd so su ts⟩ = true from rfl]
    rw [h1, h2, h3, h4]
    simp only [h5]
    rw [h6]
  have hinv0 : mpInv (⟨[], 1⟩ : Table IMacPort) :=
    ⟨⟨List.nodup_nil, fun r hr => absurd hr (List.not_mem_nil _)⟩,
      fun r hr => absurd hr (List.not_mem_nil _), List.nodup_nil⟩
  have hloop5b : macportLoop (dbAfterMac ouis host sn sd so su ts s).macs
      (ifindexesOf (dbAfterMac ouis host sn sd so su ts s) 1)
      (sortedLayer1 s) ⟨[], 1⟩ = .ok t5 := hloop5
  obtain ⟨hinv5, hmono5, hpres5⟩ := macportLoop_inv _ _ _ _ _ hloop5b hinv0
  have hmacsrows : (dbRun1 env t5 ouis host sn sd so su ts s).macs.rows =
      insertedRows 1 (macFresh
        (macLkp ⟨1, deviceRow host sn sd so su ts⟩ s
          (dbAfterVlanPort ouis host sn sd so su ts s))
        (macItems ⟨1, deviceRow host sn sd so su ts⟩ s
          (dbAfterVlanPort ouis host sn sd so su ts s))) := rfl
  have hmacsnd : ((dbRun1 env t5 ouis host sn sd so su ts s).macs.rows.map
      Row.idx).Nodup := by
    rw [hmacsrows]
    exact insertedRows_idx_nodup 1 _
  have hd2 : device (dbRun1 env t5 ouis host sn sd so su ts s) s =
      .ok (⟨1, deviceRow host sn sd so su ts⟩,
        dbRun1 env t5 ouis host sn sd so su ts s) :=
    device_again _ s host sn sd so su ts rfl hh hn hd ho hu ht
  have h2a : l1interface { env with now := now2 }
      ⟨1, deviceRow host sn sd so su ts⟩ s true
      (dbRun1 env t5 ouis host sn sd so su ts s, Status.start) =
      (dbRun1 env t5 ouis host sn sd so su ts s,
        ⟨true, false, false, false, false, false⟩) :=
    l1stage_run2 { env with now := now2 } ⟨1, deviceRow host sn sd so su ts⟩
      s (dbRun1 env t5 ouis host sn sd so su ts s) Status.start rfl hkeys
      hstat
  have h2b : vlan ⟨1, deviceRow host sn sd so su ts⟩ s
      (dbRun1 env t5 ouis host sn sd so su ts s,
        ⟨true, false, false, false, false, false⟩) =
      (dbRun1 env t5 ouis host sn sd so su ts s,
        ⟨true, true, false, false, false, false⟩) :=
    vlanstage_run2 ⟨1, deviceRow host sn sd so su ts⟩ s
      (dbRun1 env t5 ouis host sn sd so su ts s)
      ⟨true, false, false, false, false, false⟩ rfl rfl
  have hl1nd : ((dbRun1 env t5 ouis host sn sd so su ts
      s).l1interfaces.rows.map Row.idx).Nodup := by
    rw [show (dbRun1 env t5 ouis host sn sd so su ts s).l1interfaces.rows =
      insertedRows 1 (l1Fresh 1 (sortedLayer1 s)) from rfl]
    exact insertedRows_idx_nodup 1 _
  have hvnd : ((dbRun1 env t5 ouis host sn sd so su ts s).vlans.rows.map
      Row.idx).Nodup := by
    rw [show (dbRun1 env t5 ouis host sn sd so su ts s).vlans.rows =
      insertedRows 1 (uniqueVlansSorted 1 (sortedLayer1 s)) from rfl]
    exact insertedRows_idx_nodup 1 _
  have h2c : vlanport ⟨1, deviceRow host sn sd so su ts⟩ s
      (dbRun1 env t5 ouis host sn sd so su ts s,
        ⟨true, true, false, false, false, false⟩) =
      (dbRun1 env t5 ouis host sn sd so su ts s,
        ⟨true, true, true, false, false, false⟩) :=
    vpstage_run2 ⟨1, deviceRow host sn sd so su ts⟩ s
      (dbRun1 env t5 ouis host sn sd so su ts s)
      ⟨true, true, false, false, false, false⟩ rfl hl1nd hvnd rfl
  have h2d : mac ⟨1, deviceRow host sn sd so su ts⟩ s
      (dbRun1 env t5 ouis host sn sd so su ts s,
        ⟨true, true, true, false, false, false⟩) =
      (dbRun1 env t5 ouis host sn sd so su ts s,
        ⟨true, true, true, true, false, false⟩) :=
    macstage_run2 ⟨1, deviceRow host sn sd so su ts⟩ s
      (dbRun1 env t5 ouis host sn sd so su ts s)
      ⟨true, true, true, false, false, false⟩ rfl rfl
  have h2e : macport ⟨1, deviceRow host sn sd so su ts⟩ s
      (dbRun1 env t5 ouis host sn sd so su ts s,
        ⟨true, true, true, true, false, false⟩) =
      .ok (dbRun1 env t5 ouis host sn sd so su ts s,
        ⟨true, true, true, true, true, false⟩) :=
    macportstage_run2 ⟨1, deviceRow host sn sd so su ts⟩ s
      (dbRun1 env t5 ouis host sn sd so su ts s)
      ⟨true, true, true, true, false, false⟩ rfl hinv5.1.1 hinv5.2.1 hpres5
      hif1
  have hcongr : macipAdds { env with now := now2 }
      (dbRun1 env t5 ouis host sn sd so su ts s).macs 1 s =
      macipAdds env (dbRun1 env t5 ouis host sn sd so su ts s).macs 1 s :=
    macipAdds_congr env { env with now := now2 } _ 1 s rfl rfl rfl rfl
  have hmrows : (dbRun1 env t5 ouis host sn sd so su ts s).macips.rows =
      insertedRows 1 (pySorted macipLE (macipAdds { env with now := now2 }
        (dbRun1 env t5 ouis host sn sd so su ts s).macs 1 s)) := by
    rw [hcongr]
    rfl
  have hknd2 : ((macipAdds { env with now := now2 }
      (dbRun1 env t5 ouis host sn sd so su ts s).macs 1 s).map
      (fun x => (x.idx_device, x.idx_mac, x.ip_))).Nodup := by
    rw [hcongr]
    exact macipAdds_keys_nodup env _ 1 s hmacsnd hnb
  have h2f : macip { env with now := now2 }
      ⟨1, deviceRow host sn sd so su ts⟩ s
      (dbRun1 env t5 ouis host sn sd so su ts s,
        ⟨true, true, true, true, true, false⟩) =
      (dbRun1 env t5 ouis host sn sd so su ts s,
        ⟨true, true, true, true, true, false⟩) :=
    macipstage_run2 { env with now := now2 }
      ⟨1, deviceRow host sn sd so su ts⟩ s
      (dbRun1 env t5 ouis host sn sd so su ts s)
      ⟨true, true, true, true, true, false⟩ rfl hmrows hknd2
  have hrun2 : process { env with now := now2 } s
      (dbRun1 env t5 ouis host sn sd so su ts s) =
      .ok (dbRun1 env t5 ouis host sn sd so su ts s) := by
    simp only [process, hd2]
    simp only [Topology.process]
    rw [show topologyValid (dbRun1 env t5 ouis host sn sd so su ts s)
      ⟨1, deviceRow host sn sd so su ts⟩ = true from rfl]
    rw [h2a, h2b, h2c, h2d]
    simp only [h2e]
    rw [h2f]
  refine ⟨dbRun1 env t5 ouis host sn sd so su ts s, hrun1, hrun2,
    ?_, ?_, ?_, ?_, ?_, ?_, ?_⟩
  · exact List.nodup_singleton _
  · have e2 : (dbRun1 env t5 ouis host sn sd so su ts
        s).l1interfaces.rows.map
        (fun r => (r.val.idx_device, r.val.ifindex)) =
        (l1Fresh 1 (sortedLayer1 s)).map
          (fun v => (v.idx_device, v.ifindex)) :=
      insertedRows_map_val 1 (l1Fresh 1 (sortedLayer1 s))
        (fun v => (v.idx_device, v.ifindex))
    rw [e2]
    exact l1Fresh_keys_nodup 1 hkeysL
  · have e3 : (dbRun1 env t5 ouis host sn sd so su ts s).vlans.rows.map
        (fun r => (r.val.idx_device, r.val.vlan)) =
        (uniqueVlansSorted 1 (sortedLayer1 s)).map
          (fun v => (v.idx_device, v.vlan)) :=
      insertedRows_map_val 1 (uniqueVlansSorted 1 (sortedLayer1 s))
        (fun v => (v.idx_device, v.vlan))
    rw [e3]
    exact vlanItems_keys_nodup 1 (sortedLayer1 s)
  · have e4 : (dbRun1 env t5 ouis host sn sd so su ts s).vlanports.rows.map
        (fun r => (r.val.idx_l1interface, r.val.idx_vlan)) =
        (vpOuterInserts
            (ifindexesOf (dbAfterVlan ouis host sn sd so su ts s) 1)
            (vlansOf (dbAfterVlan ouis host sn sd so su ts s) 1) []
            (sortedLayer1 s)).map
          (fun x => (x.idx_l1interface, x.idx_vlan)) :=
      insertedRows_map_val 1
        (vpOuterInserts
          (ifindexesOf (dbAfterVlan ouis host sn sd so su ts s) 1)
          (vlansOf (dbAfterVlan ouis host sn sd so su ts s) 1) []
          (sortedLayer1 s))
        (fun x => (x.idx_l1interface, x.idx_vlan))
    rw [e4]
    refine vpOuterInserts_pairs_nodup _ _ _ ?_ ?_ hkeysL ?_
    · have hsub : List.Sublist
          (ifindexesOf (dbAfterVlan ouis host sn sd so su ts s) 1)
          (dbAfterVlan ouis host sn sd so su ts s).l1interfaces.rows :=
        List.filter_sublist _
      refine List.Nodup.sublist (hsub.map Row.idx) ?_
      rw [show (dbAfterVlan ouis host sn sd so su ts s).l1interfaces.rows =
        insertedRows 1 (l1Fresh 1 (sortedLayer1 s)) from rfl]
      exact insertedRows_idx_nodup 1 _
    · have hsub : List.Sublist
          (vlansOf (dbAfterVlan ouis host sn sd so su ts s) 1)
          (dbAfterVlan ouis host sn sd so su ts s).vlans.rows :=
        List.filter_sublist _
      refine List.Nodup.sublist (hsub.map Row.idx) ?_
      rw [show (dbAfterVlan ouis host sn sd so su ts s).vlans.rows =
        insertedRows 1 (uniqueVlansSorted 1 (sortedLayer1 s)) from rfl]
      exact insertedRows_idx_nodup 1 _
    · intro p hp vs hvs
      exact hvl p (mem_pySorted.1 hp) vs hvs
  · have e5 : (dbRun1 env t5 ouis host sn sd so su ts s).macs.rows.map
        (fun r => r.val.mac) =
        (macFresh
          (macLkp ⟨1, deviceRow host sn sd so su ts⟩ s
            (dbAfterVlanPort ouis host sn sd so su ts s))
          (macItems ⟨1, deviceRow host sn sd so su ts⟩ s
            (dbAfterVlanPort ouis host sn sd so su ts s))).map
          (fun v => v.mac) :=
      insertedRows_map_val 1
        (macFresh
          (macLkp ⟨1, deviceRow host sn sd so su ts⟩ s
            (dbAfterVlanPort ouis host sn sd so su ts s))
          (macItems ⟨1, deviceRow host sn sd so su ts⟩ s
            (dbAfterVlanPort ouis host sn sd so su ts s)))
        (fun v => v.mac)
    rw [e5]
    have e5b : (macFresh
        (macLkp ⟨1, deviceRow host sn sd so su ts⟩ s
          (dbAfterVlanPort ouis host sn sd so su ts s))
        (macItems ⟨1, deviceRow host sn sd so su ts⟩ s
          (dbAfterVlanPort ouis host sn sd so su ts s))).map
        (fun v => v.mac) =
        macItems ⟨1, deviceRow host sn sd so su ts⟩ s
          (dbAfterVlanPort ouis host sn sd so su ts s) := by
      unfold macFresh
      rw [List.map_map]
      rw [show ((fun v : IMac => v.mac) ∘ (fun m => (⟨assocGet
        (macLkp ⟨1, deviceRow host sn sd so su ts⟩ s
          (dbAfterVlanPort ouis host sn sd so su ts s)) (strTake m 6),
        1, m, 1⟩ : IMac))) = id from rfl]
      rw [List.map_id]
    rw [e5b]
    exact ((pySorted_perm _ _).nodup_iff).2 (List.nodup_dedup _)
  · exact hinv5.2.2
  · have e7 : (dbRun1 env t5 ouis host sn sd so su ts s).macips.rows.map
        (fun r => (r.val.idx_device, r.val.idx_mac, r.val.ip_)) =
        (pySorted macipLE (macipAdds env
          (dbRun1 env t5 ouis host sn sd so su ts s).macs 1 s)).map
          (fun x => (x.idx_device, x.idx_mac, x.ip_)) :=
      insertedRows_map_val 1
        (pySorted macipLE (macipAdds env
          (dbRun1 env t5 ouis host sn sd so su ts s).macs 1 s))
        (fun x => (x.idx_device, x.idx_mac, x.ip_))
    rw [e7]
    refine (((pySorted_perm macipLE _).map _).nodup_iff).2 ?_
    exact macipAdds_keys_nodup env _ 1 s hmacsnd hnb

/-! ## Reconcile-twice fixtures -/

/-- An interface that is administratively up but operationally down. -/
def ifHalfC2 : IfData :=
  { ifAdminStatus := some 1, ifOperStatus := some 2, ifSpeed := none,
    ifAlias := none, ifDescr := none, l1_duplex := none, l1_ethernet := none,
    l1_trunk := none, l1_nativevlan := none, l1_vlans := none,
    l1_macs := none, cdpCacheDeviceId := none, cdpCacheDevicePort := none,
    cdpCachePlatform := none, lldpRemPortDesc := none,
    lldpRemSysCapEnabled := none, lldpRemSysDesc := none,
    lldpRemSysName := none }

/-- A snapshot whose only interface is admin-up but oper-down. -/
def snapHalfC2 : Snapshot :=
  { host := some "sw1", sysName := some "sw1", sysDescr := some "desc",
    sysObjectID := some "oid", sysUpTime := some 5, timestamp := some 10,
    layer1 := [(1, ifHalfC2)], ipv4 := none, ipv6 := none }

/-- An environment whose clock reads `n` (no dns, no neighbor oracles). -/
def envAtC2 (n : Nat) : Env :=
  { now := n, dns := false, dnsLookup := fun _ => none,
    ipNorm := fun _ => none, macNorm := fun m => m }

/-- A healthy interface: admin-up, oper-up, with vlans and an attached mac. -/
def ifUpC2 : IfData :=
  { ifAdminStatus := some 1, ifOperStatus := some 1, ifSpeed := some 1000,
    ifAlias := some "uplink", ifDescr := some "Gi1", l1_duplex := some 2,
    l1_ethernet := some 1, l1_trunk := some 0, l1_nativevlan := some 1,
    l1_vlans := some [20, 10], l1_macs := some ["aabbccddee01"],
    cdpCacheDeviceId := none, cdpCacheDevicePort := none,
    cdpCachePlatform := none, lldpRemPortDesc := none,
    lldpRemSysCapEnabled := none, lldpRemSysDesc := none,
    lldpRemSysName := none }

/-- A shut interface (admin-down). -/
def ifDownC2 : IfData :=
  { ifAdminStatus := some 2, ifOperStatus := some 2, ifSpeed := some 1000,
    ifAlias := none, ifDescr := some "Gi2", l1_duplex := none,
    l1_ethernet := some 1, l1_trunk := none, l1_nativevlan := none,
    l1_vlans := some [10], l1_macs := none, cdpCacheDeviceId := none,
    cdpCacheDevicePort := none, cdpCachePlatform := none,
    lldpRemPortDesc := none, lldpRemSysCapEnabled := none,
    lldpRemSysDesc := none, lldpRemSysName := none }

/-- A snapshot exercising every stage: two interfaces (out of ifindex
order), vlans, a mac and an ARP entry for it. -/
def snapFullC2 : Snapshot :=
  { host := some "sw1", sysName := some "sw1", sysDescr := some "desc",
    sysObjectID := some "oid", sysUpTime := some 5, timestamp := some 10,
    layer1 := [(2, ifDownC2), (1, ifUpC2)],
    ipv4 := some [("10.0.0.5", "aa:bb:cc:dd:ee:01")], ipv6 := none }

/-- An environment with dns on and table-based address/mac oracles. -/
def envFullC2 : Env :=
  { now := 100, dns := true,
    dnsLookup := fun a => if a == "10.0.0.5" then some "host5" else none,
    ipNorm := fun a => if a == "10.0.0.5" then some "10.0.0.5" else none,
    macNorm := fun m =>
      if m == "aa:bb:cc:dd:ee:01" then "aabbccddee01" else strLower m }

/-- An OUI reference table resolving the witness mac's vendor prefix. -/
def ouisC2 : List (Row String) := [⟨7, "aabbcc"⟩]

/-- Counterexample to the unconditional reading of the reconcile-twice
claim: an interface that is admin-up but oper-down is inserted with
idle-since 0 by the first run, and the second run stamps the current clock
on it, so the two resulting stores differ. -/
theorem C2_idempotent_counterexample :
    ∃ d1 d2, process (envAtC2 100) snapHalfC2 (DB.emptyWith []) = .ok d1 ∧
      process (envAtC2 200) snapHalfC2 d1 = .ok d2 ∧
      d1.l1interfaces.rows.map (fun r => r.val.ts_idle) = [0] ∧
      d2.l1interfaces.rows.map (fun r => r.val.ts_idle) = [200] ∧
      d1 ≠ d2 := by
  refine ⟨_, _, rfl, rfl, rfl, rfl, ?_⟩
  decide

/-- Witness for the amended reconcile-twice theorem at a concrete device
snapshot meeting its provisos. -/
theorem C2_idempotent_reconcile_witness :
    ∃ db1, process envFullC2 snapFullC2 (DB.emptyWith ouisC2) = .ok db1 ∧
      process { envFullC2 with now := 200 } snapFullC2 db1 = .ok db1 ∧
      dbKeysUnique db1 :=
  C2_idempotent_reconcile envFullC2 200 snapFullC2 ouisC2
    "sw1" "sw1" "desc" "oid" 5 10 rfl rfl rfl rfl rfl rfl
    (by decide) (by decide)
    (by
      intro p hp vs hvs
      rcases List.mem_cons.1 hp with rfl | hp2
      · injection hvs with h
        exact h ▸ (show ([10] : List Nat).Nodup by decide)
      · rcases List.mem_cons.1 hp2 with rfl | hp3
        · injection hvs with h
          exact h ▸ (show ([20, 10] : List Nat).Nodup by decide)
        · exact absurd hp3 (List.not_mem_nil _))
    (by decide)

end Switchmap
